import Mathlib

/-!
# Three-address code generation (`ast.h`)

A shallow embedding of the code generator of `ast.h`.  Every node class of the
header becomes a constructor of an inductive type and every `generate_code`
method becomes a function from the generation context to the lines it appends
to the output stream, the name it returns and the context it leaves behind.

Conventions of the embedding:

* `outcode` is only ever appended to, one line per `endl`, and never read, so a
  call is described by the list of lines it appends (`Gen.out`).
* `symbol_to_temp`, `temp_count` and `label_count` are the reference parameters
  of `generate_code`; `temp_cond`, `var_last_loaded_temp` and
  `var_last_assigned_temp` are the globals of the header.  Together they form
  `Ctx`.
* `temp_count` and `label_count` are C++ `int`s that only ever grow by `++`.
  Signed overflow is undefined behaviour, so there is no wrap-around to model:
  the counters are natural numbers and `to_string` is the decimal `toString`.
* `node_type` of an expression is stored by the constructors and never read by
  any `generate_code`, so expression constructors do not carry it.
* Child pointers that the code dereferences unconditionally are plain fields;
  child pointers that the code tests against `nullptr` are `Option`s.
-/

/-! ## Maps -/

/-- A `std::map<string, string>`: the value stored under each key, if any. -/
abbrev StrMap := String → Option String

/-- The map after `clear()`. -/
def StrMap.clear : StrMap := fun _ => none

/-- The map after `m[k] = v`. -/
def StrMap.insert (m : StrMap) (k v : String) : StrMap :=
  fun q => if q = k then some v else m q

/-- The map after `m.erase(k)`. -/
def StrMap.erase (m : StrMap) (k : String) : StrMap :=
  fun q => if q = k then none else m q

/-- Reading `m[k]`: the stored value and the map afterwards.  As in `std::map`, a
missing key is first inserted with the empty string. -/
def StrMap.subscript (m : StrMap) (k : String) : String × StrMap :=
  match m k with
  | some v => (v, m)
  | none => ("", m.insert k "")

/-- The guarded insertion
`if (m.find(name) == m.end()) m[name] = name;` used at every first reference. -/
def StrMap.bind_self (m : StrMap) (name : String) : StrMap :=
  match m name with
  | none => m.insert name name
  | some _ => m

/-! ## Generation context and results -/

/-- The mutable state threaded through every `generate_code` call. -/
structure Ctx where
  symbol_to_temp : StrMap
  temp_count : Nat
  label_count : Nat
  temp_cond : String
  var_last_loaded_temp : StrMap
  var_last_assigned_temp : StrMap

/-- What one `generate_code` call does: the lines appended to `outcode`, the names
produced by the `"t" + to_string(temp_count++)` expressions it executed (in
order), the returned string and the context afterwards. -/
structure Gen where
  out : List String
  temps : List String
  ret : String
  ctx : Ctx

/-- Result of the argument loop of `FuncCallNode::generate_code`. -/
structure GenArgs where
  out : List String
  temps : List String
  arg_temps : List String
  ctx : Ctx

/-- The string `"t" + to_string(k)`. -/
def temp_name (k : Nat) : String := "t" ++ toString k

/-- The text `L<k>:` of a label definition line. -/
def label_line (k : Nat) : String := "L" ++ toString k ++ ":"

/-- The text `goto L<k>`. -/
def goto_line (k : Nat) : String := "goto L" ++ toString k

/-- The text `if <cond> goto L<k>`. -/
def if_line (cond : String) (k : Nat) : String := "if " ++ cond ++ " goto L" ++ toString k

/-- The test of `VarNode::generate_code` for a storage name that is already a
temporary: longer than one character, first character `t`, all others digits. -/
def is_temp (var_temp : String) : Bool :=
  match var_temp.data with
  | 't' :: c :: rest => (c :: rest).all Char.isDigit
  | _ => false

/-! ## Syntax tree -/

/-- The expression classes.  `AssignNode` owns a `VarNode` as its left-hand side,
given here by that node's `name` and `index`. -/
inductive ExprNode where
  | VarNode (name : String) (index : Option ExprNode)
  | ConstNode (value : String)
  | BinaryOpNode (op : String) (left right : ExprNode)
  | UnaryOpNode (op : String) (expr : ExprNode)
  | AssignNode (lhs_name : String) (lhs_index : Option ExprNode) (rhs : ExprNode)
  | FuncCallNode (func_name : String) (arguments : List ExprNode)

/-- The statement classes.  `DeclNode` carries its type name and its
`(name, array_size)` pairs. -/
inductive StmtNode where
  | ExprStmtNode (expr : Option ExprNode)
  | BlockNode (statements : List StmtNode)
  | IfNode (condition : ExprNode) (then_block : StmtNode) (else_block : Option StmtNode)
  | WhileNode (condition : ExprNode) (body : StmtNode)
  | ForNode (init condition update : Option ExprNode) (body : StmtNode)
  | ReturnNode (expr : Option ExprNode)
  | DeclNode (type : String) (vars : List (String × Int))

/-- A function declaration: `params` holds `(type, name)` pairs and `body` is the
owned `BlockNode` (its statement list), absent while `body == nullptr`. -/
structure FuncDeclNode where
  return_type : String
  name : String
  params : List (String × String)
  body : Option (List StmtNode)

/-- Anything a `ProgramNode` can hold as a unit: every class derived from
`ASTNode`, a nested `ProgramNode` included. -/
inductive ASTNode where
  | expr (e : ExprNode)
  | stmt (s : StmtNode)
  | func (f : FuncDeclNode)
  | arguments (args : List ExprNode)
  | program (units : List ASTNode)

/-! ## Code generation -/

mutual
/-- The method `generate_code` of the expression classes. -/
def ExprNode.generate_code : ExprNode → Ctx → Gen
  | .VarNode name index, c =>
      let m1 := c.symbol_to_temp.bind_self name
      let var_temp := (m1.subscript name).1
      let c1 : Ctx := { c with symbol_to_temp := (m1.subscript name).2 }
      if index.isSome then
        let i := generate_index_code index c1
        let result_temp := temp_name i.ctx.temp_count
        { out := i.out ++ [result_temp ++ " = " ++ var_temp ++ "[" ++ i.ret ++ "]"]
          temps := i.temps ++ [result_temp]
          ret := result_temp
          ctx := { i.ctx with temp_count := i.ctx.temp_count + 1 } }
      else
        match c1.var_last_loaded_temp name with
        | some cached => { out := [], temps := [], ret := cached, ctx := c1 }
        | none =>
            if is_temp var_temp then
              { out := [], temps := [], ret := var_temp, ctx := c1 }
            else
              let result_temp := temp_name c1.temp_count
              { out := [result_temp ++ " = " ++ var_temp]
                temps := [result_temp]
                ret := result_temp
                ctx := { c1 with
                  temp_count := c1.temp_count + 1
                  var_last_loaded_temp := c1.var_last_loaded_temp.insert name result_temp } }
  | .ConstNode value, c =>
      let const_temp := temp_name c.temp_count
      { out := [const_temp ++ " = " ++ value]
        temps := [const_temp]
        ret := const_temp
        ctx := { c with temp_count := c.temp_count + 1 } }
  | .BinaryOpNode op left right, c =>
      let l := left.generate_code c
      let r := right.generate_code l.ctx
      let result_temp := temp_name r.ctx.temp_count
      { out := l.out ++ r.out ++ [result_temp ++ " = " ++ l.ret ++ " " ++ op ++ " " ++ r.ret]
        temps := l.temps ++ r.temps ++ [result_temp]
        ret := result_temp
        ctx := { r.ctx with temp_count := r.ctx.temp_count + 1, temp_cond := result_temp } }
  | .UnaryOpNode op expr, c =>
      let e := expr.generate_code c
      let result_temp := temp_name e.ctx.temp_count
      { out := e.out ++ [result_temp ++ " = " ++ op ++ e.ret]
        temps := e.temps ++ [result_temp]
        ret := result_temp
        ctx := { e.ctx with temp_count := e.ctx.temp_count + 1 } }
  | .AssignNode lhs_name lhs_index rhs, c =>
      let r := rhs.generate_code c
      if lhs_index.isSome then
        let array_temp := (r.ctx.symbol_to_temp.subscript lhs_name).1
        let c1 : Ctx := { r.ctx with symbol_to_temp := (r.ctx.symbol_to_temp.subscript lhs_name).2 }
        let i := generate_index_code lhs_index c1
        { out := r.out ++ i.out ++ [array_temp ++ "[" ++ i.ret ++ "] = " ++ r.ret]
          temps := r.temps ++ i.temps
          ret := r.ret
          ctx := i.ctx }
      else
        let m1 := r.ctx.symbol_to_temp.bind_self lhs_name
        let lhs_temp := (m1.subscript lhs_name).1
        { out := r.out ++ [lhs_temp ++ " = " ++ r.ret]
          temps := r.temps
          ret := r.ret
          ctx := { r.ctx with
            symbol_to_temp := (m1.subscript lhs_name).2
            var_last_loaded_temp := r.ctx.var_last_loaded_temp.erase lhs_name
            var_last_assigned_temp := r.ctx.var_last_assigned_temp.insert lhs_name r.ret } }
  | .FuncCallNode func_name arguments, c =>
      let a := generate_arguments arguments c
      let result_temp := temp_name a.ctx.temp_count
      { out := a.out ++ a.arg_temps.map (fun t => "param " ++ t)
          ++ [result_temp ++ " = call " ++ func_name ++ ", " ++ toString a.arg_temps.length]
        temps := a.temps ++ [result_temp]
        ret := result_temp
        ctx := { a.ctx with temp_count := a.ctx.temp_count + 1 } }
/-- The method `VarNode::generate_index_code`, as a function of the node's
`index` field. -/
def generate_index_code : Option ExprNode → Ctx → Gen
  | none, c => { out := [], temps := [], ret := "0", ctx := c }
  | some index, c =>
      let i := index.generate_code c
      let idx_result := temp_name i.ctx.temp_count
      { out := i.out ++ [idx_result ++ " = " ++ i.ret]
        temps := i.temps ++ [idx_result]
        ret := idx_result
        ctx := { i.ctx with temp_count := i.ctx.temp_count + 1 } }
/-- The first loop of `FuncCallNode::generate_code`: the arguments are generated
left to right and their returned names collected in `arg_temps`. -/
def generate_arguments : List ExprNode → Ctx → GenArgs
  | [], c => { out := [], temps := [], arg_temps := [], ctx := c }
  | arg :: rest, c =>
      let a := arg.generate_code c
      let r := generate_arguments rest a.ctx
      { out := a.out ++ r.out
        temps := a.temps ++ r.temps
        arg_temps := a.ret :: r.arg_temps
        ctx := r.ctx }
end

/-- The loop of `DeclNode::generate_code` over `vars`. -/
def generate_decl (type : String) : List (String × Int) → Ctx → Gen
  | [], c => { out := [], temps := [], ret := "", ctx := c }
  | var :: rest, c =>
      let c1 : Ctx := { c with symbol_to_temp := c.symbol_to_temp.bind_self var.1 }
      let line :=
        if var.2 > 0 then
          "// Declaration: " ++ type ++ " " ++ var.1 ++ "[" ++ toString var.2 ++ "]"
        else
          "// Declaration: " ++ type ++ " " ++ var.1
      let r := generate_decl type rest c1
      { out := line :: r.out, temps := r.temps, ret := "", ctx := r.ctx }

/-- Generation of an optional expression child that is skipped when null
(`if (init) init->generate_code(...)`). -/
def generate_optional : Option ExprNode → Ctx → Gen
  | none, c => { out := [], temps := [], ret := "", ctx := c }
  | some e, c => e.generate_code c

mutual
/-- The method `generate_code` of the statement classes.

In `ForNode`, `condition` is an `ExprNode*`; `ExprStmtNode` does not derive from
`ExprNode`, so `dynamic_cast<ExprStmtNode*>(condition)` is null and `cond_expr`
is the condition itself.  The two branches on `cond_temp.empty()` print
`"if " << cond_temp << " goto L"` and `"if  goto L"`. -/
def StmtNode.generate_code : StmtNode → Ctx → Gen
  | .ExprStmtNode expr, c =>
      let e := generate_optional expr c
      { out := e.out, temps := e.temps, ret := "", ctx := e.ctx }
  | .BlockNode statements, c => generate_statements statements c
  | .IfNode condition then_block else_block, c =>
      let cnd := condition.generate_code c
      let then_label := cnd.ctx.label_count
      let else_label := cnd.ctx.label_count + 1
      let c1 : Ctx := { cnd.ctx with label_count := cnd.ctx.label_count + 2 }
      let t := then_block.generate_code c1
      let end_label := t.ctx.label_count
      let c2 : Ctx := { t.ctx with label_count := t.ctx.label_count + 1 }
      match else_block with
      | some els =>
          let e := els.generate_code c2
          { out := cnd.out
              ++ [if_line cnd.ret then_label, goto_line else_label, label_line then_label]
              ++ t.out ++ [goto_line end_label, label_line else_label]
              ++ e.out ++ [label_line end_label]
            temps := cnd.temps ++ t.temps ++ e.temps
            ret := ""
            ctx := e.ctx }
      | none =>
          { out := cnd.out
              ++ [if_line cnd.ret then_label, goto_line else_label, label_line then_label]
              ++ t.out ++ [goto_line end_label, label_line else_label, label_line end_label]
            temps := cnd.temps ++ t.temps
            ret := ""
            ctx := c2 }
  | .WhileNode condition body, c =>
      let start_label := c.label_count
      let body_label := c.label_count + 1
      let end_label := c.label_count + 2
      let c1 : Ctx := { c with label_count := c.label_count + 3 }
      let cnd := condition.generate_code c1
      let b := body.generate_code cnd.ctx
      { out := [label_line start_label] ++ cnd.out
          ++ [if_line cnd.ret body_label, goto_line end_label, label_line body_label]
          ++ b.out ++ [goto_line start_label, label_line end_label]
        temps := cnd.temps ++ b.temps
        ret := ""
        ctx := b.ctx }
  | .ForNode init condition update body, c =>
      let i := generate_optional init c
      let cond_label := i.ctx.label_count
      let body_label := i.ctx.label_count + 1
      let end_label := i.ctx.label_count + 2
      let c1 : Ctx := { i.ctx with label_count := i.ctx.label_count + 3 }
      let cnd : Gen :=
        match condition with
        | some cond_expr =>
            let g := cond_expr.generate_code { c1 with temp_cond := "" }
            let cond_temp := if g.ctx.temp_cond ≠ "" then g.ctx.temp_cond else g.ret
            let branch :=
              if cond_temp ≠ "" then if_line cond_temp body_label
              else "if  goto L" ++ toString body_label
            { out := g.out ++ [branch, goto_line end_label]
              temps := g.temps
              ret := cond_temp
              ctx := g.ctx }
        | none => { out := [], temps := [], ret := "", ctx := c1 }
      let c2 : Ctx := { cnd.ctx with temp_cond := "" }
      let b := body.generate_code c2
      let u := generate_optional update b.ctx
      { out := i.out ++ [label_line cond_label] ++ cnd.out ++ [label_line body_label]
          ++ b.out ++ u.out ++ [goto_line cond_label, label_line end_label]
        temps := i.temps ++ cnd.temps ++ b.temps ++ u.temps
        ret := ""
        ctx := u.ctx }
  | .ReturnNode expr, c =>
      match expr with
      | some (.VarNode var_name none) =>
          match c.var_last_assigned_temp var_name with
          | some ret_temp => { out := ["return " ++ ret_temp], temps := [], ret := "", ctx := c }
          | none =>
              let e := (ExprNode.VarNode var_name none).generate_code c
              { out := e.out ++ ["return " ++ e.ret], temps := e.temps, ret := "", ctx := e.ctx }
      | some e0 =>
          let e := e0.generate_code c
          { out := e.out ++ ["return " ++ e.ret], temps := e.temps, ret := "", ctx := e.ctx }
      | none => { out := ["return"], temps := [], ret := "", ctx := c }
  | .DeclNode type vars, c => generate_decl type vars c
/-- The loop of `BlockNode::generate_code` over `statements`. -/
def generate_statements : List StmtNode → Ctx → Gen
  | [], c => { out := [], temps := [], ret := "", ctx := c }
  | stmt :: rest, c =>
      let s := stmt.generate_code c
      let r := generate_statements rest s.ctx
      { out := s.out ++ r.out, temps := s.temps ++ r.temps, ret := "", ctx := r.ctx }
end

/-- The second loop of `FuncDeclNode::generate_code`: each parameter gets a fresh
temporary, is bound to it and is copied into it. -/
def generate_params : List (String × String) → Ctx → Gen
  | [], c => { out := [], temps := [], ret := "", ctx := c }
  | param :: rest, c =>
      let temp_var := temp_name c.temp_count
      let c1 : Ctx := { c with
        temp_count := c.temp_count + 1
        symbol_to_temp := c.symbol_to_temp.insert param.2 temp_var }
      let r := generate_params rest c1
      { out := (temp_var ++ " = " ++ param.2) :: r.out
        temps := temp_var :: r.temps
        ret := ""
        ctx := r.ctx }

/-- The header comment `// Function: <type> <name>(<type> <name>, ...)`. -/
def function_header (f : FuncDeclNode) : String :=
  "// Function: " ++ f.return_type ++ " " ++ f.name ++ "("
    ++ ", ".intercalate (f.params.map (fun p => p.1 ++ " " ++ p.2)) ++ ")"

/-- The context after the three `clear()` calls at function entry. -/
def Ctx.reset (c : Ctx) : Ctx :=
  { c with
    symbol_to_temp := StrMap.clear
    var_last_loaded_temp := StrMap.clear
    var_last_assigned_temp := StrMap.clear }

/-- The method `FuncDeclNode::generate_code`. -/
def FuncDeclNode.generate_code (f : FuncDeclNode) (c : Ctx) : Gen :=
  let p := generate_params f.params c.reset
  let b : Gen :=
    match f.body with
    | some statements => generate_statements statements p.ctx
    | none => { out := [], temps := [], ret := "", ctx := p.ctx }
  { out := [function_header f] ++ p.out ++ b.out ++ [""]
    temps := p.temps ++ b.temps
    ret := ""
    ctx := b.ctx }

mutual
/-- Virtual dispatch of `generate_code` on a unit of a program.  The result of a
unit is discarded by `ProgramNode`, and `ArgumentsNode::generate_code` does
nothing. -/
def ASTNode.generate_code : ASTNode → Ctx → Gen
  | .expr e, c => e.generate_code c
  | .stmt s, c => s.generate_code c
  | .func f, c => f.generate_code c
  | .arguments _, c => { out := [], temps := [], ret := "", ctx := c }
  | .program units, c => ProgramNode.generate_code units c
/-- The method `ProgramNode::generate_code`, over the `units` vector. -/
def ProgramNode.generate_code : List ASTNode → Ctx → Gen
  | [], c => { out := [], temps := [], ret := "", ctx := c }
  | unit :: rest, c =>
      let u := unit.generate_code c
      let r := ProgramNode.generate_code rest u.ctx
      { out := u.out ++ r.out, temps := u.temps ++ r.temps, ret := "", ctx := r.ctx }
end

/-- Decimal value of a list of digit characters, most significant first. -/
def digits_value (ds : List Char) : Nat :=
  ds.foldl (fun acc d => 10 * acc + (d.toNat - 48)) 0

/-- The id `k` of a label definition line `L<k>:`, and `none` for any other line. -/
def label_id (line : String) : Option Nat :=
  match line.data with
  | 'L' :: rest =>
      if rest.getLast? = some ':' ∧ rest.dropLast ≠ [] ∧ (∀ d ∈ rest.dropLast, d.isDigit = true) then
        some (digits_value rest.dropLast)
      else none
  | _ => none

/-- The ids of the label definition lines of an output, in emission order. -/
def label_ids (out : List String) : List Nat := out.filterMap label_id

/-- The names `t<k>`, `t<k+1>`, ..., `t<k+n-1>`. -/
def temps_from (k : Nat) : Nat → List String
  | 0 => []
  | n + 1 => temp_name k :: temps_from (k + 1) n


/-- The label definition lines of `out` define exactly the ids `lo`, ..., `hi - 1`,
each of them once. -/
def labels_exact (lo hi : Nat) (out : List String) : Prop :=
  lo ≤ hi ∧ ∀ k, (label_ids out).count k = if lo ≤ k ∧ k < hi then 1 else 0

/-- The names in `temps` are exactly `t<lo>`, ..., `t<hi - 1>`, in this order. -/
def temps_exact (temps : List String) (lo hi : Nat) : Prop :=
  lo ≤ hi ∧ temps = temps_from lo (hi - lo)

/-- Two contexts that agree on everything except possibly the `temp_cond` global. -/
def Ctx.agree (c1 c2 : Ctx) : Prop :=
  c1.symbol_to_temp = c2.symbol_to_temp ∧ c1.temp_count = c2.temp_count ∧
    c1.label_count = c2.label_count ∧ c1.var_last_loaded_temp = c2.var_last_loaded_temp ∧
    c1.var_last_assigned_temp = c2.var_last_assigned_temp

/-- Two results with the same lines, allocations and returned name, whose contexts
agree except possibly on `temp_cond`. -/
def Gen.agree (g1 g2 : Gen) : Prop :=
  g1.out = g2.out ∧ g1.temps = g2.temps ∧ g1.ret = g2.ret ∧ g1.ctx.agree g2.ctx

/-- The storage name a scalar reference to `x` works with: the name bound to `x`
in the map, or `x` itself when the guarded insertion has just bound it. -/
def storage_of (m : StrMap) (x : String) : String :=
  match m x with
  | some s => s
  | none => x

/-- A context with empty maps, both counters at zero and an empty `temp_cond`. -/
def Ctx.start : Ctx :=
  { symbol_to_temp := StrMap.clear
    temp_count := 0
    label_count := 0
    temp_cond := ""
    var_last_loaded_temp := StrMap.clear
    var_last_assigned_temp := StrMap.clear }

/-! ## Argument lists -/

/-- The method `ArgumentsNode::add_argument` on the `args` vector: a null `arg` is
not stored. -/
def ArgumentsNode.add_argument (args : List ExprNode) (arg : Option ExprNode) : List ExprNode :=
  match arg with
  | some a => args ++ [a]
  | none => args

/-- The method `ArgumentsNode::size`. -/
def ArgumentsNode.size (args : List ExprNode) : Nat := args.length

/-- The method `ArgumentsNode::get_argument`, with the `int` index as an integer and
`nullptr` as `none`.  The test `index >= 0` comes first, so the conversion of
`index` to `size_t` in `index < args.size()` keeps its value, and `args[index]` is
only evaluated inside the bounds. -/
def ArgumentsNode.get_argument (args : List ExprNode) (index : Int) : Option ExprNode :=
  if h : index ≥ 0 ∧ index < (args.length : Int) then
    some (args.get ⟨index.toNat, by omega⟩)
  else
    none

/-! ## Jump lines -/

/-- The target `k` of a line `goto L<k>`, and `none` for any other line. -/
def goto_target (line : String) : Option Nat :=
  match line.data with
  | 'g' :: 'o' :: 't' :: 'o' :: ' ' :: 'L' :: ds =>
      if ds ≠ [] ∧ (∀ d ∈ ds, d.isDigit = true) then some (digits_value ds) else none
  | _ => none

/-- The target `k` of a line `if <name> goto L<k>`, whatever `<name>` is (the empty
name included), and `none` for any other line.  The digits are read from the end of
the line, where ` goto L` must precede them. -/
def if_target (line : String) : Option Nat :=
  match line.data with
  | 'i' :: 'f' :: ' ' :: rest =>
      match rest.reverse.dropWhile Char.isDigit with
      | 'L' :: ' ' :: 'o' :: 't' :: 'o' :: 'g' :: ' ' :: _ =>
          if rest.reverse.takeWhile Char.isDigit ≠ [] then
            some (digits_value (rest.reverse.takeWhile Char.isDigit).reverse)
          else none
      | _ => none
  | _ => none

/-- The target of a jump line, unconditional or conditional. -/
def jump_target (line : String) : Option Nat :=
  match goto_target line with
  | some k => some k
  | none => if_target line

/-- The targets of the jump lines of an output, in emission order. -/
def jump_targets (out : List String) : List Nat := out.filterMap jump_target

/-- Every jump line of `out` targets a label id from `lo` up to `hi - 1`. -/
def jumps_within (out : List String) (lo hi : Nat) : Prop :=
  ∀ k ∈ jump_targets out, lo ≤ k ∧ k < hi

/-- The names held in the last-loaded cache contain no blank.  The generator only
ever stores names `t<k>` there, and the cache is empty at every function entry. -/
def Ctx.loaded_plain (c : Ctx) : Prop :=
  ∀ x s, c.var_last_loaded_temp x = some s → ' ' ∉ s.data

/-! ## Binary operations inside an expression -/

mutual
/-- Whether generating the expression generates a `BinaryOpNode`, the only node
that writes `temp_cond`. -/
def ExprNode.has_binary : ExprNode → Bool
  | .VarNode _ index => index_has_binary index
  | .ConstNode _ => false
  | .BinaryOpNode _ _ _ => true
  | .UnaryOpNode _ expr => expr.has_binary
  | .AssignNode _ lhs_index rhs => rhs.has_binary || index_has_binary lhs_index
  | .FuncCallNode _ arguments => arguments_have_binary arguments
/-- The same for an optional index expression. -/
def index_has_binary : Option ExprNode → Bool
  | none => false
  | some index => index.has_binary
/-- The same for an argument list. -/
def arguments_have_binary : List ExprNode → Bool
  | [] => false
  | arg :: rest => arg.has_binary || arguments_have_binary rest
end

/-! ## Decimal strings and label lines -/

theorem digitChar_digit (m : Nat) (h : m < 10) :
    (Nat.digitChar m).isDigit = true ∧ (Nat.digitChar m).toNat - 48 = m := by
  interval_cases m <;> decide

theorem digits_value_concat (xs : List Char) (d : Char) :
    digits_value (xs ++ [d]) = 10 * digits_value xs + (d.toNat - 48) := by
  simp [digits_value, List.foldl_append]

theorem toDigitsCore_spec (fuel : Nat) : ∀ (n : Nat) (ds : List Char), n < fuel →
    ∃ xs : List Char, Nat.toDigitsCore 10 fuel n ds = xs ++ ds ∧ xs ≠ [] ∧
      (∀ d ∈ xs, d.isDigit = true) ∧ digits_value xs = n := by
  induction fuel with
  | zero => intro n ds h; omega
  | succ fuel ih =>
    intro n ds h
    have hd := digitChar_digit (n % 10) (Nat.mod_lt _ (by decide))
    unfold Nat.toDigitsCore
    by_cases h0 : n / 10 = 0
    · simp only [h0, if_true]
      refine ⟨[Nat.digitChar (n % 10)], rfl, by simp, ?_, ?_⟩
      · intro d hdm
        simp at hdm
        rw [hdm]; exact hd.1
      · have : digits_value [Nat.digitChar (n % 10)] = (Nat.digitChar (n % 10)).toNat - 48 := by
          simp [digits_value]
        rw [this, hd.2]; omega
    · simp only [h0, if_false]
      obtain ⟨xs, hxs, hne, hdig, hval⟩ := ih (n / 10) (Nat.digitChar (n % 10) :: ds) (by omega)
      refine ⟨xs ++ [Nat.digitChar (n % 10)], by simp [hxs], by simp, ?_, ?_⟩
      · intro d hdm
        rcases List.mem_append.1 hdm with h1 | h1
        · exact hdig d h1
        · simp at h1; rw [h1]; exact hd.1
      · rw [digits_value_concat, hval, hd.2]; omega

theorem toString_data (k : Nat) : (toString k).data ≠ [] ∧
    (∀ d ∈ (toString k).data, d.isDigit = true) ∧ digits_value (toString k).data = k := by
  obtain ⟨xs, hxs, hne, hdig, hval⟩ := toDigitsCore_spec (k + 1) k [] (by omega)
  have : (toString k).data = xs := by
    show (Nat.toDigits 10 k) = xs
    simpa [Nat.toDigits] using hxs
  rw [this]; exact ⟨hne, hdig, hval⟩

theorem toString_nat_inj {a b : Nat} (h : toString a = toString b) : a = b := by
  have ha := (toString_data a).2.2
  have hb := (toString_data b).2.2
  rw [h] at ha; omega

theorem temp_name_inj {a b : Nat} (h : temp_name a = temp_name b) : a = b := by
  apply toString_nat_inj
  have h2 := congrArg String.data h
  simp [temp_name, String.data_append] at h2
  exact String.ext h2

theorem label_id_label_line (k : Nat) : label_id (label_line k) = some k := by
  obtain ⟨hne, hdig, hval⟩ := toString_data k
  have hd : (label_line k).data = 'L' :: ((toString k).data ++ [':']) := by
    simp [label_line, String.data_append]
  unfold label_id
  rw [hd]
  simp [hne, hval]
  exact hdig

/-! ### Lines that are not label definitions -/

theorem label_id_of_space (s : String) (h : ' ' ∈ s.data) : label_id s = none := by
  unfold label_id
  split
  · rename_i rest heq
    split
    · rename_i hc
      exfalso
      obtain ⟨hlast, -, hdig⟩ := hc
      rw [heq] at h
      have hrest : rest = rest.dropLast ++ [':'] := by
        have := List.dropLast_append_getLast? ':' (by simpa using hlast)
        exact this.symm
      simp at h
      rw [hrest] at h
      simp at h
      have := hdig ' ' h
      revert this
      decide
    · rfl
  · rfl

theorem space_mid (a b : String) : ' ' ∈ (a ++ " = " ++ b).data := by
  simp [String.data_append]

theorem label_id_copy (a b : String) : label_id (a ++ " = " ++ b) = none :=
  label_id_of_space _ (space_mid a b)

theorem label_ids_nil : label_ids [] = [] := rfl

theorem label_ids_append (a b : List String) : label_ids (a ++ b) = label_ids a ++ label_ids b := by
  simp [label_ids, List.filterMap_append]

theorem label_ids_cons_space (s : String) (rest : List String) (h : ' ' ∈ s.data) :
    label_ids (s :: rest) = label_ids rest := by
  simp [label_ids, List.filterMap_cons, label_id_of_space s h]

theorem label_ids_cons_label (k : Nat) (rest : List String) :
    label_ids (label_line k :: rest) = k :: label_ids rest := by
  simp [label_ids, List.filterMap_cons, label_id_label_line]

theorem space_if_line (cond : String) (k : Nat) : ' ' ∈ (if_line cond k).data := by
  simp [if_line, String.data_append]

theorem space_goto_line (k : Nat) : ' ' ∈ (goto_line k).data := by
  simp [goto_line, String.data_append]

theorem label_ids_params (l : List String) : label_ids (l.map (fun t => "param " ++ t)) = [] := by
  induction l with
  | nil => rfl
  | cons a l ih =>
    rw [List.map_cons, label_ids_cons_space _ _ (by simp [String.data_append]), ih]

mutual
theorem expr_labels : ∀ (e : ExprNode) (c : Ctx),
    label_ids (e.generate_code c).out = [] ∧ (e.generate_code c).ctx.label_count = c.label_count
  | .VarNode name index, c => by
      have hi := index_labels index
      simp only [ExprNode.generate_code]
      split
      · simp [label_ids_append, label_ids_cons_space, String.data_append, hi, label_ids_nil]
      · split
        · simp [label_ids_nil]
        · split
          · simp [label_ids_nil]
          · simp [label_ids_cons_space, String.data_append, label_ids_nil]
  | .ConstNode value, c => by
      simp [ExprNode.generate_code, label_ids_cons_space, String.data_append, label_ids_nil]
  | .BinaryOpNode op left right, c => by
      have hl := expr_labels left
      have hr := expr_labels right
      simp [ExprNode.generate_code, label_ids_append, label_ids_cons_space, String.data_append,
        label_ids_nil, hl, hr]
  | .UnaryOpNode op expr, c => by
      have he := expr_labels expr
      simp [ExprNode.generate_code, label_ids_append, label_ids_cons_space, String.data_append,
        label_ids_nil, he]
  | .AssignNode lhs_name lhs_index rhs, c => by
      have hr := expr_labels rhs
      have hi := index_labels lhs_index
      simp only [ExprNode.generate_code]
      split
      · simp [label_ids_append, label_ids_cons_space, String.data_append, label_ids_nil, hr, hi]
      · simp [label_ids_append, label_ids_cons_space, String.data_append, label_ids_nil, hr]
  | .FuncCallNode func_name arguments, c => by
      have ha := arguments_labels arguments
      simp [ExprNode.generate_code, label_ids_append, label_ids_cons_space, String.data_append,
        label_ids_nil, ha, label_ids_params]
theorem index_labels : ∀ (o : Option ExprNode) (c : Ctx),
    label_ids (generate_index_code o c).out = [] ∧ (generate_index_code o c).ctx.label_count = c.label_count
  | none, c => by simp [generate_index_code, label_ids_nil]
  | some e, c => by
      have he := expr_labels e
      simp [generate_index_code, label_ids_append, label_ids_cons_space, String.data_append,
        label_ids_nil, he]
theorem arguments_labels : ∀ (l : List ExprNode) (c : Ctx),
    label_ids (generate_arguments l c).out = [] ∧ (generate_arguments l c).ctx.label_count = c.label_count
  | [], c => by simp [generate_arguments, label_ids_nil]
  | a :: rest, c => by
      have ha := expr_labels a
      have hr := arguments_labels rest
      simp [generate_arguments, label_ids_append, label_ids_nil, ha, hr]
end

theorem labels_exact_of_none {out : List String} (h : label_ids out = []) (n : Nat) :
    labels_exact n n out := by
  refine ⟨le_refl _, fun k => ?_⟩
  rw [h]
  have : ¬ (n ≤ k ∧ k < n) := by omega
  simp [this]

theorem labels_exact_append {a b c : Nat} {x y : List String}
    (hx : labels_exact a b x) (hy : labels_exact b c y) : labels_exact a c (x ++ y) := by
  refine ⟨le_trans hx.1 hy.1, fun k => ?_⟩
  have h1 := hx.2 k
  have h2 := hy.2 k
  have := hx.1
  have := hy.1
  rw [label_ids_append, List.count_append, h1, h2]
  split_ifs <;> omega

theorem optional_labels (o : Option ExprNode) (c : Ctx) :
    label_ids (generate_optional o c).out = [] ∧ (generate_optional o c).ctx.label_count = c.label_count := by
  cases o with
  | none => simp [generate_optional, label_ids_nil]
  | some e => simpa [generate_optional] using expr_labels e c

theorem decl_labels (type : String) : ∀ (vars : List (String × Int)) (c : Ctx),
    label_ids (generate_decl type vars c).out = [] ∧ (generate_decl type vars c).ctx.label_count = c.label_count
  | [], c => by simp [generate_decl, label_ids_nil]
  | v :: rest, c => by
      have ih := decl_labels type rest
      simp only [generate_decl]
      split
      · rw [label_ids_cons_space _ _ (by simp [String.data_append])]
        simp [ih]
      · rw [label_ids_cons_space _ _ (by simp [String.data_append])]
        simp [ih]

theorem space_branch (p : Prop) [Decidable p] (cond : String) (k : Nat) :
    ' ' ∈ (if p then if_line cond k else "if  goto L" ++ toString k).data := by
  split
  · exact space_if_line _ _
  · simp [String.data_append]

theorem return_labels (expr : Option ExprNode) (c : Ctx) :
    label_ids ((StmtNode.ReturnNode expr).generate_code c).out = [] ∧
      ((StmtNode.ReturnNode expr).generate_code c).ctx.label_count = c.label_count := by
  simp only [StmtNode.generate_code]
  split
  · split
    · refine ⟨?_, rfl⟩
      rw [label_ids_cons_space _ _ (by simp [String.data_append])]
      rfl
    · rename_i var_name _ _
      have h := expr_labels (ExprNode.VarNode var_name none) c
      refine ⟨?_, h.2⟩
      rw [label_ids_append, h.1, label_ids_cons_space _ _ (by simp [String.data_append])]
      rfl
  · rename_i e0 _
    have h := expr_labels e0 c
    refine ⟨?_, h.2⟩
    rw [label_ids_append, h.1, label_ids_cons_space _ _ (by simp [String.data_append])]
    rfl
  · exact ⟨(by decide : label_ids ["return"] = []), rfl⟩

mutual
theorem stmt_labels : ∀ (s : StmtNode) (c : Ctx),
    labels_exact c.label_count (s.generate_code c).ctx.label_count (s.generate_code c).out
  | .ExprStmtNode expr, c => by
      have h := optional_labels expr c
      simp only [StmtNode.generate_code]
      rw [h.2]
      exact labels_exact_of_none h.1 _
  | .BlockNode statements, c => by
      simpa [StmtNode.generate_code] using statements_labels statements c
  | .IfNode condition then_block (some els), c => by
      have hc := expr_labels condition c
      have ht := stmt_labels then_block
      have he := stmt_labels els
      simp only [StmtNode.generate_code]
      generalize hcg : condition.generate_code c = cg at *
      have ht1 := ht { cg.ctx with label_count := cg.ctx.label_count + 2 }
      generalize htg : then_block.generate_code { cg.ctx with label_count := cg.ctx.label_count + 2 } = tg at *
      have he1 := he { tg.ctx with label_count := tg.ctx.label_count + 1 }
      generalize heg : els.generate_code { tg.ctx with label_count := tg.ctx.label_count + 1 } = eg at *
      obtain ⟨ht1, ht2⟩ := ht1
      obtain ⟨he1, he2⟩ := he1
      simp only at ht1 ht2 he1 he2
      refine ⟨by omega, fun k => ?_⟩
      have hcl := hc.2
      simp only [ht2 k, he2 k, label_ids_append, label_ids_cons_space _ _ (space_if_line _ _),
        label_ids_cons_space _ _ (space_goto_line _), label_ids_cons_label, label_ids_nil, hc.1,
        List.count_append, List.count_cons, List.count_nil, List.nil_append, beq_iff_eq]
      split_ifs <;> omega
  | .IfNode condition then_block none, c => by
      have hc := expr_labels condition c
      have ht := stmt_labels then_block
      simp only [StmtNode.generate_code]
      generalize hcg : condition.generate_code c = cg at *
      have ht1 := ht { cg.ctx with label_count := cg.ctx.label_count + 2 }
      generalize htg : then_block.generate_code { cg.ctx with label_count := cg.ctx.label_count + 2 } = tg at *
      obtain ⟨ht1, ht2⟩ := ht1
      simp only at ht1 ht2
      refine ⟨by show _ ≤ tg.ctx.label_count + 1; omega, fun k => ?_⟩
      have hcl := hc.2
      simp only [ht2 k, label_ids_append, label_ids_cons_space _ _ (space_if_line _ _),
        label_ids_cons_space _ _ (space_goto_line _), label_ids_cons_label, label_ids_nil, hc.1,
        List.count_append, List.count_cons, List.count_nil, List.nil_append, beq_iff_eq]
      split_ifs <;> omega
  | .WhileNode condition body, c => by
      have hc := expr_labels condition { c with label_count := c.label_count + 3 }
      have hb := stmt_labels body
      simp only [StmtNode.generate_code]
      generalize hcg : condition.generate_code { c with label_count := c.label_count + 3 } = cg at *
      have hb1 := hb cg.ctx
      generalize hbg : body.generate_code cg.ctx = bg at *
      obtain ⟨hb1, hb2⟩ := hb1
      simp only at hc
      refine ⟨by omega, fun k => ?_⟩
      have hcl := hc.2
      simp only [hb2 k, label_ids_append, label_ids_cons_space _ _ (space_if_line _ _),
        label_ids_cons_space _ _ (space_goto_line _), label_ids_cons_label, label_ids_nil, hc.1,
        List.count_append, List.count_cons, List.count_nil, List.nil_append, beq_iff_eq]
      split_ifs <;> omega
  | .ForNode init (some cond_expr) update body, c => by
      have hi := optional_labels init c
      have hb := stmt_labels body
      simp only [StmtNode.generate_code]
      generalize generate_optional init c = ig at *
      have hc := expr_labels cond_expr
        { ig.ctx with label_count := ig.ctx.label_count + 3, temp_cond := "" }
      generalize cond_expr.generate_code
        { ig.ctx with label_count := ig.ctx.label_count + 3, temp_cond := "" } = cg at *
      have hb1 := hb { cg.ctx with temp_cond := "" }
      generalize body.generate_code { cg.ctx with temp_cond := "" } = bg at *
      have hu := optional_labels update bg.ctx
      generalize generate_optional update bg.ctx = ug at *
      obtain ⟨hb1, hb2⟩ := hb1
      simp only at hc hb1 hb2
      refine ⟨by omega, fun k => ?_⟩
      have hil := hi.2
      have hcl := hc.2
      have hul := hu.2
      simp only [hb2 k, label_ids_append, label_ids_cons_space _ _ (space_branch _ _ _),
        label_ids_cons_space _ _ (space_goto_line _), label_ids_cons_label, label_ids_nil, hc.1,
        hi.1, hu.1, List.count_append, List.count_cons, List.count_nil, List.nil_append,
        beq_iff_eq]
      split_ifs <;> omega
  | .ForNode init none update body, c => by
      have hi := optional_labels init c
      have hb := stmt_labels body
      simp only [StmtNode.generate_code]
      generalize generate_optional init c = ig at *
      have hb1 := hb { ig.ctx with label_count := ig.ctx.label_count + 3, temp_cond := "" }
      generalize body.generate_code
        { ig.ctx with label_count := ig.ctx.label_count + 3, temp_cond := "" } = bg at *
      have hu := optional_labels update bg.ctx
      generalize generate_optional update bg.ctx = ug at *
      obtain ⟨hb1, hb2⟩ := hb1
      simp only at hb1 hb2
      refine ⟨by omega, fun k => ?_⟩
      have hil := hi.2
      have hul := hu.2
      simp only [hb2 k, label_ids_append,
        label_ids_cons_space _ _ (space_goto_line _), label_ids_cons_label, label_ids_nil,
        hi.1, hu.1, List.count_append, List.count_cons, List.count_nil, List.nil_append,
        beq_iff_eq]
      split_ifs <;> omega
  | .ReturnNode expr, c => by
      have h := return_labels expr c
      rw [h.2]
      exact labels_exact_of_none h.1 _
  | .DeclNode type vars, c => by
      have h := decl_labels type vars c
      simp only [StmtNode.generate_code]
      rw [h.2]
      exact labels_exact_of_none h.1 _
theorem statements_labels : ∀ (l : List StmtNode) (c : Ctx),
    labels_exact c.label_count (generate_statements l c).ctx.label_count (generate_statements l c).out
  | [], c => by
      simp only [generate_statements]
      exact labels_exact_of_none label_ids_nil _
  | s :: rest, c => by
      simp only [generate_statements]
      exact labels_exact_append (stmt_labels s c) (statements_labels rest _)
end

theorem params_labels : ∀ (params : List (String × String)) (c : Ctx),
    label_ids (generate_params params c).out = [] ∧
      (generate_params params c).ctx.label_count = c.label_count
  | [], c => by simp [generate_params, label_ids_nil]
  | p :: rest, c => by
      have ih := params_labels rest
      simp only [generate_params]
      rw [label_ids_cons_space _ _ (space_mid _ _)]
      simp [ih]

theorem func_labels (f : FuncDeclNode) (c : Ctx) :
    labels_exact c.label_count (f.generate_code c).ctx.label_count (f.generate_code c).out := by
  have hp := params_labels f.params c.reset
  have hh : ' ' ∈ (function_header f).data := by simp [function_header, String.data_append]
  have hblank : label_ids [""] = [] := by decide
  have hreset : c.reset.label_count = c.label_count := rfl
  unfold FuncDeclNode.generate_code
  cases f.body with
  | none =>
      simp only
      rw [hp.2, hreset]
      apply labels_exact_of_none
      simp [label_ids_append, label_ids_cons_space _ _ hh, hp.1, label_ids_nil, hblank]
  | some statements =>
      simp only
      have hb := statements_labels statements (generate_params f.params c.reset).ctx
      rw [hp.2, hreset] at hb
      have h1 : labels_exact c.label_count c.label_count
          ([function_header f] ++ (generate_params f.params c.reset).out) := by
        apply labels_exact_of_none
        simp [label_ids_append, label_ids_cons_space _ _ hh, hp.1, label_ids_nil]
      have h2 := labels_exact_append h1 hb
      have h3 := labels_exact_append h2 (labels_exact_of_none hblank _)
      simpa using h3

mutual
theorem unit_labels : ∀ (u : ASTNode) (c : Ctx),
    labels_exact c.label_count (u.generate_code c).ctx.label_count (u.generate_code c).out
  | .expr e, c => by
      have h := expr_labels e c
      simp only [ASTNode.generate_code]
      rw [h.2]
      exact labels_exact_of_none h.1 _
  | .stmt s, c => by
      simpa [ASTNode.generate_code] using stmt_labels s c
  | .func f, c => by
      simpa [ASTNode.generate_code] using func_labels f c
  | .arguments _, c => by
      simp only [ASTNode.generate_code]
      exact labels_exact_of_none label_ids_nil _
  | .program units, c => by
      simpa [ASTNode.generate_code] using program_labels units c
theorem program_labels : ∀ (units : List ASTNode) (c : Ctx),
    labels_exact c.label_count (ProgramNode.generate_code units c).ctx.label_count
      (ProgramNode.generate_code units c).out
  | [], c => by
      simp only [ProgramNode.generate_code]
      exact labels_exact_of_none label_ids_nil _
  | u :: rest, c => by
      simp only [ProgramNode.generate_code]
      exact labels_exact_append (unit_labels u c) (program_labels rest _)
end

/-- C1: in the output of a whole program, generated from any context (any starting
label counter), the ids of the label definition lines are pairwise distinct; they
are exactly the ids allocated from the label counter, each defined once. -/
theorem program_label_ids_distinct (units : List ASTNode) (c : Ctx) :
    (label_ids (ProgramNode.generate_code units c).out).Nodup ∧
      ∀ k, (label_ids (ProgramNode.generate_code units c).out).count k =
        if c.label_count ≤ k ∧ k < (ProgramNode.generate_code units c).ctx.label_count then 1 else 0 := by
  have h := program_labels units c
  refine ⟨?_, h.2⟩
  rw [List.nodup_iff_count_le_one]
  intro k
  rw [h.2 k]
  split_ifs <;> omega

/-! ### Fresh temporaries -/

theorem temps_from_append (k m n : Nat) :
    temps_from k m ++ temps_from (k + m) n = temps_from k (m + n) := by
  induction m generalizing k with
  | zero => simp [temps_from]
  | succ m ih =>
    have h : m + 1 + n = (m + n) + 1 := by omega
    rw [h]
    simp only [temps_from, List.cons_append]
    rw [← ih (k + 1)]
    have h2 : k + 1 + m = k + (m + 1) := by omega
    rw [h2]

theorem temps_from_length : ∀ (n k : Nat), (temps_from k n).length = n
  | 0, _ => rfl
  | n + 1, k => by simp [temps_from, temps_from_length n]

theorem temps_exact_nil (n : Nat) : temps_exact [] n n := by
  refine ⟨le_refl _, ?_⟩
  simp [temps_from]

theorem temps_exact_single (n : Nat) : temps_exact [temp_name n] n (n + 1) := by
  refine ⟨by omega, ?_⟩
  have : n + 1 - n = 1 := by omega
  rw [this]
  rfl

theorem temps_exact_append {a b c : Nat} {x y : List String}
    (hx : temps_exact x a b) (hy : temps_exact y b c) : temps_exact (x ++ y) a c := by
  obtain ⟨h1, e1⟩ := hx
  obtain ⟨h2, e2⟩ := hy
  refine ⟨le_trans h1 h2, ?_⟩
  have hb : b = a + (b - a) := by omega
  rw [e1, e2]
  conv_lhs => rw [hb]
  have : a + (b - a) - a = b - a := by omega
  rw [this, temps_from_append]
  congr 1
  omega

theorem mem_temps_from {s : String} : ∀ {n k : Nat}, s ∈ temps_from k n →
    ∃ i, k ≤ i ∧ i < k + n ∧ s = temp_name i
  | 0, k, h => by simp [temps_from] at h
  | n + 1, k, h => by
      simp only [temps_from, List.mem_cons] at h
      rcases h with h | h
      · exact ⟨k, le_refl _, by omega, h⟩
      · obtain ⟨i, h1, h2, h3⟩ := mem_temps_from h
        exact ⟨i, by omega, by omega, h3⟩

theorem temps_from_nodup : ∀ (n k : Nat), (temps_from k n).Nodup
  | 0, k => by simp [temps_from]
  | n + 1, k => by
      simp only [temps_from, List.nodup_cons]
      refine ⟨?_, temps_from_nodup n (k + 1)⟩
      intro h
      obtain ⟨i, h1, -, h3⟩ := mem_temps_from h
      have := temp_name_inj h3
      omega

mutual
theorem expr_temps : ∀ (e : ExprNode) (c : Ctx),
    temps_exact (e.generate_code c).temps c.temp_count
      (e.generate_code c).ctx.temp_count
  | .VarNode name index, c => by
      have hi := index_temps index
      simp only [ExprNode.generate_code]
      split
      · exact temps_exact_append
          (hi { c with symbol_to_temp := ((c.symbol_to_temp.bind_self name).subscript name).2 })
          (temps_exact_single _)
      · split
        · exact temps_exact_nil _
        · split
          · exact temps_exact_nil _
          · exact temps_exact_single _
  | .ConstNode value, c => by
      simp only [ExprNode.generate_code]
      exact temps_exact_single _
  | .BinaryOpNode op left right, c => by
      simp only [ExprNode.generate_code]
      exact temps_exact_append (temps_exact_append (expr_temps left c) (expr_temps right _))
        (temps_exact_single _)
  | .UnaryOpNode op expr, c => by
      simp only [ExprNode.generate_code]
      exact temps_exact_append (expr_temps expr c) (temps_exact_single _)
  | .AssignNode lhs_name lhs_index rhs, c => by
      have hi := index_temps lhs_index
      simp only [ExprNode.generate_code]
      split
      · exact temps_exact_append (expr_temps rhs c)
          (hi { (rhs.generate_code c).ctx with
            symbol_to_temp := ((rhs.generate_code c).ctx.symbol_to_temp.subscript lhs_name).2 })
      · exact expr_temps rhs c
  | .FuncCallNode func_name arguments, c => by
      simp only [ExprNode.generate_code]
      exact temps_exact_append (arguments_temps arguments c) (temps_exact_single _)
theorem index_temps : ∀ (o : Option ExprNode) (c : Ctx),
    temps_exact (generate_index_code o c).temps c.temp_count
      (generate_index_code o c).ctx.temp_count
  | none, c => by
      simp only [generate_index_code]
      exact temps_exact_nil _
  | some e, c => by
      simp only [generate_index_code]
      exact temps_exact_append (expr_temps e c) (temps_exact_single _)
theorem arguments_temps : ∀ (l : List ExprNode) (c : Ctx),
    temps_exact (generate_arguments l c).temps c.temp_count
      (generate_arguments l c).ctx.temp_count
  | [], c => by
      simp only [generate_arguments]
      exact temps_exact_nil _
  | a :: rest, c => by
      simp only [generate_arguments]
      exact temps_exact_append (expr_temps a c) (arguments_temps rest _)
end

theorem optional_temps (o : Option ExprNode) (c : Ctx) :
    temps_exact (generate_optional o c).temps c.temp_count
      (generate_optional o c).ctx.temp_count := by
  cases o with
  | none => exact temps_exact_nil _
  | some e => exact expr_temps e c

theorem decl_temps (type : String) : ∀ (vars : List (String × Int)) (c : Ctx),
    temps_exact (generate_decl type vars c).temps c.temp_count
      (generate_decl type vars c).ctx.temp_count
  | [], c => temps_exact_nil _
  | v :: rest, c => by
      simp only [generate_decl]
      exact decl_temps type rest _

theorem return_temps (expr : Option ExprNode) (c : Ctx) :
    temps_exact ((StmtNode.ReturnNode expr).generate_code c).temps c.temp_count
      ((StmtNode.ReturnNode expr).generate_code c).ctx.temp_count := by
  simp only [StmtNode.generate_code]
  split
  · split
    · exact temps_exact_nil _
    · exact expr_temps _ c
  · exact expr_temps _ c
  · exact temps_exact_nil _

mutual
theorem stmt_temps : ∀ (s : StmtNode) (c : Ctx),
    temps_exact (s.generate_code c).temps c.temp_count
      (s.generate_code c).ctx.temp_count
  | .ExprStmtNode expr, c => by
      simp only [StmtNode.generate_code]
      exact optional_temps expr c
  | .BlockNode statements, c => by
      simp only [StmtNode.generate_code]
      exact statements_temps statements c
  | .IfNode condition then_block (some els), c => by
      simp only [StmtNode.generate_code]
      exact temps_exact_append (temps_exact_append (expr_temps condition c) (stmt_temps then_block _))
        (stmt_temps els _)
  | .IfNode condition then_block none, c => by
      simp only [StmtNode.generate_code]
      exact temps_exact_append (expr_temps condition c) (stmt_temps then_block _)
  | .WhileNode condition body, c => by
      simp only [StmtNode.generate_code]
      exact temps_exact_append (expr_temps condition _) (stmt_temps body _)
  | .ForNode init (some cond_expr) update body, c => by
      simp only [StmtNode.generate_code]
      exact temps_exact_append (temps_exact_append (temps_exact_append (optional_temps init c)
        (expr_temps cond_expr _)) (stmt_temps body _)) (optional_temps update _)
  | .ForNode init none update body, c => by
      simp only [StmtNode.generate_code]
      exact temps_exact_append (temps_exact_append (temps_exact_append (optional_temps init c)
        (temps_exact_nil _)) (stmt_temps body _)) (optional_temps update _)
  | .ReturnNode expr, c => return_temps expr c
  | .DeclNode type vars, c => by
      simp only [StmtNode.generate_code]
      exact decl_temps type vars c
theorem statements_temps : ∀ (l : List StmtNode) (c : Ctx),
    temps_exact (generate_statements l c).temps c.temp_count
      (generate_statements l c).ctx.temp_count
  | [], c => temps_exact_nil _
  | s :: rest, c => by
      simp only [generate_statements]
      exact temps_exact_append (stmt_temps s c) (statements_temps rest _)
end

theorem params_temps : ∀ (params : List (String × String)) (c : Ctx),
    temps_exact (generate_params params c).temps c.temp_count
      (generate_params params c).ctx.temp_count
  | [], c => temps_exact_nil _
  | p :: rest, c => by
      simp only [generate_params]
      exact temps_exact_append (temps_exact_single _) (params_temps rest _)

theorem func_temps (f : FuncDeclNode) (c : Ctx) :
    temps_exact (f.generate_code c).temps c.temp_count
      (f.generate_code c).ctx.temp_count := by
  have hp := params_temps f.params c.reset
  unfold FuncDeclNode.generate_code
  cases f.body with
  | none =>
      simp only
      exact temps_exact_append hp (temps_exact_nil _)
  | some statements =>
      simp only
      exact temps_exact_append hp (statements_temps statements _)

/-- C2: while one function (parameters and body) is generated, the fresh-temporary
allocations return `t<k>`, `t<k+1>`, ... for the successive values of the temp
counter starting at the incoming value `k`; the counter never decreases and its
final value is `k` plus the number of allocations; so no two allocations of the
function return the same name. -/
theorem function_temps_distinct (f : FuncDeclNode) (c : Ctx) :
    c.temp_count ≤ (f.generate_code c).ctx.temp_count ∧
      (f.generate_code c).temps =
        temps_from c.temp_count ((f.generate_code c).ctx.temp_count - c.temp_count) ∧
      (f.generate_code c).ctx.temp_count = c.temp_count + (f.generate_code c).temps.length ∧
      (f.generate_code c).temps.Nodup := by
  obtain ⟨h1, h2⟩ := func_temps f c
  refine ⟨h1, h2, ?_, ?_⟩
  · rw [h2, temps_from_length]; omega
  · rw [h2]; exact temps_from_nodup _ _

/-! ### Independence of the incoming `temp_cond` -/

theorem ctx_agree_refl (c : Ctx) : c.agree c := ⟨rfl, rfl, rfl, rfl, rfl⟩

theorem gen_agree_refl (g : Gen) : g.agree g := ⟨rfl, rfl, rfl, ctx_agree_refl _⟩

theorem ctx_agree_eq {c1 c2 : Ctx} (h : c1.agree c2) (ht : c1.temp_cond = c2.temp_cond) :
    c1 = c2 := by
  obtain ⟨s1, t1, l1, tc1, ld1, as1⟩ := c1
  obtain ⟨s2, t2, l2, tc2, ld2, as2⟩ := c2
  obtain ⟨h1, h2, h3, h4, h5⟩ := h
  simp only at h1 h2 h3 h4 h5 ht
  subst h1 h2 h3 h4 h5 ht
  rfl

mutual
theorem expr_agree : ∀ (e : ExprNode) (c1 c2 : Ctx), c1.agree c2 →
    (e.generate_code c1).agree (e.generate_code c2)
  | .VarNode name index, c1, c2, h => by
      obtain ⟨s1, t1, l1, tc1, ld1, as1⟩ := c1
      obtain ⟨s2, t2, l2, tc2, ld2, as2⟩ := c2
      obtain ⟨h1, h2, h3, h4, h5⟩ := h
      simp only at h1 h2 h3 h4 h5
      subst h1 h2 h3 h4 h5
      have hi := index_agree index
        { symbol_to_temp := ((s1.bind_self name).subscript name).2, temp_count := t1,
          label_count := l1, temp_cond := tc1, var_last_loaded_temp := ld1,
          var_last_assigned_temp := as1 }
        { symbol_to_temp := ((s1.bind_self name).subscript name).2, temp_count := t1,
          label_count := l1, temp_cond := tc2, var_last_loaded_temp := ld1,
          var_last_assigned_temp := as1 } ⟨rfl, rfl, rfl, rfl, rfl⟩
      simp only [ExprNode.generate_code]
      split
      · obtain ⟨ho, ht, hr, hs, htc, hlc, hld, has⟩ := hi
        exact ⟨by rw [ho, hr, htc], by rw [ht, htc], by rw [htc], hs, by simp only; rw [htc], hlc, hld, has⟩
      · split
        · exact ⟨rfl, rfl, rfl, rfl, rfl, rfl, rfl, rfl⟩
        · split
          · exact ⟨rfl, rfl, rfl, rfl, rfl, rfl, rfl, rfl⟩
          · exact ⟨rfl, rfl, rfl, rfl, rfl, rfl, rfl, rfl⟩
  | .ConstNode value, c1, c2, h => by
      obtain ⟨h1, h2, h3, h4, h5⟩ := h
      simp only [ExprNode.generate_code]
      exact ⟨by rw [h2], by rw [h2], by rw [h2], h1, by simp only; rw [h2], h3, h4, h5⟩
  | .BinaryOpNode op left right, c1, c2, h => by
      have hl := expr_agree left c1 c2 h
      have hr := expr_agree right _ _ hl.2.2.2
      obtain ⟨ho, ht, hret, -⟩ := hl
      obtain ⟨ho2, ht2, hret2, hs, htc, hlc, hld, has⟩ := hr
      simp only [ExprNode.generate_code]
      exact ⟨by rw [ho, ho2, hret, hret2, htc], by rw [ht, ht2, htc], by rw [htc], hs,
        by simp only; rw [htc], hlc, hld, has⟩
  | .UnaryOpNode op expr, c1, c2, h => by
      obtain ⟨ho, ht, hret, hs, htc, hlc, hld, has⟩ := expr_agree expr c1 c2 h
      simp only [ExprNode.generate_code]
      exact ⟨by rw [ho, hret, htc], by rw [ht, htc], by rw [htc], hs,
        by simp only; rw [htc], hlc, hld, has⟩
  | .AssignNode lhs_name lhs_index rhs, c1, c2, h => by
      obtain ⟨ho, ht, hret, hs, htc, hlc, hld, has⟩ := expr_agree rhs c1 c2 h
      have hi := index_agree lhs_index
        { (rhs.generate_code c1).ctx with
          symbol_to_temp := ((rhs.generate_code c1).ctx.symbol_to_temp.subscript lhs_name).2 }
        { (rhs.generate_code c2).ctx with
          symbol_to_temp := ((rhs.generate_code c2).ctx.symbol_to_temp.subscript lhs_name).2 }
        ⟨by simp only; rw [hs], htc, hlc, hld, has⟩
      simp only [ExprNode.generate_code]
      split
      · obtain ⟨ho2, ht2, hret2, hc2⟩ := hi
        exact ⟨by rw [ho, ho2, hret2, hret, hs], by rw [ht, ht2], hret, hc2⟩
      · exact ⟨by rw [ho, hret, hs], ht, hret, by simp only; rw [hs], htc, hlc,
          by simp only; rw [hld], by simp only; rw [has, hret]⟩
  | .FuncCallNode func_name arguments, c1, c2, h => by
      obtain ⟨ho, ht, hret, hs, htc, hlc, hld, has⟩ := arguments_agree arguments c1 c2 h
      simp only [ExprNode.generate_code]
      exact ⟨by rw [ho, hret, htc], by rw [ht, htc], by rw [htc], hs,
        by simp only; rw [htc], hlc, hld, has⟩
theorem index_agree : ∀ (o : Option ExprNode) (c1 c2 : Ctx), c1.agree c2 →
    (generate_index_code o c1).agree (generate_index_code o c2)
  | none, c1, c2, h => by
      simp only [generate_index_code]
      exact ⟨rfl, rfl, rfl, h⟩
  | some e, c1, c2, h => by
      obtain ⟨ho, ht, hret, hs, htc, hlc, hld, has⟩ := expr_agree e c1 c2 h
      simp only [generate_index_code]
      exact ⟨by rw [ho, hret, htc], by rw [ht, htc], by rw [htc], hs,
        by simp only; rw [htc], hlc, hld, has⟩
theorem arguments_agree : ∀ (l : List ExprNode) (c1 c2 : Ctx), c1.agree c2 →
    (generate_arguments l c1).out = (generate_arguments l c2).out ∧
    (generate_arguments l c1).temps = (generate_arguments l c2).temps ∧
    (generate_arguments l c1).arg_temps = (generate_arguments l c2).arg_temps ∧
    (generate_arguments l c1).ctx.agree (generate_arguments l c2).ctx
  | [], c1, c2, h => ⟨rfl, rfl, rfl, h⟩
  | a :: rest, c1, c2, h => by
      obtain ⟨ho, ht, hret, hc⟩ := expr_agree a c1 c2 h
      obtain ⟨ho2, ht2, hret2, hc2⟩ := arguments_agree rest _ _ hc
      simp only [generate_arguments]
      exact ⟨by rw [ho, ho2], by rw [ht, ht2], by rw [hret, hret2], hc2⟩
end

theorem optional_agree (o : Option ExprNode) (c1 c2 : Ctx) (h : c1.agree c2) :
    (generate_optional o c1).agree (generate_optional o c2) := by
  cases o with
  | none => exact ⟨rfl, rfl, rfl, h⟩
  | some e => exact expr_agree e c1 c2 h

theorem decl_agree (type : String) : ∀ (vars : List (String × Int)) (c1 c2 : Ctx), c1.agree c2 →
    (generate_decl type vars c1).agree (generate_decl type vars c2)
  | [], c1, c2, h => ⟨rfl, rfl, rfl, h⟩
  | v :: rest, c1, c2, h => by
      obtain ⟨hs, htc, hlc, hld, has⟩ := h
      obtain ⟨ho, ht, -, hc⟩ := decl_agree type rest
        { c1 with symbol_to_temp := c1.symbol_to_temp.bind_self v.1 }
        { c2 with symbol_to_temp := c2.symbol_to_temp.bind_self v.1 }
        ⟨by simp only; rw [hs], htc, hlc, hld, has⟩
      simp only [generate_decl]
      exact ⟨by rw [ho], ht, rfl, hc⟩

theorem return_agree (expr : Option ExprNode) (c1 c2 : Ctx) (h : c1.agree c2) :
    ((StmtNode.ReturnNode expr).generate_code c1).agree
      ((StmtNode.ReturnNode expr).generate_code c2) := by
  have has := h.2.2.2.2
  simp only [StmtNode.generate_code]
  split
  · rename_i var_name
    rw [has]
    obtain ⟨ho, ht, hret, hc⟩ := expr_agree (ExprNode.VarNode var_name none) c1 c2 h
    split
    · exact ⟨rfl, rfl, rfl, h⟩
    · exact ⟨by rw [ho, hret], ht, rfl, hc⟩
  · rename_i e0 _
    obtain ⟨ho, ht, hret, hc⟩ := expr_agree e0 c1 c2 h
    exact ⟨by rw [ho, hret], ht, rfl, hc⟩
  · exact ⟨rfl, rfl, rfl, h⟩

mutual
theorem stmt_agree : ∀ (s : StmtNode) (c1 c2 : Ctx), c1.agree c2 →
    (s.generate_code c1).agree (s.generate_code c2)
  | .ExprStmtNode expr, c1, c2, h => by
      obtain ⟨ho, ht, -, hc⟩ := optional_agree expr c1 c2 h
      simp only [StmtNode.generate_code]
      exact ⟨ho, ht, rfl, hc⟩
  | .BlockNode statements, c1, c2, h => by
      simp only [StmtNode.generate_code]
      exact statements_agree statements c1 c2 h
  | .IfNode condition then_block (some els), c1, c2, h => by
      obtain ⟨ho, ht, hret, hs, htc, hlc, hld, has⟩ := expr_agree condition c1 c2 h
      obtain ⟨ho2, ht2, -, hs2, htc2, hlc2, hld2, has2⟩ := stmt_agree then_block
        { (condition.generate_code c1).ctx with
          label_count := (condition.generate_code c1).ctx.label_count + 2 }
        { (condition.generate_code c2).ctx with
          label_count := (condition.generate_code c2).ctx.label_count + 2 }
        ⟨hs, htc, by simp only; rw [hlc], hld, has⟩
      obtain ⟨ho3, ht3, -, hc3⟩ := stmt_agree els
        { (then_block.generate_code { (condition.generate_code c1).ctx with
            label_count := (condition.generate_code c1).ctx.label_count + 2 }).ctx with
          label_count := (then_block.generate_code { (condition.generate_code c1).ctx with
            label_count := (condition.generate_code c1).ctx.label_count + 2 }).ctx.label_count + 1 }
        { (then_block.generate_code { (condition.generate_code c2).ctx with
            label_count := (condition.generate_code c2).ctx.label_count + 2 }).ctx with
          label_count := (then_block.generate_code { (condition.generate_code c2).ctx with
            label_count := (condition.generate_code c2).ctx.label_count + 2 }).ctx.label_count + 1 }
        ⟨hs2, htc2, by simp only; rw [hlc2], hld2, has2⟩
      simp only at ho2 ht2 hlc2 ho3 ht3
      simp only [StmtNode.generate_code]
      exact ⟨by rw [ho3, ho2, hlc2, ho, hret, hlc], by rw [ht3, ht2, ht], rfl, hc3⟩
  | .IfNode condition then_block none, c1, c2, h => by
      obtain ⟨ho, ht, hret, hs, htc, hlc, hld, has⟩ := expr_agree condition c1 c2 h
      obtain ⟨ho2, ht2, -, hs2, htc2, hlc2, hld2, has2⟩ := stmt_agree then_block
        { (condition.generate_code c1).ctx with
          label_count := (condition.generate_code c1).ctx.label_count + 2 }
        { (condition.generate_code c2).ctx with
          label_count := (condition.generate_code c2).ctx.label_count + 2 }
        ⟨hs, htc, by simp only; rw [hlc], hld, has⟩
      simp only at ho2 ht2 hlc2
      simp only [StmtNode.generate_code]
      exact ⟨by rw [ho2, hlc2, ho, hret, hlc], by rw [ht2, ht], rfl,
        hs2, htc2, by simp only; rw [hlc2], hld2, has2⟩
  | .WhileNode condition body, c1, c2, h => by
      obtain ⟨hs0, htc0, hlc0, hld0, has0⟩ := h
      obtain ⟨ho, ht, hret, hc⟩ := expr_agree condition
        { c1 with label_count := c1.label_count + 3 }
        { c2 with label_count := c2.label_count + 3 }
        ⟨hs0, htc0, by simp only; rw [hlc0], hld0, has0⟩
      obtain ⟨ho2, ht2, -, hc2⟩ := stmt_agree body _ _ hc
      simp only [StmtNode.generate_code]
      exact ⟨by rw [ho2, ho, hret, hlc0], by rw [ht2, ht], rfl, hc2⟩
  | .ForNode init (some cond_expr) update body, c1, c2, h => by
      obtain ⟨ho, ht, -, hs, htc, hlc, hld, has⟩ := optional_agree init c1 c2 h
      have hk : ({ (generate_optional init c1).ctx with
            label_count := (generate_optional init c1).ctx.label_count + 3, temp_cond := "" } : Ctx)
          = { (generate_optional init c2).ctx with
            label_count := (generate_optional init c2).ctx.label_count + 3, temp_cond := "" } :=
        ctx_agree_eq ⟨hs, htc, by simp only; rw [hlc], hld, has⟩ rfl
      simp only at hk
      simp only [StmtNode.generate_code]
      rw [hk, ho, ht, hlc]
      exact gen_agree_refl _
  | .ForNode init none update body, c1, c2, h => by
      obtain ⟨ho, ht, -, hs, htc, hlc, hld, has⟩ := optional_agree init c1 c2 h
      have hk : ({ (generate_optional init c1).ctx with
            label_count := (generate_optional init c1).ctx.label_count + 3, temp_cond := "" } : Ctx)
          = { (generate_optional init c2).ctx with
            label_count := (generate_optional init c2).ctx.label_count + 3, temp_cond := "" } :=
        ctx_agree_eq ⟨hs, htc, by simp only; rw [hlc], hld, has⟩ rfl
      simp only at hk
      simp only [StmtNode.generate_code]
      rw [hk, ho, ht, hlc]
      exact gen_agree_refl _
  | .ReturnNode expr, c1, c2, h => return_agree expr c1 c2 h
  | .DeclNode type vars, c1, c2, h => by
      simp only [StmtNode.generate_code]
      exact decl_agree type vars c1 c2 h
theorem statements_agree : ∀ (l : List StmtNode) (c1 c2 : Ctx), c1.agree c2 →
    (generate_statements l c1).agree (generate_statements l c2)
  | [], c1, c2, h => ⟨rfl, rfl, rfl, h⟩
  | s :: rest, c1, c2, h => by
      obtain ⟨ho, ht, -, hc⟩ := stmt_agree s c1 c2 h
      obtain ⟨ho2, ht2, -, hc2⟩ := statements_agree rest _ _ hc
      simp only [generate_statements]
      exact ⟨by rw [ho, ho2], by rw [ht, ht2], rfl, hc2⟩
end

theorem params_agree : ∀ (params : List (String × String)) (c1 c2 : Ctx), c1.agree c2 →
    (generate_params params c1).agree (generate_params params c2)
  | [], c1, c2, h => ⟨rfl, rfl, rfl, h⟩
  | p :: rest, c1, c2, h => by
      obtain ⟨hs, htc, hlc, hld, has⟩ := h
      obtain ⟨ho, ht, -, hc⟩ := params_agree rest
        { c1 with temp_count := c1.temp_count + 1
                  symbol_to_temp := c1.symbol_to_temp.insert p.2 (temp_name c1.temp_count) }
        { c2 with temp_count := c2.temp_count + 1
                  symbol_to_temp := c2.symbol_to_temp.insert p.2 (temp_name c2.temp_count) }
        ⟨by simp only; rw [hs, htc], by simp only; rw [htc], hlc, hld, has⟩
      simp only [generate_params]
      exact ⟨by rw [ho, htc], by rw [ht, htc], rfl, hc⟩

theorem func_agree (f : FuncDeclNode) (c1 c2 : Ctx)
    (ht : c1.temp_count = c2.temp_count) (hl : c1.label_count = c2.label_count) :
    (f.generate_code c1).agree (f.generate_code c2) := by
  obtain ⟨ho, hts, -, hc⟩ := params_agree f.params c1.reset c2.reset ⟨rfl, ht, hl, rfl, rfl⟩
  unfold FuncDeclNode.generate_code
  cases f.body with
  | none =>
      simp only
      exact ⟨by rw [ho], by rw [hts], rfl, hc⟩
  | some statements =>
      simp only
      obtain ⟨ho2, hts2, -, hc2⟩ := statements_agree statements _ _ hc
      exact ⟨by rw [ho2, ho], by rw [hts2, hts], rfl, hc2⟩

theorem func_cond_slot (f : FuncDeclNode) (c1 c2 : Ctx) (h : c1.reset = c2.reset) :
    f.generate_code c1 = f.generate_code c2 := by
  unfold FuncDeclNode.generate_code
  rw [h]

/-- C3 (counterexample): two incoming contexts that agree on both counters (and on
the maps and caches) but not on `temp_cond`; generating a function with an empty
body leaves different final contexts, because nothing sets `temp_cond`. -/
theorem function_final_state_differs :
    Ctx.start.temp_count = ({ Ctx.start with temp_cond := "t7" } : Ctx).temp_count ∧
    Ctx.start.label_count = ({ Ctx.start with temp_cond := "t7" } : Ctx).label_count ∧
    ((FuncDeclNode.mk "void" "f" [] (some [])).generate_code Ctx.start).out =
      ((FuncDeclNode.mk "void" "f" [] (some [])).generate_code
        { Ctx.start with temp_cond := "t7" }).out ∧
    ((FuncDeclNode.mk "void" "f" [] (some [])).generate_code Ctx.start).ctx ≠
      ((FuncDeclNode.mk "void" "f" [] (some [])).generate_code
        { Ctx.start with temp_cond := "t7" }).ctx := by
  refine ⟨rfl, rfl, rfl, ?_⟩
  intro h
  have h2 := congrArg Ctx.temp_cond h
  revert h2
  decide

/-- C3 (amended): generating a function gives the same result as generating it
from the context whose storage map and two caches have been emptied; and for two
incoming contexts that agree on the temp counter and the label counter, whatever
their maps, caches and `temp_cond` hold, the emitted lines, the allocated
temporaries and the returned name are identical and the final contexts have the
same storage map, temp counter, label counter and caches.  The final `temp_cond`
is identical as well when the incoming `temp_cond` values are. -/
theorem function_cache_reset (f : FuncDeclNode) (c1 c2 : Ctx)
    (ht : c1.temp_count = c2.temp_count) (hl : c1.label_count = c2.label_count) :
    f.generate_code c1 = f.generate_code c1.reset ∧
    c1.reset.symbol_to_temp = StrMap.clear ∧
    c1.reset.var_last_loaded_temp = StrMap.clear ∧
    c1.reset.var_last_assigned_temp = StrMap.clear ∧
    (f.generate_code c1).out = (f.generate_code c2).out ∧
    (f.generate_code c1).temps = (f.generate_code c2).temps ∧
    (f.generate_code c1).ret = (f.generate_code c2).ret ∧
    (f.generate_code c1).ctx.symbol_to_temp = (f.generate_code c2).ctx.symbol_to_temp ∧
    (f.generate_code c1).ctx.temp_count = (f.generate_code c2).ctx.temp_count ∧
    (f.generate_code c1).ctx.label_count = (f.generate_code c2).ctx.label_count ∧
    (f.generate_code c1).ctx.var_last_loaded_temp =
      (f.generate_code c2).ctx.var_last_loaded_temp ∧
    (f.generate_code c1).ctx.var_last_assigned_temp =
      (f.generate_code c2).ctx.var_last_assigned_temp ∧
    (c1.temp_cond = c2.temp_cond → (f.generate_code c1).ctx = (f.generate_code c2).ctx) := by
  obtain ⟨ho, hts, hr, hs, htc, hlc, hld, has⟩ := func_agree f c1 c2 ht hl
  refine ⟨func_cond_slot f c1 c1.reset rfl, rfl, rfl, rfl, ho, hts, hr, hs, htc, hlc, hld, has, ?_⟩
  intro hcond
  have : c1.reset = c2.reset := ctx_agree_eq ⟨rfl, ht, hl, rfl, rfl⟩ hcond
  rw [func_cond_slot f c1 c2 this]

/-- C3 (witness): a function with a parameter, a load and a comparison, generated
from the start context and from a context with a bound variable, a cached load, a
cached assignment and a stale `temp_cond`. -/
theorem function_cache_reset_witness :
    ((FuncDeclNode.mk "int" "f" [("int", "a")]
        (some [StmtNode.ReturnNode (some (ExprNode.BinaryOpNode "<" (ExprNode.VarNode "a" none)
          (ExprNode.VarNode "b" none)))])).generate_code Ctx.start).out =
      ((FuncDeclNode.mk "int" "f" [("int", "a")]
        (some [StmtNode.ReturnNode (some (ExprNode.BinaryOpNode "<" (ExprNode.VarNode "a" none)
          (ExprNode.VarNode "b" none)))])).generate_code
        { symbol_to_temp := StrMap.clear.insert "b" "t0"
          temp_count := 0
          label_count := 0
          temp_cond := "t7"
          var_last_loaded_temp := StrMap.clear.insert "a" "t5"
          var_last_assigned_temp := StrMap.clear.insert "b" "t6" }).out :=
  (function_cache_reset _ Ctx.start _ rfl rfl).2.2.2.2.1

/-! ### Scalar reads, assignments and returns -/

theorem subscript_bind_self (m : StrMap) (x : String) :
    (m.bind_self x).subscript x = (storage_of m x, m.bind_self x) := by
  unfold StrMap.bind_self StrMap.subscript storage_of
  cases h : m x with
  | none => simp [StrMap.insert]
  | some s => simp [h]

theorem bind_self_idem (m : StrMap) (x : String) : (m.bind_self x).bind_self x = m.bind_self x := by
  unfold StrMap.bind_self
  cases h : m x with
  | none => simp [StrMap.insert]
  | some s => simp [h]

theorem storage_of_bind_self (m : StrMap) (x : String) :
    storage_of (m.bind_self x) x = storage_of m x := by
  unfold StrMap.bind_self storage_of
  cases h : m x with
  | none => simp [StrMap.insert]
  | some s => simp [h]

theorem bind_self_apply (m : StrMap) (x : String) :
    (m.bind_self x) x = some (storage_of m x) := by
  unfold StrMap.bind_self storage_of
  cases h : m x with
  | none => simp [StrMap.insert]
  | some s => simp [h]

theorem bind_self_other (m : StrMap) (x y : String) (h : y ≠ x) : (m.bind_self x) y = m y := by
  unfold StrMap.bind_self
  cases hx : m x with
  | none => simp [StrMap.insert, h]
  | some s => rfl

theorem scalar_read_eq (x : String) (c : Ctx) :
    (ExprNode.VarNode x none).generate_code c =
      match c.var_last_loaded_temp x with
      | some cached =>
          { out := [], temps := [], ret := cached
            ctx := { c with symbol_to_temp := c.symbol_to_temp.bind_self x } }
      | none =>
          if is_temp (storage_of c.symbol_to_temp x) then
            { out := [], temps := [], ret := storage_of c.symbol_to_temp x
              ctx := { c with symbol_to_temp := c.symbol_to_temp.bind_self x } }
          else
            { out := [temp_name c.temp_count ++ " = " ++ storage_of c.symbol_to_temp x]
              temps := [temp_name c.temp_count]
              ret := temp_name c.temp_count
              ctx := { c with
                symbol_to_temp := c.symbol_to_temp.bind_self x
                temp_count := c.temp_count + 1
                var_last_loaded_temp := c.var_last_loaded_temp.insert x (temp_name c.temp_count) } } := by
  simp only [ExprNode.generate_code, subscript_bind_self, Option.isSome_none, Bool.false_eq_true,
    if_false]

theorem scalar_assign_eq (x : String) (e : ExprNode) (c : Ctx) :
    (ExprNode.AssignNode x none e).generate_code c =
      { out := (e.generate_code c).out ++
          [storage_of (e.generate_code c).ctx.symbol_to_temp x ++ " = " ++ (e.generate_code c).ret]
        temps := (e.generate_code c).temps
        ret := (e.generate_code c).ret
        ctx := { (e.generate_code c).ctx with
          symbol_to_temp := (e.generate_code c).ctx.symbol_to_temp.bind_self x
          var_last_loaded_temp := (e.generate_code c).ctx.var_last_loaded_temp.erase x
          var_last_assigned_temp :=
            (e.generate_code c).ctx.var_last_assigned_temp.insert x (e.generate_code c).ret } } := by
  simp only [ExprNode.generate_code, subscript_bind_self, Option.isSome_none, Bool.false_eq_true,
    if_false]

theorem const_eq (value : String) (c : Ctx) :
    (ExprNode.ConstNode value).generate_code c =
      { out := [temp_name c.temp_count ++ " = " ++ value]
        temps := [temp_name c.temp_count]
        ret := temp_name c.temp_count
        ctx := { c with temp_count := c.temp_count + 1 } } := by
  simp only [ExprNode.generate_code]

theorem binary_eq (op : String) (left right : ExprNode) (c : Ctx) :
    (ExprNode.BinaryOpNode op left right).generate_code c =
      { out := (left.generate_code c).out ++ (right.generate_code (left.generate_code c).ctx).out ++
          [temp_name (right.generate_code (left.generate_code c).ctx).ctx.temp_count ++ " = " ++
            (left.generate_code c).ret ++ " " ++ op ++ " " ++
            (right.generate_code (left.generate_code c).ctx).ret]
        temps := (left.generate_code c).temps ++ (right.generate_code (left.generate_code c).ctx).temps ++
          [temp_name (right.generate_code (left.generate_code c).ctx).ctx.temp_count]
        ret := temp_name (right.generate_code (left.generate_code c).ctx).ctx.temp_count
        ctx := { (right.generate_code (left.generate_code c).ctx).ctx with
          temp_count := (right.generate_code (left.generate_code c).ctx).ctx.temp_count + 1
          temp_cond := temp_name (right.generate_code (left.generate_code c).ctx).ctx.temp_count } } := by
  simp only [ExprNode.generate_code]

/-- C4: reading a scalar variable twice in succession, from any context: the second
read emits nothing, allocates nothing, returns the name the first read returned
and leaves the context exactly as the first read left it.  For `x = 1; y = x + x;`
generated where the storage of `x` is `x`, the output is the constant, the store
into `x`, one load `t<k+1> = x`, the addition `t<k+2> = t<k+1> + t<k+1>` and the
store into `y`. -/
theorem scalar_read_reuse :
    (∀ (x : String) (c : Ctx),
      ((ExprNode.VarNode x none).generate_code ((ExprNode.VarNode x none).generate_code c).ctx).out = [] ∧
      ((ExprNode.VarNode x none).generate_code ((ExprNode.VarNode x none).generate_code c).ctx).temps = [] ∧
      ((ExprNode.VarNode x none).generate_code ((ExprNode.VarNode x none).generate_code c).ctx).ret =
        ((ExprNode.VarNode x none).generate_code c).ret ∧
      ((ExprNode.VarNode x none).generate_code ((ExprNode.VarNode x none).generate_code c).ctx).ctx =
        ((ExprNode.VarNode x none).generate_code c).ctx) ∧
    (∀ (c : Ctx), (c.symbol_to_temp "x" = none ∨ c.symbol_to_temp "x" = some "x") →
      (generate_statements
        [StmtNode.ExprStmtNode (some (ExprNode.AssignNode "x" none (ExprNode.ConstNode "1"))),
         StmtNode.ExprStmtNode (some (ExprNode.AssignNode "y" none
          (ExprNode.BinaryOpNode "+" (ExprNode.VarNode "x" none) (ExprNode.VarNode "x" none))))] c).out =
        [temp_name c.temp_count ++ " = " ++ "1",
         "x" ++ " = " ++ temp_name c.temp_count,
         temp_name (c.temp_count + 1) ++ " = " ++ "x",
         temp_name (c.temp_count + 2) ++ " = " ++ temp_name (c.temp_count + 1) ++ " " ++ "+" ++ " "
           ++ temp_name (c.temp_count + 1),
         storage_of c.symbol_to_temp "y" ++ " = " ++ temp_name (c.temp_count + 2)]) := by
  constructor
  · intro x c
    cases hl : c.var_last_loaded_temp x with
    | some cached =>
        simp [scalar_read_eq, hl, bind_self_idem]
    | none =>
        by_cases ht : is_temp (storage_of c.symbol_to_temp x) = true
        · simp [scalar_read_eq, hl, ht, storage_of_bind_self, bind_self_idem]
        · simp [scalar_read_eq, hl, ht, storage_of_bind_self, bind_self_idem, StrMap.insert]
  · intro c hx
    have hsx : storage_of c.symbol_to_temp "x" = "x" := by
      unfold storage_of
      rcases hx with h | h <;> simp [h]
    have hnt : is_temp "x" = false := by decide
    have hsy : storage_of (c.symbol_to_temp.bind_self "x") "y" = storage_of c.symbol_to_temp "y" := by
      unfold storage_of
      rw [bind_self_other _ _ _ (by decide)]
    simp only [generate_statements, StmtNode.generate_code, generate_optional, scalar_assign_eq,
      scalar_read_eq]
    simp only [const_eq, binary_eq, scalar_read_eq, StrMap.erase, StrMap.insert, if_true,
      storage_of_bind_self, hsx, hnt, bind_self_idem, hsy, List.append_nil, List.nil_append,
      List.cons_append, List.singleton_append, Bool.false_eq_true, if_false]

/-- C4 (witness): `x = 1; y = x + x;` generated from the start context. -/
theorem scalar_read_reuse_witness :
    (generate_statements
      [StmtNode.ExprStmtNode (some (ExprNode.AssignNode "x" none (ExprNode.ConstNode "1"))),
       StmtNode.ExprStmtNode (some (ExprNode.AssignNode "y" none
        (ExprNode.BinaryOpNode "+" (ExprNode.VarNode "x" none) (ExprNode.VarNode "x" none))))]
      Ctx.start).out = ["t0 = 1", "x = t0", "t1 = x", "t2 = t1 + t1", "y = t2"] :=
  (scalar_read_reuse.2 Ctx.start (Or.inl rfl)).trans (by decide)

theorem bind_self_of_bound (m : StrMap) (x s : String) (h : m x = some s) : m.bind_self x = m := by
  unfold StrMap.bind_self
  rw [h]

theorem temp_name_ne_of_lt {j k : Nat} (h : j < k) : temp_name k ≠ temp_name j := by
  intro he
  have := temp_name_inj he
  omega

/-- C5: a scalar read of `x` generated directly after a scalar assignment `x = e`,
from any context and for any `e`, when the storage name of `x` is not of the form
`t<digits>`: the read emits exactly the one load line `t<k> = <storage of x>` with
`k` the temp counter left by the assignment, returns `t<k>`, advances the counter
by one and records `t<k>` in the last-loaded cache; `t<k>` differs from every
temporary `t<j>` allocated before the assignment (`j` below the incoming temp
counter), so it is never the temporary cached before the assignment.  For
`x = 1; t = x; x = 2; t2 = x;` generated where the storage of `x` is `x`, the load
`t<k+3> = x` directly follows the store `x = t<k+2>`. -/
theorem read_after_assign_reloads :
    (∀ (x : String) (e : ExprNode) (c : Ctx),
      is_temp (storage_of ((ExprNode.AssignNode x none e).generate_code c).ctx.symbol_to_temp x) = false →
      (ExprNode.VarNode x none).generate_code ((ExprNode.AssignNode x none e).generate_code c).ctx =
        { out := [temp_name ((ExprNode.AssignNode x none e).generate_code c).ctx.temp_count ++ " = " ++
            storage_of ((ExprNode.AssignNode x none e).generate_code c).ctx.symbol_to_temp x]
          temps := [temp_name ((ExprNode.AssignNode x none e).generate_code c).ctx.temp_count]
          ret := temp_name ((ExprNode.AssignNode x none e).generate_code c).ctx.temp_count
          ctx := { ((ExprNode.AssignNode x none e).generate_code c).ctx with
            temp_count := ((ExprNode.AssignNode x none e).generate_code c).ctx.temp_count + 1
            var_last_loaded_temp :=
              ((ExprNode.AssignNode x none e).generate_code c).ctx.var_last_loaded_temp.insert x
                (temp_name ((ExprNode.AssignNode x none e).generate_code c).ctx.temp_count) } } ∧
      ∀ j, j < c.temp_count →
        ((ExprNode.VarNode x none).generate_code
          ((ExprNode.AssignNode x none e).generate_code c).ctx).ret ≠ temp_name j) ∧
    (∀ (c : Ctx), (c.symbol_to_temp "x" = none ∨ c.symbol_to_temp "x" = some "x") →
      (generate_statements
        [StmtNode.ExprStmtNode (some (ExprNode.AssignNode "x" none (ExprNode.ConstNode "1"))),
         StmtNode.ExprStmtNode (some (ExprNode.AssignNode "t" none (ExprNode.VarNode "x" none))),
         StmtNode.ExprStmtNode (some (ExprNode.AssignNode "x" none (ExprNode.ConstNode "2"))),
         StmtNode.ExprStmtNode (some (ExprNode.AssignNode "t2" none (ExprNode.VarNode "x" none)))]
        c).out =
        [temp_name c.temp_count ++ " = " ++ "1",
         "x" ++ " = " ++ temp_name c.temp_count,
         temp_name (c.temp_count + 1) ++ " = " ++ "x",
         storage_of c.symbol_to_temp "t" ++ " = " ++ temp_name (c.temp_count + 1),
         temp_name (c.temp_count + 2) ++ " = " ++ "2",
         "x" ++ " = " ++ temp_name (c.temp_count + 2),
         temp_name (c.temp_count + 3) ++ " = " ++ "x",
         storage_of c.symbol_to_temp "t2" ++ " = " ++ temp_name (c.temp_count + 3)]) := by
  constructor
  · intro x e c hs
    have hmono := (expr_temps (ExprNode.AssignNode x none e) c).1
    have hread : (ExprNode.VarNode x none).generate_code
        ((ExprNode.AssignNode x none e).generate_code c).ctx = _ :=
      scalar_read_eq x _
    have hl : ((ExprNode.AssignNode x none e).generate_code c).ctx.var_last_loaded_temp x = none := by
      simp [scalar_assign_eq, StrMap.erase]
    have hb : ((ExprNode.AssignNode x none e).generate_code c).ctx.symbol_to_temp.bind_self x =
        ((ExprNode.AssignNode x none e).generate_code c).ctx.symbol_to_temp := by
      simp [scalar_assign_eq, bind_self_idem]
    rw [hl] at hread
    simp only [hs, Bool.false_eq_true, if_false, hb] at hread
    refine ⟨hread, fun j hj => ?_⟩
    rw [hread]
    exact temp_name_ne_of_lt (by omega)
  · intro c hx
    have hsx : storage_of c.symbol_to_temp "x" = "x" := by
      unfold storage_of
      rcases hx with h | h <;> simp [h]
    have hnt : is_temp "x" = false := by decide
    have hst : storage_of (c.symbol_to_temp.bind_self "x") "t" = storage_of c.symbol_to_temp "t" := by
      unfold storage_of
      rw [bind_self_other _ _ _ (by decide)]
    have hst2 : storage_of ((c.symbol_to_temp.bind_self "x").bind_self "t") "t2" =
        storage_of c.symbol_to_temp "t2" := by
      unfold storage_of
      rw [bind_self_other _ _ _ (by decide), bind_self_other _ _ _ (by decide)]
    have hsx2 : storage_of ((c.symbol_to_temp.bind_self "x").bind_self "t") "x" = "x" := by
      unfold storage_of
      rw [bind_self_other _ _ _ (by decide), bind_self_apply, hsx]
    have hxt : ((c.symbol_to_temp.bind_self "x").bind_self "t").bind_self "x" =
        (c.symbol_to_temp.bind_self "x").bind_self "t" :=
      bind_self_of_bound _ _ _
        (by rw [bind_self_other _ _ _ (by decide), bind_self_apply])
    have hne : ("x" = "t") = False := by decide
    simp only [generate_statements, StmtNode.generate_code, generate_optional, scalar_assign_eq,
      scalar_read_eq]
    simp only [const_eq, scalar_read_eq, StrMap.erase, StrMap.insert, if_true,
      storage_of_bind_self, hsx, hnt, bind_self_idem, hst, hst2, hsx2, hxt, hne, List.append_nil,
      List.nil_append, List.cons_append, List.singleton_append, Bool.false_eq_true, if_false]

/-- C5 (witness): the read of `x` after `x = 1` from the start context returns the
fresh `t1`, and `x = 1; t = x; x = 2; t2 = x;` generated from the start context. -/
theorem read_after_assign_reloads_witness :
    ((ExprNode.VarNode "x" none).generate_code
      ((ExprNode.AssignNode "x" none (ExprNode.ConstNode "1")).generate_code Ctx.start).ctx).out =
      ["t1 = x"] ∧
    (generate_statements
      [StmtNode.ExprStmtNode (some (ExprNode.AssignNode "x" none (ExprNode.ConstNode "1"))),
       StmtNode.ExprStmtNode (some (ExprNode.AssignNode "t" none (ExprNode.VarNode "x" none))),
       StmtNode.ExprStmtNode (some (ExprNode.AssignNode "x" none (ExprNode.ConstNode "2"))),
       StmtNode.ExprStmtNode (some (ExprNode.AssignNode "t2" none (ExprNode.VarNode "x" none)))]
      Ctx.start).out =
      ["t0 = 1", "x = t0", "t1 = x", "t = t1", "t2 = 2", "x = t2", "t3 = x", "t2 = t3"] :=
  ⟨(congrArg Gen.out
      (read_after_assign_reloads.1 "x" (ExprNode.ConstNode "1") Ctx.start (by decide)).1).trans
      (by decide),
   (read_after_assign_reloads.2 Ctx.start (Or.inl rfl)).trans (by decide)⟩

/-- C6: a scalar assignment `x = e`, from any context.  Its output is the code of `e`
followed by the single line `<storage of x> = r`, with `r` the name returned by `e`,
and it returns `r` without allocating anything of its own.  Relative to the context
left by `e`: the last-loaded cache loses its entry for `x`, the last-assigned cache
maps `x` to `r`, the storage map binds `x` to itself if `x` was unbound and is
unchanged otherwise, and every other variable's map and cache entries, the temp
counter, the label counter and `temp_cond` are unchanged. -/
theorem scalar_assign_effect (x : String) (e : ExprNode) (c : Ctx) :
    ((ExprNode.AssignNode x none e).generate_code c).out =
      (e.generate_code c).out ++
        [storage_of (e.generate_code c).ctx.symbol_to_temp x ++ " = " ++ (e.generate_code c).ret] ∧
    ((ExprNode.AssignNode x none e).generate_code c).ret = (e.generate_code c).ret ∧
    ((ExprNode.AssignNode x none e).generate_code c).temps = (e.generate_code c).temps ∧
    ((ExprNode.AssignNode x none e).generate_code c).ctx.var_last_loaded_temp x = none ∧
    ((ExprNode.AssignNode x none e).generate_code c).ctx.var_last_assigned_temp x =
      some (e.generate_code c).ret ∧
    ((e.generate_code c).ctx.symbol_to_temp x = none →
      ((ExprNode.AssignNode x none e).generate_code c).ctx.symbol_to_temp x = some x) ∧
    ((e.generate_code c).ctx.symbol_to_temp x ≠ none →
      ((ExprNode.AssignNode x none e).generate_code c).ctx.symbol_to_temp =
        (e.generate_code c).ctx.symbol_to_temp) ∧
    (∀ y, y ≠ x →
      ((ExprNode.AssignNode x none e).generate_code c).ctx.symbol_to_temp y =
        (e.generate_code c).ctx.symbol_to_temp y ∧
      ((ExprNode.AssignNode x none e).generate_code c).ctx.var_last_loaded_temp y =
        (e.generate_code c).ctx.var_last_loaded_temp y ∧
      ((ExprNode.AssignNode x none e).generate_code c).ctx.var_last_assigned_temp y =
        (e.generate_code c).ctx.var_last_assigned_temp y) ∧
    ((ExprNode.AssignNode x none e).generate_code c).ctx.temp_count =
      (e.generate_code c).ctx.temp_count ∧
    ((ExprNode.AssignNode x none e).generate_code c).ctx.label_count =
      (e.generate_code c).ctx.label_count ∧
    ((ExprNode.AssignNode x none e).generate_code c).ctx.temp_cond =
      (e.generate_code c).ctx.temp_cond := by
  rw [scalar_assign_eq]
  refine ⟨rfl, rfl, rfl, ?_, ?_, ?_, ?_, ?_, rfl, rfl, rfl⟩
  · simp [StrMap.erase]
  · simp [StrMap.insert]
  · intro h
    simp [StrMap.bind_self, h, StrMap.insert]
  · intro h
    obtain ⟨s, hs⟩ := Option.ne_none_iff_exists'.1 h
    exact bind_self_of_bound _ _ _ hs
  · intro y hy
    exact ⟨bind_self_other _ _ _ hy, by simp [StrMap.erase, hy], by simp [StrMap.insert, hy]⟩

/-- C6 (witness): `x = 1` from the start context, where `x` is unbound. -/
theorem scalar_assign_effect_witness :
    ((ExprNode.AssignNode "x" none (ExprNode.ConstNode "1")).generate_code Ctx.start).ctx.symbol_to_temp
      "x" = some "x" :=
  (scalar_assign_effect "x" (ExprNode.ConstNode "1") Ctx.start).2.2.2.2.2.1 rfl

/-- C7: `return x` generated directly after the scalar assignment `x = e`, for any
`x`, `e` and context: the return emits exactly the one line `return <r>`, where `r`
is the name returned by `e`, allocates no temporary and leaves the context (the
temp counter included) as the assignment left it.  For `x = 5; return x;` generated
where the storage of `x` is `x`, the output is `t<k> = 5`, `x = t<k>`,
`return t<k>`. -/
theorem return_after_assign :
    (∀ (x : String) (e : ExprNode) (c : Ctx),
      (StmtNode.ReturnNode (some (ExprNode.VarNode x none))).generate_code
          ((ExprNode.AssignNode x none e).generate_code c).ctx =
        { out := ["return " ++ (e.generate_code c).ret]
          temps := []
          ret := ""
          ctx := ((ExprNode.AssignNode x none e).generate_code c).ctx }) ∧
    (∀ (c : Ctx), (c.symbol_to_temp "x" = none ∨ c.symbol_to_temp "x" = some "x") →
      (generate_statements
        [StmtNode.ExprStmtNode (some (ExprNode.AssignNode "x" none (ExprNode.ConstNode "5"))),
         StmtNode.ReturnNode (some (ExprNode.VarNode "x" none))] c).out =
        [temp_name c.temp_count ++ " = " ++ "5",
         "x" ++ " = " ++ temp_name c.temp_count,
         "return " ++ temp_name c.temp_count]) := by
  constructor
  · intro x e c
    have ha : ((ExprNode.AssignNode x none e).generate_code c).ctx.var_last_assigned_temp x =
        some (e.generate_code c).ret := by
      simp [scalar_assign_eq, StrMap.insert]
    simp only [StmtNode.generate_code, ha]
  · intro c hx
    have hsx : storage_of c.symbol_to_temp "x" = "x" := by
      unfold storage_of
      rcases hx with h | h <;> simp [h]
    simp only [generate_statements, StmtNode.generate_code, generate_optional, scalar_assign_eq]
    simp only [const_eq, StrMap.insert, if_true, hsx, List.append_nil, List.nil_append,
      List.cons_append, List.singleton_append]

/-- C7 (witness): `x = 5; return x;` generated from the start context. -/
theorem return_after_assign_witness :
    (generate_statements
      [StmtNode.ExprStmtNode (some (ExprNode.AssignNode "x" none (ExprNode.ConstNode "5"))),
       StmtNode.ReturnNode (some (ExprNode.VarNode "x" none))] Ctx.start).out =
      ["t0 = 5", "x = t0", "return t0"] :=
  (return_after_assign.2 Ctx.start (Or.inl rfl)).trans (by decide)

/-! ### Shapes of the control-flow statements -/

theorem if_line_empty (k : Nat) : if_line "" k = "if  goto L" ++ toString k := by
  apply String.ext
  simp [if_line, String.data_append]

/-- C8: the output of an If node, from any context.  With `c` the name returned by
the condition, `n` the label counter after the condition and `e` the label counter
after the then-body (generated with the counter at `n + 2`), the output is the
condition code, `if c goto L<n>`, `goto L<n+1>`, `L<n>:`, the then-body code,
`goto L<e>`, `L<n+1>:`, the else-body code (generated with the counter at `e + 1`),
`L<e>:`.  Without an else-branch the else-body code is empty: `L<n+1>:` is directly
followed by `L<e>:`, and apart from the label lines of the then-body exactly the
three label lines `L<n>:`, `L<n+1>:`, `L<e>:` are emitted.  The returned name is
empty. -/
theorem if_shape (condition : ExprNode) (then_block : StmtNode) (c : Ctx) :
    (∀ els : StmtNode,
      ((StmtNode.IfNode condition then_block (some els)).generate_code c).out =
        (condition.generate_code c).out ++
        [if_line (condition.generate_code c).ret (condition.generate_code c).ctx.label_count,
         goto_line ((condition.generate_code c).ctx.label_count + 1),
         label_line (condition.generate_code c).ctx.label_count] ++
        (then_block.generate_code { (condition.generate_code c).ctx with
          label_count := (condition.generate_code c).ctx.label_count + 2 }).out ++
        [goto_line (then_block.generate_code { (condition.generate_code c).ctx with
            label_count := (condition.generate_code c).ctx.label_count + 2 }).ctx.label_count,
         label_line ((condition.generate_code c).ctx.label_count + 1)] ++
        (els.generate_code { (then_block.generate_code { (condition.generate_code c).ctx with
            label_count := (condition.generate_code c).ctx.label_count + 2 }).ctx with
          label_count := (then_block.generate_code { (condition.generate_code c).ctx with
            label_count := (condition.generate_code c).ctx.label_count + 2 }).ctx.label_count + 1 }).out ++
        [label_line (then_block.generate_code { (condition.generate_code c).ctx with
            label_count := (condition.generate_code c).ctx.label_count + 2 }).ctx.label_count] ∧
      ((StmtNode.IfNode condition then_block (some els)).generate_code c).ret = "") ∧
    ((StmtNode.IfNode condition then_block none).generate_code c).out =
      (condition.generate_code c).out ++
      [if_line (condition.generate_code c).ret (condition.generate_code c).ctx.label_count,
       goto_line ((condition.generate_code c).ctx.label_count + 1),
       label_line (condition.generate_code c).ctx.label_count] ++
      (then_block.generate_code { (condition.generate_code c).ctx with
        label_count := (condition.generate_code c).ctx.label_count + 2 }).out ++
      [goto_line (then_block.generate_code { (condition.generate_code c).ctx with
          label_count := (condition.generate_code c).ctx.label_count + 2 }).ctx.label_count,
       label_line ((condition.generate_code c).ctx.label_count + 1)] ++
      [] ++
      [label_line (then_block.generate_code { (condition.generate_code c).ctx with
          label_count := (condition.generate_code c).ctx.label_count + 2 }).ctx.label_count] ∧
    ((StmtNode.IfNode condition then_block none).generate_code c).ret = "" ∧
    label_ids ((StmtNode.IfNode condition then_block none).generate_code c).out =
      [(condition.generate_code c).ctx.label_count] ++
      label_ids (then_block.generate_code { (condition.generate_code c).ctx with
        label_count := (condition.generate_code c).ctx.label_count + 2 }).out ++
      [(condition.generate_code c).ctx.label_count + 1,
       (then_block.generate_code { (condition.generate_code c).ctx with
          label_count := (condition.generate_code c).ctx.label_count + 2 }).ctx.label_count] := by
  refine ⟨fun els => ⟨?_, ?_⟩, ?_, ?_, ?_⟩
  · simp only [StmtNode.generate_code]
  · simp only [StmtNode.generate_code]
  · simp only [StmtNode.generate_code, List.append_nil, List.append_assoc, List.cons_append,
      List.nil_append]
  · simp only [StmtNode.generate_code]
  · simp only [StmtNode.generate_code, label_ids_append, label_ids_cons_space _ _ (space_if_line _ _),
      label_ids_cons_space _ _ (space_goto_line _), label_ids_cons_label, label_ids_nil,
      (expr_labels condition c).1, List.nil_append, List.append_nil, List.append_assoc,
      List.cons_append]

/-- C9: the output of a While node generated with incoming label counter `n`.  The
condition is generated with the label counter already at `n + 3` (the labels `n`,
`n + 1`, `n + 2` are allocated first), and the output is `L<n>:`, the condition
code, `if c goto L<n+1>`, `goto L<n+2>`, `L<n+1>:`, the body code, `goto L<n>`,
`L<n+2>:`, with `c` the name returned by the condition; the returned name is
empty. -/
theorem while_shape (condition : ExprNode) (body : StmtNode) (c : Ctx) :
    ((StmtNode.WhileNode condition body).generate_code c).out =
      [label_line c.label_count] ++
      (condition.generate_code { c with label_count := c.label_count + 3 }).out ++
      [if_line (condition.generate_code { c with label_count := c.label_count + 3 }).ret
         (c.label_count + 1),
       goto_line (c.label_count + 2),
       label_line (c.label_count + 1)] ++
      (body.generate_code (condition.generate_code { c with label_count := c.label_count + 3 }).ctx).out ++
      [goto_line c.label_count, label_line (c.label_count + 2)] ∧
    ((StmtNode.WhileNode condition body).generate_code c).ret = "" ∧
    ((StmtNode.WhileNode condition body).generate_code c).ctx =
      (body.generate_code (condition.generate_code { c with label_count := c.label_count + 3 }).ctx).ctx := by
  refine ⟨?_, ?_, ?_⟩ <;> simp only [StmtNode.generate_code]

theorem branch_eq (name : String) (k : Nat) :
    (if name ≠ "" then if_line name k else "if  goto L" ++ toString k) = if_line name k := by
  by_cases h : name = ""
  · subst h
    simp [if_line_empty]
  · simp [h]

/-- C10: the output of a For node, from any context.  With `n` the label counter
after the init code (which equals the incoming one), the output is the init code
(nothing if absent), `L<n>:`, then, only if a condition is present, the condition
code followed by one `if <name> goto L<n+1>` line and `goto L<n+2>`, then
`L<n+1>:`, the body code, the update code (nothing if absent), `goto L<n>`,
`L<n+2>:`.  The body is generated with the label counter at `n + 3` and the final
label counter is the one the body leaves, whichever of init, condition and update
are absent.  For `for (;;) { s; }` the output is `L<n>:`, `L<n+1>:`, the body,
`goto L<n>`, `L<n+2>:`, with no `if` line and no `goto L<n+2>` line. -/
theorem for_shape (init update : Option ExprNode) (body : StmtNode) (c : Ctx) :
    (generate_optional none c).out = [] ∧
    (generate_optional init c).ctx.label_count = c.label_count ∧
    (∀ cond_expr : ExprNode,
      let i := generate_optional init c
      let n := i.ctx.label_count
      let g := cond_expr.generate_code { i.ctx with label_count := n + 3, temp_cond := "" }
      let name := if g.ctx.temp_cond ≠ "" then g.ctx.temp_cond else g.ret
      let b := body.generate_code { g.ctx with temp_cond := "" }
      let u := generate_optional update b.ctx
      let r := (StmtNode.ForNode init (some cond_expr) update body).generate_code c
      r.out = i.out ++ [label_line n] ++ g.out ++ [if_line name (n + 1), goto_line (n + 2)] ++
        [label_line (n + 1)] ++ b.out ++ u.out ++ [goto_line n, label_line (n + 2)] ∧
      r.ret = "" ∧
      g.ctx.label_count = c.label_count + 3 ∧
      c.label_count + 3 ≤ b.ctx.label_count ∧
      r.ctx.label_count = b.ctx.label_count) ∧
    (let i := generate_optional init c
     let n := i.ctx.label_count
     let b := body.generate_code { i.ctx with label_count := n + 3, temp_cond := "" }
     let u := generate_optional update b.ctx
     let r := (StmtNode.ForNode init none update body).generate_code c
     r.out = i.out ++ [label_line n] ++ [label_line (n + 1)] ++ b.out ++ u.out ++
        [goto_line n, label_line (n + 2)] ∧
     r.ret = "" ∧
     c.label_count + 3 ≤ b.ctx.label_count ∧
     r.ctx.label_count = b.ctx.label_count) ∧
    ((StmtNode.ForNode none none none body).generate_code c).out =
      [label_line c.label_count, label_line (c.label_count + 1)] ++
      (body.generate_code { c with label_count := c.label_count + 3, temp_cond := "" }).out ++
      [goto_line c.label_count, label_line (c.label_count + 2)] := by
  have hi := optional_labels init c
  refine ⟨rfl, hi.2, ?_, ?_, ?_⟩
  · intro cond_expr
    have hg := expr_labels cond_expr
      { (generate_optional init c).ctx with
        label_count := (generate_optional init c).ctx.label_count + 3, temp_cond := "" }
    have hb := stmt_labels body
      { (cond_expr.generate_code { (generate_optional init c).ctx with
          label_count := (generate_optional init c).ctx.label_count + 3, temp_cond := "" }).ctx with
        temp_cond := "" }
    have hu := optional_labels update (body.generate_code
      { (cond_expr.generate_code { (generate_optional init c).ctx with
          label_count := (generate_optional init c).ctx.label_count + 3, temp_cond := "" }).ctx with
        temp_cond := "" }).ctx
    simp only at hg hb hu
    refine ⟨?_, ?_, ?_, ?_, ?_⟩
    · simp only [StmtNode.generate_code, branch_eq, List.append_assoc, List.cons_append,
        List.nil_append]
    · simp only [StmtNode.generate_code]
    · have := hg.2
      have := hi.2
      simp only at *
      omega
    · have := hg.2
      have := hb.1
      have := hi.2
      simp only at *
      omega
    · simp only [StmtNode.generate_code]
      exact hu.2
  · have hb := stmt_labels body
      { (generate_optional init c).ctx with
        label_count := (generate_optional init c).ctx.label_count + 3, temp_cond := "" }
    have hu := optional_labels update (body.generate_code
      { (generate_optional init c).ctx with
        label_count := (generate_optional init c).ctx.label_count + 3, temp_cond := "" }).ctx
    simp only at hb hu
    refine ⟨?_, ?_, ?_, ?_⟩
    · simp only [StmtNode.generate_code, List.append_assoc, List.cons_append, List.nil_append]
    · simp only [StmtNode.generate_code]
    · have := hb.1
      have := hi.2
      simp only at *
      omega
    · simp only [StmtNode.generate_code]
      exact hu.2
  · simp only [StmtNode.generate_code, generate_optional, List.append_assoc, List.cons_append,
      List.nil_append, List.append_nil]

/-! ### Indexed accesses -/

theorem index_code_eq (index : ExprNode) (c : Ctx) :
    generate_index_code (some index) c =
      { out := (index.generate_code c).out ++
          [temp_name (index.generate_code c).ctx.temp_count ++ " = " ++ (index.generate_code c).ret]
        temps := (index.generate_code c).temps ++ [temp_name (index.generate_code c).ctx.temp_count]
        ret := temp_name (index.generate_code c).ctx.temp_count
        ctx := { (index.generate_code c).ctx with
          temp_count := (index.generate_code c).ctx.temp_count + 1 } } := by
  simp only [generate_index_code]

theorem indexed_read_eq (a : String) (index : ExprNode) (c : Ctx) :
    (ExprNode.VarNode a (some index)).generate_code c =
      { out := (generate_index_code (some index)
            { c with symbol_to_temp := c.symbol_to_temp.bind_self a }).out ++
          [temp_name (generate_index_code (some index)
              { c with symbol_to_temp := c.symbol_to_temp.bind_self a }).ctx.temp_count ++ " = " ++
            storage_of c.symbol_to_temp a ++ "[" ++
            (generate_index_code (some index)
              { c with symbol_to_temp := c.symbol_to_temp.bind_self a }).ret ++ "]"]
        temps := (generate_index_code (some index)
            { c with symbol_to_temp := c.symbol_to_temp.bind_self a }).temps ++
          [temp_name (generate_index_code (some index)
              { c with symbol_to_temp := c.symbol_to_temp.bind_self a }).ctx.temp_count]
        ret := temp_name (generate_index_code (some index)
            { c with symbol_to_temp := c.symbol_to_temp.bind_self a }).ctx.temp_count
        ctx := { (generate_index_code (some index)
            { c with symbol_to_temp := c.symbol_to_temp.bind_self a }).ctx with
          temp_count := (generate_index_code (some index)
            { c with symbol_to_temp := c.symbol_to_temp.bind_self a }).ctx.temp_count + 1 } } := by
  simp only [ExprNode.generate_code, subscript_bind_self, Option.isSome_some, if_true]

theorem indexed_assign_eq (a : String) (index rhs : ExprNode) (c : Ctx) :
    (ExprNode.AssignNode a (some index) rhs).generate_code c =
      { out := (rhs.generate_code c).out ++
          (generate_index_code (some index) { (rhs.generate_code c).ctx with
            symbol_to_temp := ((rhs.generate_code c).ctx.symbol_to_temp.subscript a).2 }).out ++
          [((rhs.generate_code c).ctx.symbol_to_temp.subscript a).1 ++ "[" ++
            (generate_index_code (some index) { (rhs.generate_code c).ctx with
              symbol_to_temp := ((rhs.generate_code c).ctx.symbol_to_temp.subscript a).2 }).ret ++
            "] = " ++ (rhs.generate_code c).ret]
        temps := (rhs.generate_code c).temps ++
          (generate_index_code (some index) { (rhs.generate_code c).ctx with
            symbol_to_temp := ((rhs.generate_code c).ctx.symbol_to_temp.subscript a).2 }).temps
        ret := (rhs.generate_code c).ret
        ctx := (generate_index_code (some index) { (rhs.generate_code c).ctx with
            symbol_to_temp := ((rhs.generate_code c).ctx.symbol_to_temp.subscript a).2 }).ctx } := by
  simp only [ExprNode.generate_code, Option.isSome_some, if_true]

theorem subscript_fst (m : StrMap) (a : String) :
    (m.subscript a).1 = (match m a with | some s => s | none => "") := by
  unfold StrMap.subscript
  cases m a <;> rfl

/-- C11 (code, with the failing input): indexed accesses and the two caches.  For a
read `a[e]`, with `g` the generation of `e` (after the guarded self-binding of `a`)
and `i` the temp counter it leaves, the output is the code of `e`, the index copy
`t<i> = <result of e>` and the load `t<i+1> = <storage of a>[t<i>]`.  For an
assignment `a[e] = v` the output is the code of `v`, the code of `e`, the index
copy and a store `<name>[t<i>] = <result of v>`, where `<name>` is the name the map
binds `a` to after `v` and the empty string when `a` is unbound there.  In both
cases the two caches end exactly as the sub-expressions left them, and with a
constant index and value the same lines are emitted whatever the caches hold.  At
the failing input `a[0] = 5`, generated from the start context where `a` is
unbound and its storage name is `a`, the store line is `[t2] = t0` and not
`a[t2] = t0`, while the read `a[0]` loads from `a[t1]`. -/
theorem indexed_store_names_unbound_array (a : String) (c : Ctx) :
    (∀ e : ExprNode,
      let g := e.generate_code { c with symbol_to_temp := c.symbol_to_temp.bind_self a }
      let r := (ExprNode.VarNode a (some e)).generate_code c
      r.out = g.out ++
        [temp_name g.ctx.temp_count ++ " = " ++ g.ret,
         temp_name (g.ctx.temp_count + 1) ++ " = " ++ storage_of c.symbol_to_temp a ++ "[" ++
           temp_name g.ctx.temp_count ++ "]"] ∧
      r.temps = g.temps ++ [temp_name g.ctx.temp_count, temp_name (g.ctx.temp_count + 1)] ∧
      r.ret = temp_name (g.ctx.temp_count + 1) ∧
      r.ctx.var_last_loaded_temp = g.ctx.var_last_loaded_temp ∧
      r.ctx.var_last_assigned_temp = g.ctx.var_last_assigned_temp) ∧
    (∀ e v : ExprNode,
      let rv := v.generate_code c
      let name := match rv.ctx.symbol_to_temp a with
        | some s => s
        | none => ""
      let g := e.generate_code
        { rv.ctx with symbol_to_temp := (rv.ctx.symbol_to_temp.subscript a).2 }
      let r := (ExprNode.AssignNode a (some e) v).generate_code c
      r.out = rv.out ++ g.out ++
        [temp_name g.ctx.temp_count ++ " = " ++ g.ret,
         name ++ "[" ++ temp_name g.ctx.temp_count ++ "] = " ++ rv.ret] ∧
      r.temps = rv.temps ++ g.temps ++ [temp_name g.ctx.temp_count] ∧
      r.ret = rv.ret ∧
      r.ctx.var_last_loaded_temp = g.ctx.var_last_loaded_temp ∧
      r.ctx.var_last_assigned_temp = g.ctx.var_last_assigned_temp) ∧
    (∀ (index value : String) (loaded assigned : StrMap),
      let c1 : Ctx := { c with var_last_loaded_temp := loaded, var_last_assigned_temp := assigned }
      let name := match c.symbol_to_temp a with
        | some s => s
        | none => ""
      let r := (ExprNode.VarNode a (some (ExprNode.ConstNode index))).generate_code c1
      let w := (ExprNode.AssignNode a (some (ExprNode.ConstNode index))
        (ExprNode.ConstNode value)).generate_code c1
      r.out =
        [temp_name c.temp_count ++ " = " ++ index,
         temp_name (c.temp_count + 1) ++ " = " ++ temp_name c.temp_count,
         temp_name (c.temp_count + 2) ++ " = " ++ storage_of c.symbol_to_temp a ++ "[" ++
           temp_name (c.temp_count + 1) ++ "]"] ∧
      r.ctx.var_last_loaded_temp = loaded ∧
      r.ctx.var_last_assigned_temp = assigned ∧
      w.out =
        [temp_name c.temp_count ++ " = " ++ value,
         temp_name (c.temp_count + 1) ++ " = " ++ index,
         temp_name (c.temp_count + 2) ++ " = " ++ temp_name (c.temp_count + 1),
         name ++ "[" ++ temp_name (c.temp_count + 2) ++ "] = " ++ temp_name c.temp_count] ∧
      w.ctx.var_last_loaded_temp = loaded ∧
      w.ctx.var_last_assigned_temp = assigned) ∧
    Ctx.start.symbol_to_temp "a" = none ∧
    storage_of Ctx.start.symbol_to_temp "a" = "a" ∧
    ((ExprNode.AssignNode "a" (some (ExprNode.ConstNode "0")) (ExprNode.ConstNode "5")).generate_code
      Ctx.start).out = ["t0 = 5", "t1 = 0", "t2 = t1", "[t2] = t0"] ∧
    ((ExprNode.AssignNode "a" (some (ExprNode.ConstNode "0")) (ExprNode.ConstNode "5")).generate_code
      Ctx.start).ctx.symbol_to_temp "a" = some "" ∧
    ((ExprNode.VarNode "a" (some (ExprNode.ConstNode "0"))).generate_code Ctx.start).out =
      ["t0 = 0", "t1 = t0", "t2 = a[t1]"] := by
  refine ⟨fun e => ?_, fun e v => ?_, fun index value loaded assigned => ?_, rfl, rfl,
    by decide, by decide, by decide⟩
  · simp only [indexed_read_eq, index_code_eq, List.append_assoc, List.singleton_append,
      and_self]
  · simp only [indexed_assign_eq, index_code_eq, subscript_fst, List.append_assoc,
      List.singleton_append, and_self]
  · simp only [indexed_read_eq, indexed_assign_eq, index_code_eq, const_eq, subscript_fst,
      List.append_assoc, List.singleton_append, List.nil_append, List.cons_append, and_self]

/-- C12 (code at the failing input): a program with a global array `a` and a
function whose body is `a[0] = 5;`.  The function entry clears the storage map, so
`a` is unbound when the indexed assignment is reached; the store line is
`[t2] = t0`, with an empty storage name, and the map binds `a` to the empty string.
The indexed read `a[0]` in the same place emits `t2 = a[t1]` and binds `a` to
itself. -/
theorem indexed_assign_unbound_target :
    (ProgramNode.generate_code
      [ASTNode.stmt (StmtNode.DeclNode "int" [("a", 10)]),
       ASTNode.func (FuncDeclNode.mk "void" "f" []
        (some [StmtNode.ExprStmtNode (some (ExprNode.AssignNode "a"
          (some (ExprNode.ConstNode "0")) (ExprNode.ConstNode "5")))]))]
      Ctx.start).out =
      ["// Declaration: int a[10]", "// Function: void f()", "t0 = 5", "t1 = 0", "t2 = t1",
       "[t2] = t0", ""] ∧
    (ProgramNode.generate_code
      [ASTNode.stmt (StmtNode.DeclNode "int" [("a", 10)]),
       ASTNode.func (FuncDeclNode.mk "void" "f" []
        (some [StmtNode.ExprStmtNode (some (ExprNode.AssignNode "a"
          (some (ExprNode.ConstNode "0")) (ExprNode.ConstNode "5")))]))]
      Ctx.start).ctx.symbol_to_temp "a" = some "" ∧
    (ProgramNode.generate_code
      [ASTNode.stmt (StmtNode.DeclNode "int" [("a", 10)]),
       ASTNode.func (FuncDeclNode.mk "void" "f" []
        (some [StmtNode.ExprStmtNode (some (ExprNode.VarNode "a"
          (some (ExprNode.ConstNode "0"))))]))]
      Ctx.start).out =
      ["// Declaration: int a[10]", "// Function: void f()", "t0 = 0", "t1 = t0", "t2 = a[t1]",
       ""] ∧
    (ProgramNode.generate_code
      [ASTNode.stmt (StmtNode.DeclNode "int" [("a", 10)]),
       ASTNode.func (FuncDeclNode.mk "void" "f" []
        (some [StmtNode.ExprStmtNode (some (ExprNode.VarNode "a"
          (some (ExprNode.ConstNode "0"))))]))]
      Ctx.start).ctx.symbol_to_temp "a" = some "a" := by
  refine ⟨?_, ?_, ?_, ?_⟩ <;> decide

/-! ### Function activation -/

theorem params_frame : ∀ (params : List (String × String)) (c : Ctx),
    (generate_params params c).ctx.temp_count = c.temp_count + params.length ∧
    (generate_params params c).ctx.label_count = c.label_count ∧
    (generate_params params c).ctx.temp_cond = c.temp_cond ∧
    (generate_params params c).ctx.var_last_loaded_temp = c.var_last_loaded_temp ∧
    (generate_params params c).ctx.var_last_assigned_temp = c.var_last_assigned_temp ∧
    (generate_params params c).out.length = params.length ∧
    (∀ x, x ∉ params.map Prod.snd →
      (generate_params params c).ctx.symbol_to_temp x = c.symbol_to_temp x)
  | [], c => by simp [generate_params]
  | p :: rest, c => by
      obtain ⟨h1, h2, h3, h4, h5, h6, h7⟩ := params_frame rest
        { c with temp_count := c.temp_count + 1
                 symbol_to_temp := c.symbol_to_temp.insert p.2 (temp_name c.temp_count) }
      simp only [generate_params]
      refine ⟨?_, h2, h3, h4, h5, ?_, ?_⟩
      · rw [h1]; simp only [List.length_cons]; omega
      · simp only [List.length_cons, h6]
      · intro x hx
        simp only [List.map_cons, List.mem_cons, not_or] at hx
        rw [h7 x hx.2]
        simp [StrMap.insert, hx.1]

theorem params_lines : ∀ (params : List (String × String)) (c : Ctx) (i : Nat) (q : String × String),
    params[i]? = some q →
    (generate_params params c).out[i]? = some (temp_name (c.temp_count + i) ++ " = " ++ q.2)
  | [], c, i, q, h => by simp at h
  | p :: rest, c, 0, q, h => by
      simp only [List.getElem?_cons_zero, Option.some.injEq] at h
      subst h
      simp [generate_params]
  | p :: rest, c, i + 1, q, h => by
      simp only [List.getElem?_cons_succ] at h
      have ih := params_lines rest
        { c with temp_count := c.temp_count + 1
                 symbol_to_temp := c.symbol_to_temp.insert p.2 (temp_name c.temp_count) } i q h
      simp only [generate_params, List.getElem?_cons_succ]
      rw [ih]
      have : c.temp_count + 1 + i = c.temp_count + (i + 1) := by omega
      simp only [this]

theorem params_bindings : ∀ (params : List (String × String)) (c : Ctx) (i : Nat) (q : String × String),
    params[i]? = some q →
    (∀ (j : Nat) (q2 : String × String), i < j → params[j]? = some q2 → q2.2 ≠ q.2) →
    (generate_params params c).ctx.symbol_to_temp q.2 = some (temp_name (c.temp_count + i))
  | [], c, i, q, h, _ => by simp at h
  | p :: rest, c, 0, q, h, hlast => by
      simp only [List.getElem?_cons_zero, Option.some.injEq] at h
      subst h
      have hnot : p.2 ∉ rest.map Prod.snd := by
        intro hm
        obtain ⟨q2, hq2, he⟩ := List.mem_map.1 hm
        obtain ⟨j, hj⟩ := List.mem_iff_getElem?.1 hq2
        exact hlast (j + 1) q2 (by omega) (by simpa using hj) he
      have hf := (params_frame rest
        { c with temp_count := c.temp_count + 1
                 symbol_to_temp := c.symbol_to_temp.insert p.2 (temp_name c.temp_count) }).2.2.2.2.2.2
          p.2 hnot
      simp only [generate_params]
      rw [hf]
      simp [StrMap.insert]
  | p :: rest, c, i + 1, q, h, hlast => by
      simp only [List.getElem?_cons_succ] at h
      have ih := params_bindings rest
        { c with temp_count := c.temp_count + 1
                 symbol_to_temp := c.symbol_to_temp.insert p.2 (temp_name c.temp_count) } i q h
        (fun j q2 hij hj => hlast (j + 1) q2 (by omega) (by simpa using hj))
      simp only [generate_params]
      rw [ih]
      have : c.temp_count + 1 + i = c.temp_count + (i + 1) := by omega
      simp only [this]

/-- C13 (counterexample): a function whose two parameters are both named `p`,
generated from the start context.  The copies `t0 = p`, `t1 = p` are emitted, and
the body is generated with `p` bound to `t1`: the first parameter is not bound to
`t0`. -/
theorem repeated_parameter_binding :
    (generate_params [("int", "p"), ("int", "p")] Ctx.start.reset).out = ["t0 = p", "t1 = p"] ∧
    (generate_params [("int", "p"), ("int", "p")] Ctx.start.reset).ctx.symbol_to_temp "p" =
      some "t1" ∧
    (generate_params [("int", "p"), ("int", "p")] Ctx.start.reset).ctx.symbol_to_temp "p" ≠
      some (temp_name (Ctx.start.temp_count + 0)) ∧
    ((FuncDeclNode.mk "int" "f" [("int", "p"), ("int", "p")]
        (some [StmtNode.ReturnNode (some (ExprNode.VarNode "p" none))])).generate_code
      Ctx.start).out = ["// Function: int f(int p, int p)", "t0 = p", "t1 = p", "return t1", ""] := by
  refine ⟨?_, ?_, ?_, ?_⟩ <;> decide

/-- C13 (amended): a function with parameters `p_1 .. p_n`, generated with incoming
temp counter `c`.  The output is the header comment, the `n` lines
`t<c+i-1> = p_i` in declared order, the body's code and a final blank line.  The
body is generated from a context whose temp counter is `c + n`, whose two caches
are empty, whose label counter is the incoming one and whose storage map binds
nothing but parameter names, each to the temporary of its last occurrence in the
list: `p_i` is bound to `t<c+i-1>` whenever no later parameter has the same name,
hence every `p_i` when the names are pairwise distinct.  The final label counter is
the one the body leaves and the returned name is empty. -/
theorem function_activation (f : FuncDeclNode) (c : Ctx) :
    let p := generate_params f.params c.reset
    let b : Gen :=
      match f.body with
      | some statements => generate_statements statements p.ctx
      | none => { out := [], temps := [], ret := "", ctx := p.ctx }
    let r := f.generate_code c
    r.out = [function_header f] ++ p.out ++ b.out ++ [""] ∧
    p.out.length = f.params.length ∧
    (∀ (i : Nat) (q : String × String), f.params[i]? = some q →
      p.out[i]? = some (temp_name (c.temp_count + i) ++ " = " ++ q.2)) ∧
    (∀ (i : Nat) (q : String × String), f.params[i]? = some q →
      (∀ (j : Nat) (q2 : String × String), i < j → f.params[j]? = some q2 → q2.2 ≠ q.2) →
      p.ctx.symbol_to_temp q.2 = some (temp_name (c.temp_count + i))) ∧
    ((f.params.map Prod.snd).Nodup →
      ∀ (i : Nat) (q : String × String), f.params[i]? = some q →
        p.ctx.symbol_to_temp q.2 = some (temp_name (c.temp_count + i))) ∧
    (∀ x, x ∉ f.params.map Prod.snd → p.ctx.symbol_to_temp x = none) ∧
    p.ctx.var_last_loaded_temp = StrMap.clear ∧
    p.ctx.var_last_assigned_temp = StrMap.clear ∧
    p.ctx.temp_count = c.temp_count + f.params.length ∧
    p.ctx.label_count = c.label_count ∧
    r.out.getLast? = some "" ∧
    r.ctx.label_count = b.ctx.label_count ∧
    r.ret = "" := by
  intro p b r
  obtain ⟨h1, h2, -, h4, h5, h6, h7⟩ := params_frame f.params c.reset
  refine ⟨rfl, h6, fun i q hq => params_lines f.params c.reset i q hq,
    fun i q hq hl => params_bindings f.params c.reset i q hq hl, ?_, fun x hx => h7 x hx,
    h4, h5, h1, h2, ?_, rfl, rfl⟩
  · intro hnd i q hq
    refine params_bindings f.params c.reset i q hq (fun j q2 hij hj he => ?_)
    have hi : i < f.params.length := by
      rcases Nat.lt_or_ge i f.params.length with h | h
      · exact h
      · rw [List.getElem?_eq_none h] at hq; cases hq
    have hjl : j < f.params.length := by
      rcases Nat.lt_or_ge j f.params.length with h | h
      · exact h
      · rw [List.getElem?_eq_none h] at hj; cases hj
    have e1 : (f.params.map Prod.snd)[i]? = some q.2 := by simp [hq]
    have e2 : (f.params.map Prod.snd)[j]? = some q.2 := by simp [hj, he]
    have := (List.nodup_iff_getElem?_ne_getElem?.1 hnd) i j hij (by simpa using hjl)
    exact this (e1.trans e2.symm)
  · show (([function_header f] ++ p.out ++ b.out) ++ [""]).getLast? = some ""
    exact List.getLast?_concat _

/-- C13 (witness): a function with the distinct parameters `a` and `b`, generated
from the start context, binds `b` to `t1`. -/
theorem function_activation_witness :
    (List.map Prod.snd [("int", "a"), ("int", "b")]).Nodup ∧
    (generate_params [("int", "a"), ("int", "b")] Ctx.start.reset).ctx.symbol_to_temp "b" =
      some "t1" :=
  ⟨by decide,
   ((function_activation (FuncDeclNode.mk "int" "f" [("int", "a"), ("int", "b")] none)
      Ctx.start).2.2.2.2.1 (by decide) 1 ("int", "b") rfl).trans (by decide)⟩

/-! ### Calls and binary operations -/

theorem arguments_length : ∀ (l : List ExprNode) (c : Ctx),
    (generate_arguments l c).arg_temps.length = l.length
  | [], c => by simp [generate_arguments]
  | a :: rest, c => by simp [generate_arguments, arguments_length rest]

/-- C14: a call to `f` with arguments `a_1 .. a_n`, from any context.  The arguments
are generated left to right, each from the context left by the previous one, and
their returned names are collected in order.  The output is the arguments' code,
then one line `param r_i` per argument in argument order, where `r_i` is the name
returned by `a_i`, then the single line `t<k> = call f, n` with `k` the temp counter
after the arguments; the call returns `t<k>` and leaves the temp counter at
`k + 1`, the rest of the context being as the arguments left it. -/
theorem call_shape (func_name : String) (c : Ctx) :
    generate_arguments [] c = { out := [], temps := [], arg_temps := [], ctx := c } ∧
    (∀ (arg : ExprNode) (rest : List ExprNode),
      generate_arguments (arg :: rest) c =
        { out := (arg.generate_code c).out ++ (generate_arguments rest (arg.generate_code c).ctx).out
          temps := (arg.generate_code c).temps ++
            (generate_arguments rest (arg.generate_code c).ctx).temps
          arg_temps := (arg.generate_code c).ret ::
            (generate_arguments rest (arg.generate_code c).ctx).arg_temps
          ctx := (generate_arguments rest (arg.generate_code c).ctx).ctx }) ∧
    (∀ arguments : List ExprNode,
      let a := generate_arguments arguments c
      let r := (ExprNode.FuncCallNode func_name arguments).generate_code c
      a.arg_temps.length = arguments.length ∧
      r.out = a.out ++ a.arg_temps.map (fun t => "param " ++ t) ++
        [temp_name a.ctx.temp_count ++ " = call " ++ func_name ++ ", " ++
          toString arguments.length] ∧
      r.temps = a.temps ++ [temp_name a.ctx.temp_count] ∧
      r.ret = temp_name a.ctx.temp_count ∧
      r.ctx = { a.ctx with temp_count := a.ctx.temp_count + 1 }) := by
  refine ⟨by simp only [generate_arguments], fun arg rest => by simp only [generate_arguments],
    fun arguments => ?_⟩
  have hl := arguments_length arguments c
  refine ⟨hl, ?_, ?_, ?_, ?_⟩
  · simp only [ExprNode.generate_code, hl]
  · simp only [ExprNode.generate_code]
  · simp only [ExprNode.generate_code]
  · simp only [ExprNode.generate_code]

/-- C17: a binary operation `left op right`, from any context.  The output is the
left operand's code, then the right operand's code generated from the context the
left operand left behind, then the single line `t<k> = l op r`, where `l` and `r`
are the names returned by the operands and `k` is the temp counter after both; the
node returns `t<k>` and leaves the temp counter at `k + 1`.  The node's own line is
the last line of its output, after every line of its operands. -/
theorem binary_shape (op : String) (left right : ExprNode) (c : Ctx) :
    let l := left.generate_code c
    let r := right.generate_code l.ctx
    let b := (ExprNode.BinaryOpNode op left right).generate_code c
    b.out = l.out ++ r.out ++
      [temp_name r.ctx.temp_count ++ " = " ++ l.ret ++ " " ++ op ++ " " ++ r.ret] ∧
    b.temps = l.temps ++ r.temps ++ [temp_name r.ctx.temp_count] ∧
    b.ret = temp_name r.ctx.temp_count ∧
    b.ctx.temp_count = r.ctx.temp_count + 1 ∧
    b.out.getLast? = some (b.ret ++ " = " ++ l.ret ++ " " ++ op ++ " " ++ r.ret) ∧
    b.out.take (l.out.length + r.out.length) = l.out ++ r.out := by
  intro l r b
  have hb : b = _ := binary_eq op left right c
  refine ⟨by rw [hb], by rw [hb], by rw [hb], by rw [hb], ?_, ?_⟩
  · rw [hb]
    exact List.getLast?_concat _
  · rw [hb]
    show List.take (l.out.length + r.out.length) ((l.out ++ r.out) ++ _) = _
    rw [← List.length_append, List.take_left]

/-! ### Order of label definitions -/

theorem labels_exact_mem {lo hi : Nat} {out : List String} (h : labels_exact lo hi out)
    {k : Nat} (hk : k ∈ label_ids out) : lo ≤ k ∧ k < hi := by
  have hc := h.2 k
  have hpos : 0 < (label_ids out).count k := List.count_pos_iff.2 hk
  by_contra hn
  rw [if_neg hn] at hc
  omega

theorem labels_exact_empty {lo hi : Nat} {out : List String} (h : labels_exact lo hi out)
    (he : label_ids out = []) : hi = lo := by
  have hc := h.2 lo
  have := h.1
  rw [he] at hc
  by_contra hne
  have : lo ≤ lo ∧ lo < hi := ⟨le_refl _, by omega⟩
  rw [if_pos this] at hc
  simp at hc

theorem pairwise_lt_append {x y : List Nat} (hx : x.Pairwise (· < ·)) (hy : y.Pairwise (· < ·))
    (hxy : ∀ a ∈ x, ∀ b ∈ y, a < b) : (x ++ y).Pairwise (· < ·) :=
  List.pairwise_append.2 ⟨hx, hy, hxy⟩

theorem statements_sorted : ∀ (l : List StmtNode) (c : Ctx),
    (∀ s ∈ l, ∀ c2 : Ctx, (label_ids (s.generate_code c2).out).Pairwise (· < ·)) →
    (label_ids (generate_statements l c).out).Pairwise (· < ·)
  | [], c, _ => by simp [generate_statements, label_ids_nil]
  | s :: rest, c, h => by
      simp only [generate_statements, label_ids_append]
      refine pairwise_lt_append (h s (List.mem_cons_self _ _) c)
        (statements_sorted rest _ (fun s2 hs2 => h s2 (List.mem_cons_of_mem _ hs2))) ?_
      intro a ha b hb
      have h1 := labels_exact_mem (stmt_labels s c) ha
      have h2 := labels_exact_mem (statements_labels rest (s.generate_code c).ctx) hb
      omega

/-- C15 (counterexample): an If nested in the then-branch of an If, and a While
nested in the body of a While, generated from the start context.  The label
definition lines carry the ids 0, 2, 3, 4, 1, 5 and 0, 1, 3, 4, 5, 2 in emission
order: not an increasing sequence. -/
theorem nested_labels_not_increasing :
    label_ids ((StmtNode.IfNode (ExprNode.ConstNode "1")
      (StmtNode.IfNode (ExprNode.ConstNode "1") (StmtNode.BlockNode []) none) none).generate_code
        Ctx.start).out = [0, 2, 3, 4, 1, 5] ∧
    ¬ (label_ids ((StmtNode.IfNode (ExprNode.ConstNode "1")
      (StmtNode.IfNode (ExprNode.ConstNode "1") (StmtNode.BlockNode []) none) none).generate_code
        Ctx.start).out).Pairwise (· < ·) ∧
    label_ids ((StmtNode.WhileNode (ExprNode.ConstNode "1")
      (StmtNode.WhileNode (ExprNode.ConstNode "1") (StmtNode.BlockNode []))).generate_code
        Ctx.start).out = [0, 1, 3, 4, 5, 2] ∧
    ¬ (label_ids ((StmtNode.WhileNode (ExprNode.ConstNode "1")
      (StmtNode.WhileNode (ExprNode.ConstNode "1") (StmtNode.BlockNode []))).generate_code
        Ctx.start).out).Pairwise (· < ·) := by
  refine ⟨?_, ?_, ?_, ?_⟩ <;> decide

/-- C15 (amended): label ids increase in emission order across the statements of a
block and across the units of a program: every label line of a later statement
(unit) carries a larger id than every label line of an earlier one, so a block
whose statements each emit their labels in increasing order does so as a whole.
An If without else, a While and a For whose bodies define no label emit exactly
`L<n>:`, `L<n+1>:`, `L<n+2>:` in this order, `n` being the incoming label counter.
(With nested control flow the inner labels, which are larger, are emitted before
the outer statement's remaining labels.) -/
theorem label_order (c : Ctx) :
    (∀ (s : StmtNode) (rest : List StmtNode),
      ∀ a ∈ label_ids (s.generate_code c).out,
      ∀ b ∈ label_ids (generate_statements rest (s.generate_code c).ctx).out, a < b) ∧
    (∀ (u : ASTNode) (rest : List ASTNode),
      ∀ a ∈ label_ids (u.generate_code c).out,
      ∀ b ∈ label_ids (ProgramNode.generate_code rest (u.generate_code c).ctx).out, a < b) ∧
    (∀ l : List StmtNode,
      (∀ s ∈ l, ∀ c2 : Ctx, (label_ids (s.generate_code c2).out).Pairwise (· < ·)) →
      (label_ids (generate_statements l c).out).Pairwise (· < ·)) ∧
    (∀ (condition : ExprNode) (body : StmtNode),
      (∀ c2 : Ctx, label_ids (body.generate_code c2).out = []) →
      label_ids ((StmtNode.IfNode condition body none).generate_code c).out =
        [c.label_count, c.label_count + 1, c.label_count + 2] ∧
      label_ids ((StmtNode.WhileNode condition body).generate_code c).out =
        [c.label_count, c.label_count + 1, c.label_count + 2] ∧
      ∀ init update : Option ExprNode,
        label_ids ((StmtNode.ForNode init (some condition) update body).generate_code c).out =
          [c.label_count, c.label_count + 1, c.label_count + 2] ∧
        label_ids ((StmtNode.ForNode init none update body).generate_code c).out =
          [c.label_count, c.label_count + 1, c.label_count + 2]) := by
  refine ⟨?_, ?_, fun l h => statements_sorted l c h, ?_⟩
  · intro s rest a ha b hb
    have h1 := labels_exact_mem (stmt_labels s c) ha
    have h2 := labels_exact_mem (statements_labels rest (s.generate_code c).ctx) hb
    omega
  · intro u rest a ha b hb
    have h1 := labels_exact_mem (unit_labels u c) ha
    have h2 := labels_exact_mem (program_labels rest (u.generate_code c).ctx) hb
    omega
  · intro condition body hbody
    refine ⟨?_, ?_, fun init update => ⟨?_, ?_⟩⟩
    · have hc := expr_labels condition c
      have ht := stmt_labels body { (condition.generate_code c).ctx with
        label_count := (condition.generate_code c).ctx.label_count + 2 }
      have he := labels_exact_empty ht (hbody _)
      simp only at he
      rw [hc.2] at he
      simp only [StmtNode.generate_code, label_ids_append,
        label_ids_cons_space _ _ (space_if_line _ _),
        label_ids_cons_space _ _ (space_goto_line _), label_ids_cons_label, label_ids_nil,
        hc.1, hbody, he, hc.2, List.nil_append, List.append_nil, List.cons_append]
    · have hc := expr_labels condition { c with label_count := c.label_count + 3 }
      simp only [StmtNode.generate_code, label_ids_append,
        label_ids_cons_space _ _ (space_if_line _ _),
        label_ids_cons_space _ _ (space_goto_line _), label_ids_cons_label, label_ids_nil,
        hc.1, hbody, List.nil_append, List.append_nil, List.cons_append]
    · have hi := optional_labels init c
      have hc := expr_labels condition { (generate_optional init c).ctx with
        label_count := (generate_optional init c).ctx.label_count + 3, temp_cond := "" }
      simp only at hc
      rw [hi.2] at hc
      have hu := fun c2 => (optional_labels update c2).1
      simp only [StmtNode.generate_code, label_ids_append,
        label_ids_cons_space _ _ (space_branch _ _ _),
        label_ids_cons_space _ _ (space_goto_line _), label_ids_cons_label, label_ids_nil,
        hc.1, hi.1, hi.2, hu, hbody, List.nil_append, List.append_nil, List.cons_append]
    · have hi := optional_labels init c
      have hu := fun c2 => (optional_labels update c2).1
      simp only [StmtNode.generate_code, label_ids_append,
        label_ids_cons_space _ _ (space_goto_line _), label_ids_cons_label, label_ids_nil,
        hi.1, hi.2, hu, hbody, List.nil_append, List.append_nil, List.cons_append]

/-- C15 (witness): a block of two While loops with empty bodies, generated from the
start context, defines the labels 0, 1, 2, 3, 4, 5 in this order. -/
theorem label_order_witness :
    (label_ids (generate_statements
      [StmtNode.WhileNode (ExprNode.ConstNode "1") (StmtNode.BlockNode []),
       StmtNode.WhileNode (ExprNode.ConstNode "1") (StmtNode.BlockNode [])] Ctx.start).out).Pairwise
      (· < ·) :=
  (label_order Ctx.start).2.2.1 _ (fun s hs c2 => by
    have hs2 : s = StmtNode.WhileNode (ExprNode.ConstNode "1") (StmtNode.BlockNode []) := by
      simpa using hs
    subst hs2
    rw [((label_order c2).2.2.2 (ExprNode.ConstNode "1") (StmtNode.BlockNode [])
      (fun c3 => rfl)).2.1]
    simp)

/-! ### Names of temporaries -/

theorem is_temp_temp_name (k : Nat) : is_temp (temp_name k) = true := by
  obtain ⟨hne, hdig, -⟩ := toString_data k
  have hd : (temp_name k).data = 't' :: (toString k).data := by
    simp [temp_name, String.data_append]
  unfold is_temp
  rw [hd]
  cases hds : (toString k).data with
  | nil => exact absurd hds hne
  | cons d ds =>
    rw [hds] at hdig
    simp only [List.all_eq_true]
    exact hdig

/-- C16 (counterexample): a function with no parameters and the body
`x = 1; t = x; x = 2; t2 = x;`, generated from the start context.  The third
fresh temporary is named `t2`, the name of a variable the body assigns; the
output has both the line `t2 = 2` for the temporary and the line `t2 = t3` for the
variable. -/
theorem temporary_named_like_variable :
    "t2" ∈ ((FuncDeclNode.mk "void" "f" []
      (some [StmtNode.ExprStmtNode (some (ExprNode.AssignNode "x" none (ExprNode.ConstNode "1"))),
        StmtNode.ExprStmtNode (some (ExprNode.AssignNode "t" none (ExprNode.VarNode "x" none))),
        StmtNode.ExprStmtNode (some (ExprNode.AssignNode "x" none (ExprNode.ConstNode "2"))),
        StmtNode.ExprStmtNode (some (ExprNode.AssignNode "t2" none
          (ExprNode.VarNode "x" none)))])).generate_code Ctx.start).temps ∧
    ((FuncDeclNode.mk "void" "f" []
      (some [StmtNode.ExprStmtNode (some (ExprNode.AssignNode "x" none (ExprNode.ConstNode "1"))),
        StmtNode.ExprStmtNode (some (ExprNode.AssignNode "t" none (ExprNode.VarNode "x" none))),
        StmtNode.ExprStmtNode (some (ExprNode.AssignNode "x" none (ExprNode.ConstNode "2"))),
        StmtNode.ExprStmtNode (some (ExprNode.AssignNode "t2" none
          (ExprNode.VarNode "x" none)))])).generate_code Ctx.start).out =
      ["// Function: void f()", "t0 = 1", "x = t0", "t1 = x", "t = t1", "t2 = 2", "x = t2",
       "t3 = x", "t2 = t3", ""] := by
  refine ⟨?_, ?_⟩ <;> decide

/-- C16 (amended): every name returned by a fresh-temporary allocation while a
function is generated is `t<k>` for a value `k` the temp counter takes during the
generation, hence of the form `t` followed by one or more digits; so it never
equals an identifier that is not of this form (such as `x` or `t`), whatever the
body declares, reads or assigns. -/
theorem temporaries_are_temp_names (f : FuncDeclNode) (c : Ctx) (x : String) :
    (x ∈ (f.generate_code c).temps →
      (∃ k, c.temp_count ≤ k ∧ k < (f.generate_code c).ctx.temp_count ∧ x = temp_name k) ∧
      is_temp x = true) ∧
    (is_temp x = false → x ∉ (f.generate_code c).temps) := by
  have hmem : x ∈ (f.generate_code c).temps →
      (∃ k, c.temp_count ≤ k ∧ k < (f.generate_code c).ctx.temp_count ∧ x = temp_name k) ∧
      is_temp x = true := by
    intro hx
    obtain ⟨hle, heq⟩ := func_temps f c
    rw [heq] at hx
    obtain ⟨k, h1, h2, h3⟩ := mem_temps_from hx
    exact ⟨⟨k, h1, by omega, h3⟩, by rw [h3]; exact is_temp_temp_name k⟩
  refine ⟨hmem, fun hf hx => ?_⟩
  have := (hmem hx).2
  rw [hf] at this
  exact Bool.false_ne_true this

/-- C16 (witness): in the function with the body `x = 1; t = x; x = 2; t2 = x;` no
allocated temporary is named `t`. -/
theorem temporaries_are_temp_names_witness :
    "t" ∉ ((FuncDeclNode.mk "void" "f" []
      (some [StmtNode.ExprStmtNode (some (ExprNode.AssignNode "x" none (ExprNode.ConstNode "1"))),
        StmtNode.ExprStmtNode (some (ExprNode.AssignNode "t" none (ExprNode.VarNode "x" none))),
        StmtNode.ExprStmtNode (some (ExprNode.AssignNode "x" none (ExprNode.ConstNode "2"))),
        StmtNode.ExprStmtNode (some (ExprNode.AssignNode "t2" none
          (ExprNode.VarNode "x" none)))])).generate_code Ctx.start).temps :=
  (temporaries_are_temp_names _ Ctx.start "t").2 (by decide)

/-! ### Argument lists -/

theorem add_argument_fold : ∀ (adds : List (Option ExprNode)) (args : List ExprNode),
    adds.foldl ArgumentsNode.add_argument args = args ++ adds.filterMap id
  | [], args => by simp
  | none :: rest, args => by
      simp only [List.foldl_cons, ArgumentsNode.add_argument, List.filterMap_cons, id]
      exact add_argument_fold rest args
  | some a :: rest, args => by
      simp only [List.foldl_cons, ArgumentsNode.add_argument, List.filterMap_cons, id]
      rw [add_argument_fold rest (args ++ [a])]
      simp

theorem non_null_count : ∀ (adds : List (Option ExprNode)),
    (adds.filterMap id).length = (adds.filter Option.isSome).length
  | [] => rfl
  | none :: rest => by simp [List.filterMap_cons, List.filter_cons, non_null_count rest]
  | some a :: rest => by simp [List.filterMap_cons, List.filter_cons, non_null_count rest]

/-- C18: an argument list built by any sequence of `add_argument` calls, some of
them with a null argument, starting from the empty list.  The list holds exactly
the non-null arguments in the order they were added, and `size` counts them.  For
every integer index `i`, negative ones included, `get_argument(i)` is the `i`-th
stored argument when `0 <= i < size` and the absent result otherwise. -/
theorem get_argument_safe (adds : List (Option ExprNode)) :
    adds.foldl ArgumentsNode.add_argument [] = adds.filterMap id ∧
    ArgumentsNode.size (adds.foldl ArgumentsNode.add_argument []) =
      (adds.filter Option.isSome).length ∧
    (∀ (i : Nat) (h : i < (adds.foldl ArgumentsNode.add_argument []).length),
      ArgumentsNode.get_argument (adds.foldl ArgumentsNode.add_argument []) (i : Int) =
        some ((adds.foldl ArgumentsNode.add_argument []).get ⟨i, h⟩)) ∧
    (∀ index : Int, index < 0 →
      ArgumentsNode.get_argument (adds.foldl ArgumentsNode.add_argument []) index = none) ∧
    (∀ index : Int,
      (ArgumentsNode.size (adds.foldl ArgumentsNode.add_argument []) : Int) ≤ index →
      ArgumentsNode.get_argument (adds.foldl ArgumentsNode.add_argument []) index = none) ∧
    (∀ index : Int,
      ArgumentsNode.get_argument (adds.foldl ArgumentsNode.add_argument []) index =
        if 0 ≤ index then (adds.foldl ArgumentsNode.add_argument [])[index.toNat]? else none) := by
  have hfold : adds.foldl ArgumentsNode.add_argument [] = adds.filterMap id := by
    simpa using add_argument_fold adds []
  refine ⟨hfold, ?_, ?_, ?_, ?_, ?_⟩
  · rw [hfold]
    exact non_null_count adds
  · intro i h
    unfold ArgumentsNode.get_argument
    have hc : (i : Int) ≥ 0 ∧ (i : Int) < ((adds.foldl ArgumentsNode.add_argument []).length : Int) :=
      ⟨by omega, by omega⟩
    rw [dif_pos hc]
    simp
  · intro index hneg
    unfold ArgumentsNode.get_argument
    rw [dif_neg (by omega)]
  · intro index hge
    unfold ArgumentsNode.get_argument ArgumentsNode.size at *
    rw [dif_neg (by omega)]
  · intro index
    unfold ArgumentsNode.get_argument
    by_cases hc : index ≥ 0 ∧ index < ((adds.foldl ArgumentsNode.add_argument []).length : Int)
    · rw [dif_pos hc, if_pos hc.1]
      have hlt : index.toNat < (adds.foldl ArgumentsNode.add_argument []).length := by omega
      rw [List.getElem?_eq_getElem hlt]
      rfl
    · rw [dif_neg hc]
      by_cases h0 : 0 ≤ index
      · rw [if_pos h0]
        have hge : (adds.foldl ArgumentsNode.add_argument []).length ≤ index.toNat := by omega
        rw [List.getElem?_eq_none hge]
      · rw [if_neg h0]

/-- C18 (witness): after adding `1`, a null argument and `2`, two arguments are
stored; index 1 gives the second of them, index 2 and index -1 give nothing. -/
theorem get_argument_safe_witness :
    ArgumentsNode.size ([some (ExprNode.ConstNode "1"), none, some (ExprNode.ConstNode "2")].foldl
      ArgumentsNode.add_argument []) = 2 ∧
    ArgumentsNode.get_argument
      ([some (ExprNode.ConstNode "1"), none, some (ExprNode.ConstNode "2")].foldl
        ArgumentsNode.add_argument []) (-1) = none ∧
    ArgumentsNode.get_argument
      ([some (ExprNode.ConstNode "1"), none, some (ExprNode.ConstNode "2")].foldl
        ArgumentsNode.add_argument []) 2 = none :=
  ⟨(get_argument_safe _).2.1,
   (get_argument_safe _).2.2.2.1 (-1) (by decide),
   (get_argument_safe _).2.2.2.2.1 2 (by decide)⟩

/-! ### Counters across functions -/

theorem temps_from_head (k n : Nat) : ∀ t ∈ (temps_from k n).head?, t = temp_name k := by
  cases n with
  | zero => simp [temps_from]
  | succ n => simp [temps_from]

/-- C19 (counterexample): the function `void f() { x = 1; }` generated with the temp
counter at 0 and at 5 allocates `t0` in one case and `t5` in the other; in a
program, the function `g` that follows `f` gets `t1` for its parameter because `f`
left the temp counter at 1. -/
theorem temporaries_depend_on_incoming_counter :
    ((FuncDeclNode.mk "void" "f" []
      (some [StmtNode.ExprStmtNode (some (ExprNode.AssignNode "x" none
        (ExprNode.ConstNode "1")))])).generate_code Ctx.start).temps = ["t0"] ∧
    ((FuncDeclNode.mk "void" "f" []
      (some [StmtNode.ExprStmtNode (some (ExprNode.AssignNode "x" none
        (ExprNode.ConstNode "1")))])).generate_code { Ctx.start with temp_count := 5 }).temps =
      ["t5"] ∧
    (ProgramNode.generate_code
      [ASTNode.func (FuncDeclNode.mk "void" "f" []
        (some [StmtNode.ExprStmtNode (some (ExprNode.AssignNode "x" none
          (ExprNode.ConstNode "1")))])),
       ASTNode.func (FuncDeclNode.mk "void" "g" [("int", "a")]
        (some [StmtNode.ExprStmtNode (some (ExprNode.AssignNode "x" none
          (ExprNode.ConstNode "1")))]))] Ctx.start).out =
      ["// Function: void f()", "t0 = 1", "x = t0", "",
       "// Function: void g(int a)", "t1 = a", "t2 = 1", "x = t2", ""] := by
  refine ⟨?_, ?_, ?_⟩ <;> decide

/-- C19 (amended): neither counter is reset per function.  Generating a function
with incoming label counter `n` and incoming temp counter `k` defines exactly the
labels from `n` up to the final label counter, and allocates exactly the
temporaries `t<k>`, `t<k+1>`, ... up to the final temp counter, the first
allocation (if any) being `t<k>`; in a program the next unit is generated from the
context, counters included, that the function left. -/
theorem counters_continue_across_functions (f : FuncDeclNode) (c : Ctx) :
    c.label_count ≤ (f.generate_code c).ctx.label_count ∧
    (∀ k, k ∈ label_ids (f.generate_code c).out ↔
      c.label_count ≤ k ∧ k < (f.generate_code c).ctx.label_count) ∧
    c.temp_count ≤ (f.generate_code c).ctx.temp_count ∧
    (f.generate_code c).temps =
      temps_from c.temp_count ((f.generate_code c).ctx.temp_count - c.temp_count) ∧
    (∀ t ∈ (f.generate_code c).temps.head?, t = temp_name c.temp_count) ∧
    (∀ rest : List ASTNode,
      (ProgramNode.generate_code (ASTNode.func f :: rest) c).out =
        (f.generate_code c).out ++ (ProgramNode.generate_code rest (f.generate_code c).ctx).out ∧
      (ProgramNode.generate_code (ASTNode.func f :: rest) c).temps =
        (f.generate_code c).temps ++
          (ProgramNode.generate_code rest (f.generate_code c).ctx).temps) := by
  obtain ⟨hl, hc⟩ := func_labels f c
  obtain ⟨ht, he⟩ := func_temps f c
  refine ⟨hl, fun k => ⟨fun hk => labels_exact_mem ⟨hl, hc⟩ hk, fun hk => ?_⟩, ht, he, ?_,
    fun rest => ⟨?_, ?_⟩⟩
  · have := hc k
    rw [if_pos hk] at this
    exact List.count_pos_iff.1 (by omega)
  · rw [he]
    exact temps_from_head _ _
  · simp only [ProgramNode.generate_code, ASTNode.generate_code]
  · simp only [ProgramNode.generate_code, ASTNode.generate_code]

/-! ### A For loop over a negated comparison -/

/-- C20 (counterexample): `for (; !(a < 3); ) { }` and
`while (!(a < 3)) { }` generated from the start context.  The condition returns
`t3`, the result of the negation, and the While tests it (`if t3 goto L1`); the For
tests `t2`, the result of the inner comparison (`if t2 goto L1`). -/
theorem for_tests_inner_comparison :
    ((ExprNode.UnaryOpNode "!" (ExprNode.BinaryOpNode "<" (ExprNode.VarNode "a" none)
        (ExprNode.ConstNode "3"))).generate_code
      { Ctx.start with label_count := 3 }).ret = "t3" ∧
    ((StmtNode.ForNode none
        (some (ExprNode.UnaryOpNode "!" (ExprNode.BinaryOpNode "<" (ExprNode.VarNode "a" none)
          (ExprNode.ConstNode "3")))) none (StmtNode.BlockNode [])).generate_code Ctx.start).out =
      ["L0:", "t0 = a", "t1 = 3", "t2 = t0 < t1", "t3 = !t2", "if t2 goto L1", "goto L2", "L1:",
       "goto L0", "L2:"] ∧
    ((StmtNode.WhileNode
        (ExprNode.UnaryOpNode "!" (ExprNode.BinaryOpNode "<" (ExprNode.VarNode "a" none)
          (ExprNode.ConstNode "3"))) (StmtNode.BlockNode [])).generate_code Ctx.start).out =
      ["L0:", "t0 = a", "t1 = 3", "t2 = t0 < t1", "t3 = !t2", "if t3 goto L1", "goto L2", "L1:",
       "goto L0", "L2:"] := by
  refine ⟨?_, ?_, ?_⟩ <;> decide

/-- C19 (witness): generated with the temp counter at 5, the function
`void f() { x = 1; }` allocates `t5` first. -/
theorem counters_continue_across_functions_witness :
    ∀ t ∈ ((FuncDeclNode.mk "void" "f" []
      (some [StmtNode.ExprStmtNode (some (ExprNode.AssignNode "x" none
        (ExprNode.ConstNode "1")))])).generate_code { Ctx.start with temp_count := 5 }).temps.head?,
      t = "t5" :=
  fun t ht => ((counters_continue_across_functions _ _).2.2.2.2.1 t ht).trans (by decide)

/-! ### Jump lines -/

theorem dropWhile_append_stop (p : Char → Bool) (c : Char) (hc : p c = false) :
    ∀ (xs tl : List Char), (xs ++ c :: tl).dropWhile p = xs.dropWhile p ++ c :: tl
  | [], tl => by simp [List.dropWhile, hc]
  | x :: xs, tl => by
      by_cases hx : p x = true
      · simp [List.dropWhile, hx, dropWhile_append_stop p c hc xs tl]
      · simp [List.dropWhile, hx]

theorem takeWhile_append_stop (p : Char → Bool) (c : Char) (hc : p c = false) :
    ∀ (xs tl : List Char), (xs ++ c :: tl).takeWhile p = xs.takeWhile p
  | [], tl => by simp [List.takeWhile, hc]
  | x :: xs, tl => by
      by_cases hx : p x = true
      · simp [List.takeWhile, hx, takeWhile_append_stop p c hc xs tl]
      · simp [List.takeWhile, hx]

theorem takeWhile_all (p : Char → Bool) : ∀ (xs : List Char), (∀ d ∈ xs, p d = true) →
    xs.takeWhile p = xs ∧ xs.dropWhile p = []
  | [], _ => by simp
  | x :: xs, h => by
      have hx : p x = true := h x (List.mem_cons_self _ _)
      have ih := takeWhile_all p xs (fun d hd => h d (List.mem_cons_of_mem _ hd))
      simp [List.takeWhile, List.dropWhile, hx, ih.1, ih.2]

theorem goto_target_goto_line (k : Nat) : goto_target (goto_line k) = some k := by
  obtain ⟨hne, hdig, hval⟩ := toString_data k
  have hd : (goto_line k).data = 'g' :: 'o' :: 't' :: 'o' :: ' ' :: 'L' :: (toString k).data := by
    simp [goto_line, String.data_append]
  unfold goto_target
  rw [hd]
  simp [hne, hval]
  exact hdig

theorem goto_target_of_eq_sign (s : String) (h : '=' ∈ s.data) : goto_target s = none := by
  unfold goto_target
  split
  · rename_i ds heq
    split
    · rename_i hc
      exfalso
      rw [heq] at h
      simp at h
      have := hc.2 '=' h
      revert this
      decide
    · rfl
  · rfl

theorem goto_target_of_head (s : String) (h : s.data.head? ≠ some 'g') : goto_target s = none := by
  unfold goto_target
  split
  · rename_i ds heq
    rw [heq] at h
    simp at h
  · rfl

theorem if_target_of_head (s : String) (h : s.data.head? ≠ some 'i') : if_target s = none := by
  unfold if_target
  split
  · rename_i rest heq
    rw [heq] at h
    simp at h
  · rfl

theorem if_target_if_line (name : String) (k : Nat) : if_target (if_line name k) = some k := by
  obtain ⟨hne, hdig, hval⟩ := toString_data k
  have hd : (if_line name k).data =
      'i' :: 'f' :: ' ' :: (name.data ++ ' ' :: 'g' :: 'o' :: 't' :: 'o' :: ' ' :: 'L' ::
        (toString k).data) := by
    simp [if_line, String.data_append]
  have hrev : (name.data ++ ' ' :: 'g' :: 'o' :: 't' :: 'o' :: ' ' :: 'L' ::
      (toString k).data).reverse =
      (toString k).data.reverse ++ 'L' :: ' ' :: 'o' :: 't' :: 'o' :: 'g' :: ' ' ::
        name.data.reverse := by
    simp
  have hall : ∀ d ∈ (toString k).data.reverse, Char.isDigit d = true :=
    fun d hd => hdig d (List.mem_reverse.1 hd)
  have hL : Char.isDigit 'L' = false := by decide
  have h1 := dropWhile_append_stop Char.isDigit 'L' hL (toString k).data.reverse
    (' ' :: 'o' :: 't' :: 'o' :: 'g' :: ' ' :: name.data.reverse)
  have h2 := takeWhile_append_stop Char.isDigit 'L' hL (toString k).data.reverse
    (' ' :: 'o' :: 't' :: 'o' :: 'g' :: ' ' :: name.data.reverse)
  rw [(takeWhile_all Char.isDigit _ hall).2] at h1
  rw [(takeWhile_all Char.isDigit _ hall).1] at h2
  unfold if_target
  rw [hd]
  simp only [hrev, h1, h2, List.nil_append, List.reverse_reverse]
  simp [hne, hval]

theorem jump_target_goto_line (k : Nat) : jump_target (goto_line k) = some k := by
  simp [jump_target, goto_target_goto_line]

theorem jump_target_if_line (name : String) (k : Nat) : jump_target (if_line name k) = some k := by
  have h : goto_target (if_line name k) = none :=
    goto_target_of_head _ (by simp [if_line, String.data_append])
  simp [jump_target, h, if_target_if_line]

theorem jump_target_of_head (s : String) (h1 : s.data.head? ≠ some 'g')
    (h2 : s.data.head? ≠ some 'i') : jump_target s = none := by
  simp [jump_target, goto_target_of_head s h1, if_target_of_head s h2]

theorem jump_target_label_line (k : Nat) : jump_target (label_line k) = none :=
  jump_target_of_head _ (by simp [label_line, String.data_append])
    (by simp [label_line, String.data_append])

theorem mem_of_mem_dropWhile_digits {x : Char} : ∀ {xs : List Char},
    x ∈ xs.dropWhile Char.isDigit → x ∈ xs
  | [], h => by simp at h
  | y :: ys, h => by
      by_cases hy : Char.isDigit y = true
      · simp only [List.dropWhile, hy] at h
        exact List.mem_cons_of_mem _ (mem_of_mem_dropWhile_digits h)
      · simp only [List.dropWhile, hy] at h
        exact h

theorem if_target_of_store (s : String) (q rhs : List Char)
    (h : s.data = q ++ '=' :: ' ' :: rhs) (hr : ' ' ∉ rhs) : if_target s = none := by
  unfold if_target
  split
  · rename_i rest heq
    rw [h] at heq
    have hrest : ∃ q2, rest = q2 ++ '=' :: ' ' :: rhs := by
      rcases q with _ | ⟨a, _ | ⟨b, _ | ⟨c, q2⟩⟩⟩
      · simp at heq
      · simp at heq
      · simp at heq
      · refine ⟨q2, ?_⟩
        simp only [List.cons_append, List.cons.injEq] at heq
        exact heq.2.2.2.symm
    obtain ⟨q2, hq2⟩ := hrest
    have hrev : rest.reverse = rhs.reverse ++ ' ' :: '=' :: q2.reverse := by
      rw [hq2]; simp
    have hsp : Char.isDigit ' ' = false := by decide
    have hdrop := dropWhile_append_stop Char.isDigit ' ' hsp rhs.reverse ('=' :: q2.reverse)
    rw [hrev, hdrop]
    split
    · rename_i tl heq2
      exfalso
      have hmem : ∀ x ∈ rhs.reverse.dropWhile Char.isDigit, x ≠ ' ' := by
        intro x hx hxe
        have := mem_of_mem_dropWhile_digits hx
        rw [List.mem_reverse] at this
        exact hr (hxe ▸ this)
      rcases hR : rhs.reverse.dropWhile Char.isDigit with _ | ⟨a, _ | ⟨b, r3⟩⟩
      · rw [hR] at heq2
        simp at heq2
      · rw [hR] at heq2
        simp at heq2
      · rw [hR] at heq2 hmem
        simp only [List.cons_append, List.cons.injEq] at heq2
        exact hmem b (by simp) heq2.2.1
    · rfl
  · rfl

theorem jump_target_of_store (s : String) (q rhs : List Char)
    (h : s.data = q ++ '=' :: ' ' :: rhs) (hr : ' ' ∉ rhs) : jump_target s = none := by
  have hg : goto_target s = none := goto_target_of_eq_sign s (by rw [h]; simp)
  simp [jump_target, hg, if_target_of_store s q rhs h hr]

theorem jump_target_assign (lhs rhs : String) (hr : ' ' ∉ rhs.data) :
    jump_target (lhs ++ " = " ++ rhs) = none :=
  jump_target_of_store _ (lhs.data ++ [' ']) rhs.data (by simp [String.data_append]) hr

theorem jump_target_array_store (arr idx rhs : String) (hr : ' ' ∉ rhs.data) :
    jump_target (arr ++ "[" ++ idx ++ "] = " ++ rhs) = none :=
  jump_target_of_store _ (arr.data ++ '[' :: (idx.data ++ [']', ' '])) rhs.data
    (by simp [String.data_append]) hr

theorem is_temp_plain (s : String) (h : is_temp s = true) : ' ' ∉ s.data := by
  unfold is_temp at h
  split at h
  · rename_i c rest heq
    rw [heq]
    simp only [List.all_eq_true] at h
    intro hm
    simp only [List.mem_cons] at hm
    rcases hm with hm | hm
    · revert hm; decide
    · have := h ' ' (by simpa using hm)
      revert this
      decide
  · cases h

theorem temp_name_plain (k : Nat) : ' ' ∉ (temp_name k).data :=
  is_temp_plain _ (is_temp_temp_name k)

theorem jump_targets_nil : jump_targets [] = [] := rfl

theorem jump_targets_append (a b : List String) :
    jump_targets (a ++ b) = jump_targets a ++ jump_targets b := by
  simp [jump_targets, List.filterMap_append]

theorem jump_targets_cons_none (s : String) (rest : List String) (h : jump_target s = none) :
    jump_targets (s :: rest) = jump_targets rest := by
  simp [jump_targets, List.filterMap_cons, h]

theorem jump_targets_cons_goto (k : Nat) (rest : List String) :
    jump_targets (goto_line k :: rest) = k :: jump_targets rest := by
  simp [jump_targets, List.filterMap_cons, jump_target_goto_line]

theorem jump_targets_cons_if (name : String) (k : Nat) (rest : List String) :
    jump_targets (if_line name k :: rest) = k :: jump_targets rest := by
  simp [jump_targets, List.filterMap_cons, jump_target_if_line]

theorem jump_targets_cons_label (k : Nat) (rest : List String) :
    jump_targets (label_line k :: rest) = jump_targets rest :=
  jump_targets_cons_none _ _ (jump_target_label_line k)

theorem jump_targets_params (l : List String) :
    jump_targets (l.map (fun t => "param " ++ t)) = [] := by
  induction l with
  | nil => rfl
  | cons a l ih =>
    rw [List.map_cons, jump_targets_cons_none _ _
      (jump_target_of_head _ (by simp [String.data_append]) (by simp [String.data_append])), ih]

theorem jump_targets_single_temp (s : String) (h : s.data.head? = some 't') :
    jump_targets [s] = [] := by
  rw [jump_targets_cons_none _ _ (jump_target_of_head _ (by rw [h]; decide) (by rw [h]; decide))]
  rfl

theorem loaded_plain_insert {m : StrMap} (h : ∀ x s, m x = some s → ' ' ∉ s.data)
    (name : String) (k : Nat) :
    ∀ x s, m.insert name (temp_name k) x = some s → ' ' ∉ s.data := by
  intro x s hx
  unfold StrMap.insert at hx
  split at hx
  · simp only [Option.some.injEq] at hx
    rw [← hx]
    exact temp_name_plain k
  · exact h x s hx

theorem loaded_plain_erase {m : StrMap} (h : ∀ x s, m x = some s → ' ' ∉ s.data)
    (name : String) : ∀ x s, m.erase name x = some s → ' ' ∉ s.data := by
  intro x s hx
  unfold StrMap.erase at hx
  split at hx
  · cases hx
  · exact h x s hx

mutual
theorem expr_jumps : ∀ (e : ExprNode) (c : Ctx), c.loaded_plain →
    (e.generate_code c).ctx.loaded_plain ∧ ' ' ∉ (e.generate_code c).ret.data ∧
      jump_targets (e.generate_code c).out = []
  | .VarNode name index, c, h => by
      have hi := index_jumps index
        { c with symbol_to_temp := ((c.symbol_to_temp.bind_self name).subscript name).2 } h
      simp only [ExprNode.generate_code]
      split
      · refine ⟨hi.1, temp_name_plain _, ?_⟩
        rw [jump_targets_append, hi.2.2,
          jump_targets_single_temp _ (by simp [temp_name, String.data_append])]
        rfl
      · split
        · rename_i cached hc
          exact ⟨h, h _ _ hc, rfl⟩
        · split
          · rename_i ht
            exact ⟨h, is_temp_plain _ ht, rfl⟩
          · refine ⟨loaded_plain_insert h _ _, temp_name_plain _, ?_⟩
            exact jump_targets_single_temp _ (by simp [temp_name, String.data_append])
  | .ConstNode value, c, h => by
      simp only [ExprNode.generate_code]
      exact ⟨h, temp_name_plain _,
        jump_targets_single_temp _ (by simp [temp_name, String.data_append])⟩
  | .BinaryOpNode op left right, c, h => by
      have hl := expr_jumps left c h
      have hr := expr_jumps right _ hl.1
      simp only [ExprNode.generate_code]
      refine ⟨hr.1, temp_name_plain _, ?_⟩
      rw [jump_targets_append, jump_targets_append, hl.2.2, hr.2.2,
        jump_targets_single_temp _ (by simp [temp_name, String.data_append])]
      rfl
  | .UnaryOpNode op expr, c, h => by
      have he := expr_jumps expr c h
      simp only [ExprNode.generate_code]
      refine ⟨he.1, temp_name_plain _, ?_⟩
      rw [jump_targets_append, he.2.2,
        jump_targets_single_temp _ (by simp [temp_name, String.data_append])]
      rfl
  | .AssignNode lhs_name lhs_index rhs, c, h => by
      have hr := expr_jumps rhs c h
      have hi := index_jumps lhs_index
        { (rhs.generate_code c).ctx with
          symbol_to_temp := ((rhs.generate_code c).ctx.symbol_to_temp.subscript lhs_name).2 } hr.1
      simp only [ExprNode.generate_code]
      split
      · refine ⟨hi.1, hr.2.1, ?_⟩
        rw [jump_targets_append, jump_targets_append, hr.2.2, hi.2.2,
          jump_targets_cons_none _ _ (jump_target_array_store _ _ _ hr.2.1)]
        rfl
      · refine ⟨loaded_plain_erase hr.1 _, hr.2.1, ?_⟩
        rw [jump_targets_append, hr.2.2,
          jump_targets_cons_none _ _ (jump_target_assign _ _ hr.2.1)]
        rfl
  | .FuncCallNode func_name arguments, c, h => by
      have ha := arguments_jumps arguments c h
      simp only [ExprNode.generate_code]
      refine ⟨ha.1, temp_name_plain _, ?_⟩
      rw [jump_targets_append, jump_targets_append, ha.2, jump_targets_params,
        jump_targets_single_temp _ (by simp [temp_name, String.data_append])]
      rfl
theorem index_jumps : ∀ (o : Option ExprNode) (c : Ctx), c.loaded_plain →
    (generate_index_code o c).ctx.loaded_plain ∧ ' ' ∉ (generate_index_code o c).ret.data ∧
      jump_targets (generate_index_code o c).out = []
  | none, c, h => by
      simp only [generate_index_code]
      exact ⟨h, by decide, rfl⟩
  | some e, c, h => by
      have he := expr_jumps e c h
      simp only [generate_index_code]
      refine ⟨he.1, temp_name_plain _, ?_⟩
      rw [jump_targets_append, he.2.2,
        jump_targets_single_temp _ (by simp [temp_name, String.data_append])]
      rfl
theorem arguments_jumps : ∀ (l : List ExprNode) (c : Ctx), c.loaded_plain →
    (generate_arguments l c).ctx.loaded_plain ∧ jump_targets (generate_arguments l c).out = []
  | [], c, h => ⟨h, rfl⟩
  | a :: rest, c, h => by
      have ha := expr_jumps a c h
      have hr := arguments_jumps rest _ ha.1
      simp only [generate_arguments]
      refine ⟨hr.1, ?_⟩
      rw [jump_targets_append, ha.2.2, hr.2]
      rfl
end

theorem jumps_within_nil (lo hi : Nat) : jumps_within [] lo hi := by
  intro k hk
  simp [jump_targets] at hk

theorem jumps_within_of_none {out : List String} (h : jump_targets out = []) (lo hi : Nat) :
    jumps_within out lo hi := by
  intro k hk
  rw [h] at hk
  simp at hk

theorem jumps_within_mono {out : List String} {a b a2 b2 : Nat} (h : jumps_within out a b)
    (ha : a2 ≤ a) (hb : b ≤ b2) : jumps_within out a2 b2 := by
  intro k hk
  have := h k hk
  omega

theorem jumps_within_append {x y : List String} {lo hi : Nat} (hx : jumps_within x lo hi)
    (hy : jumps_within y lo hi) : jumps_within (x ++ y) lo hi := by
  intro k hk
  rw [jump_targets_append, List.mem_append] at hk
  rcases hk with h | h
  · exact hx k h
  · exact hy k h

theorem jumps_within_cons_goto {rest : List String} {lo hi : Nat} (k : Nat)
    (hk : lo ≤ k ∧ k < hi) (hr : jumps_within rest lo hi) :
    jumps_within (goto_line k :: rest) lo hi := by
  intro j hj
  rw [jump_targets_cons_goto, List.mem_cons] at hj
  rcases hj with h | h
  · rw [h]; exact hk
  · exact hr j h

theorem jumps_within_cons_if {rest : List String} {lo hi : Nat} (name : String) (k : Nat)
    (hk : lo ≤ k ∧ k < hi) (hr : jumps_within rest lo hi) :
    jumps_within (if_line name k :: rest) lo hi := by
  intro j hj
  rw [jump_targets_cons_if, List.mem_cons] at hj
  rcases hj with h | h
  · rw [h]; exact hk
  · exact hr j h

theorem jumps_within_cons_label {rest : List String} {lo hi : Nat} (k : Nat)
    (hr : jumps_within rest lo hi) : jumps_within (label_line k :: rest) lo hi := by
  intro j hj
  rw [jump_targets_cons_label] at hj
  exact hr j hj

theorem optional_jumps (o : Option ExprNode) (c : Ctx) (h : c.loaded_plain) :
    (generate_optional o c).ctx.loaded_plain ∧ jump_targets (generate_optional o c).out = [] := by
  cases o with
  | none => exact ⟨h, rfl⟩
  | some e => exact ⟨(expr_jumps e c h).1, (expr_jumps e c h).2.2⟩

theorem decl_jumps (type : String) : ∀ (vars : List (String × Int)) (c : Ctx), c.loaded_plain →
    (generate_decl type vars c).ctx.loaded_plain ∧ jump_targets (generate_decl type vars c).out = []
  | [], c, h => ⟨h, rfl⟩
  | v :: rest, c, h => by
      have ih := decl_jumps type rest
        { c with symbol_to_temp := c.symbol_to_temp.bind_self v.1 } h
      simp only [generate_decl]
      refine ⟨ih.1, ?_⟩
      split
      · rw [jump_targets_cons_none _ _ (jump_target_of_head _ (by simp [String.data_append])
          (by simp [String.data_append]))]
        exact ih.2
      · rw [jump_targets_cons_none _ _ (jump_target_of_head _ (by simp [String.data_append])
          (by simp [String.data_append]))]
        exact ih.2

theorem return_line_jump (name : String) : jump_targets ["return " ++ name] = [] := by
  rw [jump_targets_cons_none _ _ (jump_target_of_head _ (by simp [String.data_append])
    (by simp [String.data_append]))]
  rfl

theorem return_jumps (expr : Option ExprNode) (c : Ctx) (h : c.loaded_plain) :
    ((StmtNode.ReturnNode expr).generate_code c).ctx.loaded_plain ∧
      jump_targets ((StmtNode.ReturnNode expr).generate_code c).out = [] := by
  simp only [StmtNode.generate_code]
  split
  · split
    · exact ⟨h, return_line_jump _⟩
    · rename_i var_name _ _
      have he := expr_jumps (ExprNode.VarNode var_name none) c h
      refine ⟨he.1, ?_⟩
      rw [jump_targets_append, he.2.2, return_line_jump]
      rfl
  · rename_i e0 _
    have he := expr_jumps e0 c h
    refine ⟨he.1, ?_⟩
    rw [jump_targets_append, he.2.2, return_line_jump]
    rfl
  · exact ⟨h, (by decide : jump_targets ["return"] = [])⟩

mutual
theorem stmt_jumps : ∀ (s : StmtNode) (c : Ctx), c.loaded_plain →
    (s.generate_code c).ctx.loaded_plain ∧
      jumps_within (s.generate_code c).out c.label_count (s.generate_code c).ctx.label_count
  | .ExprStmtNode expr, c, h => by
      have he := optional_jumps expr c h
      have hl := (optional_labels expr c).2
      simp only [StmtNode.generate_code]
      exact ⟨he.1, jumps_within_of_none he.2 _ _⟩
  | .BlockNode statements, c, h => by
      simpa [StmtNode.generate_code] using statements_jumps statements c h
  | .IfNode condition then_block (some els), c, h => by
      have hc := expr_jumps condition c h
      have hcl := (expr_labels condition c).2
      simp only [StmtNode.generate_code]
      generalize condition.generate_code c = cg at *
      have ht := stmt_jumps then_block
        { cg.ctx with label_count := cg.ctx.label_count + 2 } hc.1
      have htl := (stmt_labels then_block
        { cg.ctx with label_count := cg.ctx.label_count + 2 }).1
      generalize then_block.generate_code
        { cg.ctx with label_count := cg.ctx.label_count + 2 } = tg at *
      have he := stmt_jumps els { tg.ctx with label_count := tg.ctx.label_count + 1 } ht.1
      have hel := (stmt_labels els { tg.ctx with label_count := tg.ctx.label_count + 1 }).1
      generalize els.generate_code { tg.ctx with label_count := tg.ctx.label_count + 1 } = eg at *
      simp only at htl hel
      refine ⟨he.1, ?_⟩
      refine jumps_within_append (jumps_within_append (jumps_within_append (jumps_within_append
        (jumps_within_append (jumps_within_of_none hc.2.2 _ _) ?_) ?_) ?_) ?_) ?_
      · exact jumps_within_cons_if _ _ (by omega) (jumps_within_cons_goto _ (by omega)
          (jumps_within_cons_label _ (jumps_within_nil _ _)))
      · exact jumps_within_mono ht.2 (by show _ ≤ cg.ctx.label_count + 2; omega)
          (by show _ ≤ eg.ctx.label_count; omega)
      · exact jumps_within_cons_goto _ (by omega)
          (jumps_within_cons_label _ (jumps_within_nil _ _))
      · exact jumps_within_mono he.2 (by show _ ≤ tg.ctx.label_count + 1; omega) (le_refl _)
      · exact jumps_within_cons_label _ (jumps_within_nil _ _)
  | .IfNode condition then_block none, c, h => by
      have hc := expr_jumps condition c h
      have hcl := (expr_labels condition c).2
      simp only [StmtNode.generate_code]
      generalize condition.generate_code c = cg at *
      have ht := stmt_jumps then_block
        { cg.ctx with label_count := cg.ctx.label_count + 2 } hc.1
      have htl := (stmt_labels then_block
        { cg.ctx with label_count := cg.ctx.label_count + 2 }).1
      generalize then_block.generate_code
        { cg.ctx with label_count := cg.ctx.label_count + 2 } = tg at *
      simp only at htl
      refine ⟨ht.1, ?_⟩
      show jumps_within _ _ (tg.ctx.label_count + 1)
      refine jumps_within_append (jumps_within_append (jumps_within_append
        (jumps_within_of_none hc.2.2 _ _) ?_) ?_) ?_
      · exact jumps_within_cons_if _ _ (by omega) (jumps_within_cons_goto _ (by omega)
          (jumps_within_cons_label _ (jumps_within_nil _ _)))
      · exact jumps_within_mono ht.2 (by show _ ≤ cg.ctx.label_count + 2; omega) (by omega)
      · exact jumps_within_cons_goto _ (by omega) (jumps_within_cons_label _
          (jumps_within_cons_label _ (jumps_within_nil _ _)))
  | .WhileNode condition body, c, h => by
      have hc := expr_jumps condition { c with label_count := c.label_count + 3 } h
      have hcl := (expr_labels condition { c with label_count := c.label_count + 3 }).2
      simp only [StmtNode.generate_code]
      generalize condition.generate_code { c with label_count := c.label_count + 3 } = cg at *
      have hb := stmt_jumps body cg.ctx hc.1
      have hbl := (stmt_labels body cg.ctx).1
      generalize body.generate_code cg.ctx = bg at *
      simp only at hcl
      refine ⟨hb.1, ?_⟩
      refine jumps_within_append (jumps_within_append (jumps_within_append (jumps_within_append
        ?_ (jumps_within_of_none hc.2.2 _ _)) ?_) ?_) ?_
      · exact jumps_within_cons_label _ (jumps_within_nil _ _)
      · exact jumps_within_cons_if _ _ (by omega) (jumps_within_cons_goto _ (by omega)
          (jumps_within_cons_label _ (jumps_within_nil _ _)))
      · exact jumps_within_mono hb.2 (by omega) (le_refl _)
      · exact jumps_within_cons_goto _ (by omega)
          (jumps_within_cons_label _ (jumps_within_nil _ _))
  | .ForNode init (some cond_expr) update body, c, h => by
      have hi := optional_jumps init c h
      have hil := (optional_labels init c).2
      simp only [StmtNode.generate_code, branch_eq]
      generalize generate_optional init c = ig at *
      have hc := expr_jumps cond_expr
        { ig.ctx with label_count := ig.ctx.label_count + 3, temp_cond := "" } hi.1
      have hcl := (expr_labels cond_expr
        { ig.ctx with label_count := ig.ctx.label_count + 3, temp_cond := "" }).2
      generalize cond_expr.generate_code
        { ig.ctx with label_count := ig.ctx.label_count + 3, temp_cond := "" } = cg at *
      have hb := stmt_jumps body { cg.ctx with temp_cond := "" } hc.1
      have hbl := (stmt_labels body { cg.ctx with temp_cond := "" }).1
      generalize body.generate_code { cg.ctx with temp_cond := "" } = bg at *
      have hu := optional_jumps update bg.ctx hb.1
      have hul := (optional_labels update bg.ctx).2
      generalize generate_optional update bg.ctx = ug at *
      simp only at hcl hbl
      refine ⟨hu.1, ?_⟩
      refine jumps_within_append (jumps_within_append (jumps_within_append (jumps_within_append
        (jumps_within_append (jumps_within_append (jumps_within_of_none hi.2 _ _) ?_) ?_) ?_) ?_)
        (jumps_within_of_none hu.2 _ _)) ?_
      · exact jumps_within_cons_label _ (jumps_within_nil _ _)
      · exact jumps_within_append (jumps_within_of_none hc.2.2 _ _)
          (jumps_within_cons_if _ _ (by omega) (jumps_within_cons_goto _ (by omega)
            (jumps_within_nil _ _)))
      · exact jumps_within_cons_label _ (jumps_within_nil _ _)
      · exact jumps_within_mono hb.2 (by show _ ≤ cg.ctx.label_count; omega) (by omega)
      · exact jumps_within_cons_goto _ (by omega)
          (jumps_within_cons_label _ (jumps_within_nil _ _))
  | .ForNode init none update body, c, h => by
      have hi := optional_jumps init c h
      have hil := (optional_labels init c).2
      simp only [StmtNode.generate_code]
      generalize generate_optional init c = ig at *
      have hb := stmt_jumps body
        { ig.ctx with label_count := ig.ctx.label_count + 3, temp_cond := "" } hi.1
      have hbl := (stmt_labels body
        { ig.ctx with label_count := ig.ctx.label_count + 3, temp_cond := "" }).1
      generalize body.generate_code
        { ig.ctx with label_count := ig.ctx.label_count + 3, temp_cond := "" } = bg at *
      have hu := optional_jumps update bg.ctx hb.1
      have hul := (optional_labels update bg.ctx).2
      generalize generate_optional update bg.ctx = ug at *
      simp only at hbl
      refine ⟨hu.1, ?_⟩
      refine jumps_within_append (jumps_within_append (jumps_within_append (jumps_within_append
        (jumps_within_append (jumps_within_append (jumps_within_of_none hi.2 _ _) ?_) ?_) ?_) ?_)
        (jumps_within_of_none hu.2 _ _)) ?_
      · exact jumps_within_cons_label _ (jumps_within_nil _ _)
      · exact jumps_within_nil _ _
      · exact jumps_within_cons_label _ (jumps_within_nil _ _)
      · exact jumps_within_mono hb.2 (by show _ ≤ ig.ctx.label_count + 3; omega) (by omega)
      · exact jumps_within_cons_goto _ (by omega)
          (jumps_within_cons_label _ (jumps_within_nil _ _))
  | .ReturnNode expr, c, h => by
      have hr := return_jumps expr c h
      exact ⟨hr.1, jumps_within_of_none hr.2 _ _⟩
  | .DeclNode type vars, c, h => by
      have hd := decl_jumps type vars c h
      simp only [StmtNode.generate_code]
      exact ⟨hd.1, jumps_within_of_none hd.2 _ _⟩
theorem statements_jumps : ∀ (l : List StmtNode) (c : Ctx), c.loaded_plain →
    (generate_statements l c).ctx.loaded_plain ∧
      jumps_within (generate_statements l c).out c.label_count
        (generate_statements l c).ctx.label_count
  | [], c, h => ⟨h, jumps_within_nil _ _⟩
  | s :: rest, c, h => by
      have hs := stmt_jumps s c h
      have hsl := (stmt_labels s c).1
      have hr := statements_jumps rest (s.generate_code c).ctx hs.1
      have hrl := (statements_labels rest (s.generate_code c).ctx).1
      simp only [generate_statements]
      exact ⟨hr.1, jumps_within_append (jumps_within_mono hs.2 (le_refl _) hrl)
        (jumps_within_mono hr.2 hsl (le_refl _))⟩
end

theorem params_jumps : ∀ (params : List (String × String)) (c : Ctx),
    jump_targets (generate_params params c).out = []
  | [], c => rfl
  | p :: rest, c => by
      simp only [generate_params]
      rw [jump_targets_cons_none _ _ (jump_target_of_head _
        (by simp [temp_name, String.data_append]) (by simp [temp_name, String.data_append]))]
      exact params_jumps rest _

theorem func_jumps (f : FuncDeclNode) (c : Ctx) :
    (f.generate_code c).ctx.loaded_plain ∧
      jumps_within (f.generate_code c).out c.label_count (f.generate_code c).ctx.label_count := by
  obtain ⟨-, hl, -, hld, -, -, -⟩ := params_frame f.params c.reset
  have hp : (generate_params f.params c.reset).ctx.loaded_plain := by
    intro x s hx
    rw [hld] at hx
    cases hx
  have hh : jump_targets [function_header f] = [] := by
    rw [jump_targets_cons_none _ _ (jump_target_of_head _
      (by simp [function_header, String.data_append])
      (by simp [function_header, String.data_append]))]
    rfl
  have hblank : jump_targets [""] = [] := by decide
  have hreset : c.reset.label_count = c.label_count := rfl
  unfold FuncDeclNode.generate_code
  cases f.body with
  | none =>
      simp only
      refine ⟨hp, jumps_within_of_none ?_ _ _⟩
      rw [jump_targets_append, jump_targets_append, jump_targets_append, hh, params_jumps, hblank]
      rfl
  | some statements =>
      simp only
      have hb := statements_jumps statements (generate_params f.params c.reset).ctx hp
      rw [hl, hreset] at hb
      refine ⟨hb.1, ?_⟩
      exact jumps_within_append (jumps_within_append (jumps_within_append
        (jumps_within_of_none hh _ _) (jumps_within_of_none (params_jumps _ _) _ _)) hb.2)
        (jumps_within_of_none hblank _ _)

mutual
theorem unit_jumps : ∀ (u : ASTNode) (c : Ctx), c.loaded_plain →
    (u.generate_code c).ctx.loaded_plain ∧
      jumps_within (u.generate_code c).out c.label_count (u.generate_code c).ctx.label_count
  | .expr e, c, h => by
      have he := expr_jumps e c h
      simp only [ASTNode.generate_code]
      exact ⟨he.1, jumps_within_of_none he.2.2 _ _⟩
  | .stmt s, c, h => by
      simpa [ASTNode.generate_code] using stmt_jumps s c h
  | .func f, c, _ => by
      simpa [ASTNode.generate_code] using func_jumps f c
  | .arguments _, c, h => by
      simp only [ASTNode.generate_code]
      exact ⟨h, jumps_within_nil _ _⟩
  | .program units, c, h => by
      simpa [ASTNode.generate_code] using program_jumps units c h
theorem program_jumps : ∀ (units : List ASTNode) (c : Ctx), c.loaded_plain →
    (ProgramNode.generate_code units c).ctx.loaded_plain ∧
      jumps_within (ProgramNode.generate_code units c).out c.label_count
        (ProgramNode.generate_code units c).ctx.label_count
  | [], c, h => ⟨h, jumps_within_nil _ _⟩
  | u :: rest, c, h => by
      have hu := unit_jumps u c h
      have hul := (unit_labels u c).1
      have hr := program_jumps rest (u.generate_code c).ctx hu.1
      have hrl := (program_labels rest (u.generate_code c).ctx).1
      simp only [ProgramNode.generate_code]
      exact ⟨hr.1, jumps_within_append (jumps_within_mono hu.2 (le_refl _) hrl)
        (jumps_within_mono hr.2 hul (le_refl _))⟩
end

theorem labels_exact_defined {lo hi : Nat} {out : List String} (h : labels_exact lo hi out)
    {k : Nat} (hk : lo ≤ k ∧ k < hi) : k ∈ label_ids out := by
  have := h.2 k
  rw [if_pos hk] at this
  exact List.count_pos_iff.1 (by omega)

theorem start_loaded_plain : Ctx.start.loaded_plain := by
  intro x s hx
  cases hx

/-- C23: every jump resolves.  For every statement, generated from any context whose
last-loaded cache holds names without blanks (as it does at every function entry
and after any generation that started so), each `goto L<k>` line and each
`if <name> goto L<k>` line of its output targets a label defined by a line `L<k>:`
of the same output, and the cache keeps this form.  For every function, generated
from any context at all, each jump line of its output targets a label defined in
that function's own output.  The same holds for every program generated from a
context of the said form, the start context in particular. -/
theorem jumps_resolve :
    (∀ (s : StmtNode) (c : Ctx), c.loaded_plain →
      (s.generate_code c).ctx.loaded_plain ∧
      ∀ k ∈ jump_targets (s.generate_code c).out, k ∈ label_ids (s.generate_code c).out) ∧
    (∀ (f : FuncDeclNode) (c : Ctx),
      (f.generate_code c).ctx.loaded_plain ∧
      ∀ k ∈ jump_targets (f.generate_code c).out, k ∈ label_ids (f.generate_code c).out) ∧
    (∀ (units : List ASTNode) (c : Ctx), c.loaded_plain →
      ∀ k ∈ jump_targets (ProgramNode.generate_code units c).out,
        k ∈ label_ids (ProgramNode.generate_code units c).out) ∧
    Ctx.start.loaded_plain := by
  refine ⟨fun s c h => ?_, fun f c => ?_, fun units c h k hk => ?_, start_loaded_plain⟩
  · have hj := stmt_jumps s c h
    exact ⟨hj.1, fun k hk => labels_exact_defined (stmt_labels s c) (hj.2 k hk)⟩
  · have hj := func_jumps f c
    exact ⟨hj.1, fun k hk => labels_exact_defined (func_labels f c) (hj.2 k hk)⟩
  · exact labels_exact_defined (program_labels units c) ((program_jumps units c h).2 k hk)

/-- C23 (witness): an If with a While in its then-branch and a For in its
else-branch, generated from the start context: the jump targets are 0, 1, 3, 4, 2,
5, 6 and the jump to `L4` finds its label in the same output. -/
theorem jumps_resolve_witness :
    jump_targets ((StmtNode.IfNode (ExprNode.VarNode "x" none)
      (StmtNode.WhileNode (ExprNode.VarNode "x" none) (StmtNode.BlockNode []))
      (some (StmtNode.ForNode none none none (StmtNode.BlockNode [])))).generate_code
        Ctx.start).out = [0, 1, 3, 4, 2, 5, 6] ∧
    4 ∈ label_ids ((StmtNode.IfNode (ExprNode.VarNode "x" none)
      (StmtNode.WhileNode (ExprNode.VarNode "x" none) (StmtNode.BlockNode []))
      (some (StmtNode.ForNode none none none (StmtNode.BlockNode [])))).generate_code
        Ctx.start).out :=
  ⟨by decide, (jumps_resolve.1 _ Ctx.start jumps_resolve.2.2.2).2 4 (by decide)⟩

/-! ### The loop condition and the return shortcut after earlier statements -/

/-- C21 (code at the failing input): the function
`void f() { x = 5; y = x; while (x) { x = x - 1; } }`.  The read of `x` in `y = x`
loads `t1` and caches it; the loop condition then hits the cache, so between
`L0:` and `if t1 goto L1` no load of `x` is emitted and every iteration tests the
`t1` loaded before the loop head.  Without the statement `y = x` the load
`t1 = x` follows `L0:`. -/
theorem while_condition_uses_cached_load :
    ((FuncDeclNode.mk "void" "f" []
      (some [StmtNode.ExprStmtNode (some (ExprNode.AssignNode "x" none (ExprNode.ConstNode "5"))),
        StmtNode.ExprStmtNode (some (ExprNode.AssignNode "y" none (ExprNode.VarNode "x" none))),
        StmtNode.WhileNode (ExprNode.VarNode "x" none)
          (StmtNode.BlockNode [StmtNode.ExprStmtNode (some (ExprNode.AssignNode "x" none
            (ExprNode.BinaryOpNode "-" (ExprNode.VarNode "x" none)
              (ExprNode.ConstNode "1"))))])])).generate_code Ctx.start).out =
      ["// Function: void f()", "t0 = 5", "x = t0", "t1 = x", "y = t1", "L0:", "if t1 goto L1",
       "goto L2", "L1:", "t2 = 1", "t3 = t1 - t2", "x = t3", "goto L0", "L2:", ""] ∧
    ((FuncDeclNode.mk "void" "f" []
      (some [StmtNode.ExprStmtNode (some (ExprNode.AssignNode "x" none (ExprNode.ConstNode "5"))),
        StmtNode.WhileNode (ExprNode.VarNode "x" none)
          (StmtNode.BlockNode [StmtNode.ExprStmtNode (some (ExprNode.AssignNode "x" none
            (ExprNode.BinaryOpNode "-" (ExprNode.VarNode "x" none)
              (ExprNode.ConstNode "1"))))])])).generate_code Ctx.start).out =
      ["// Function: void f()", "t0 = 5", "x = t0", "L0:", "t1 = x", "if t1 goto L1", "goto L2",
       "L1:", "t2 = 1", "t3 = t1 - t2", "x = t3", "goto L0", "L2:", ""] := by
  refine ⟨?_, ?_⟩ <;> decide

/-- C22 (code at the failing input): the function
`int f(int p) { x = p; p = 1; return x; }`.  The parameter `p` lives in `t0`, so
`x = p` emits `x = t0` and records `t0` as the last temporary assigned to `x`; the
assignment `p = 1` then emits `t0 = t1`; the return takes the shortcut and emits
`return t0`, after `t0` has been overwritten. -/
theorem return_shortcut_after_overwrite :
    ((FuncDeclNode.mk "int" "f" [("int", "p")]
      (some [StmtNode.ExprStmtNode (some (ExprNode.AssignNode "x" none (ExprNode.VarNode "p" none))),
        StmtNode.ExprStmtNode (some (ExprNode.AssignNode "p" none (ExprNode.ConstNode "1"))),
        StmtNode.ReturnNode (some (ExprNode.VarNode "x" none))])).generate_code Ctx.start).out =
      ["// Function: int f(int p)", "t0 = p", "x = t0", "t1 = 1", "t0 = t1", "return t0", ""] := by
  decide

/-! ### The name tested by a For loop -/

mutual
theorem expr_keeps_cond : ∀ (e : ExprNode) (c : Ctx), e.has_binary = false →
    (e.generate_code c).ctx.temp_cond = c.temp_cond
  | .VarNode name index, c, h => by
      simp only [ExprNode.has_binary] at h
      have hi := index_keeps_cond index
        { c with symbol_to_temp := ((c.symbol_to_temp.bind_self name).subscript name).2 } h
      simp only [ExprNode.generate_code]
      split
      · exact hi
      · split
        · rfl
        · split
          · rfl
          · rfl
  | .ConstNode value, c, _ => by
      simp only [ExprNode.generate_code]
  | .BinaryOpNode op left right, c, h => by
      simp [ExprNode.has_binary] at h
  | .UnaryOpNode op expr, c, h => by
      simp only [ExprNode.has_binary] at h
      have he := expr_keeps_cond expr c h
      simp only [ExprNode.generate_code]
      exact he
  | .AssignNode lhs_name lhs_index rhs, c, h => by
      simp only [ExprNode.has_binary, Bool.or_eq_false_iff] at h
      have hr := expr_keeps_cond rhs c h.1
      have hi := index_keeps_cond lhs_index
        { (rhs.generate_code c).ctx with
          symbol_to_temp := ((rhs.generate_code c).ctx.symbol_to_temp.subscript lhs_name).2 } h.2
      simp only [ExprNode.generate_code]
      split
      · exact hi.trans hr
      · exact hr
  | .FuncCallNode func_name arguments, c, h => by
      simp only [ExprNode.has_binary] at h
      have ha := arguments_keep_cond arguments c h
      simp only [ExprNode.generate_code]
      exact ha
theorem index_keeps_cond : ∀ (o : Option ExprNode) (c : Ctx), index_has_binary o = false →
    (generate_index_code o c).ctx.temp_cond = c.temp_cond
  | none, c, _ => rfl
  | some e, c, h => by
      simp only [index_has_binary] at h
      have he := expr_keeps_cond e c h
      simp only [generate_index_code]
      exact he
theorem arguments_keep_cond : ∀ (l : List ExprNode) (c : Ctx), arguments_have_binary l = false →
    (generate_arguments l c).ctx.temp_cond = c.temp_cond
  | [], c, _ => rfl
  | a :: rest, c, h => by
      simp only [arguments_have_binary, Bool.or_eq_false_iff] at h
      have ha := expr_keeps_cond a c h.1
      have hr := arguments_keep_cond rest (a.generate_code c).ctx h.2
      simp only [generate_arguments]
      exact hr.trans ha
end

theorem temp_name_ne_empty (k : Nat) : temp_name k ≠ "" := by
  intro h
  have := congrArg String.data h
  simp [temp_name, String.data_append] at this

/-- C20 (amended): the name tested by a For loop with a condition.  The emitted
`if <name> goto L<n+1>` line tests the `temp_cond` left by generating the condition
(from a context in which it was emptied) when that is non-empty, and the name
returned by the condition otherwise.  This is the name returned by the condition
itself whenever the condition is a binary operation or generates no binary
operation at all; and the name the condition returns does not depend on the
emptied `temp_cond`, so in these cases it is the name a While with the same
condition, generated from the same context, tests. -/
theorem for_tested_name (init update : Option ExprNode) (cond_expr : ExprNode) (body : StmtNode)
    (c : Ctx) :
    let i := generate_optional init c
    let n := i.ctx.label_count
    let g := cond_expr.generate_code { i.ctx with label_count := n + 3, temp_cond := "" }
    let name := if g.ctx.temp_cond ≠ "" then g.ctx.temp_cond else g.ret
    let w := cond_expr.generate_code { i.ctx with label_count := n + 3 }
    ((StmtNode.ForNode init (some cond_expr) update body).generate_code c).out =
      i.out ++ [label_line n] ++ g.out ++ [if_line name (n + 1), goto_line (n + 2)] ++
        [label_line (n + 1)] ++ (body.generate_code { g.ctx with temp_cond := "" }).out ++
        (generate_optional update (body.generate_code { g.ctx with temp_cond := "" }).ctx).out ++
        [goto_line n, label_line (n + 2)] ∧
    ((∃ op left right, cond_expr = ExprNode.BinaryOpNode op left right) → name = g.ret) ∧
    (cond_expr.has_binary = false → name = g.ret) ∧
    g.ret = w.ret ∧
    g.out = w.out ∧
    ((StmtNode.WhileNode cond_expr body).generate_code { i.ctx with label_count := n }).out =
      [label_line n] ++ w.out ++ [if_line w.ret (n + 1), goto_line (n + 2), label_line (n + 1)] ++
        (body.generate_code w.ctx).out ++ [goto_line n, label_line (n + 2)] := by
  intro i n g name w
  have hag : g.agree w :=
    expr_agree cond_expr _ _ ⟨rfl, rfl, rfl, rfl, rfl⟩
  refine ⟨?_, ?_, ?_, hag.2.2.1, hag.1, ?_⟩
  · simp only [StmtNode.generate_code, branch_eq, List.append_assoc, List.cons_append,
      List.nil_append]
  · rintro ⟨op, left, right, rfl⟩
    have hg : g = _ := binary_eq op left right _
    show (if g.ctx.temp_cond ≠ "" then g.ctx.temp_cond else g.ret) = g.ret
    rw [hg]
    simp only [ne_eq, temp_name_ne_empty, not_false_eq_true, if_true]
  · intro hb
    have hk : g.ctx.temp_cond = "" := expr_keeps_cond cond_expr _ hb
    show (if g.ctx.temp_cond ≠ "" then g.ctx.temp_cond else g.ret) = g.ret
    rw [hk]
    simp
  · simp only [StmtNode.generate_code]

/-- C20 (witness): `for (; a < 3; ) { }` generated from the start context tests
`t2`, the name the comparison returns. -/
theorem for_tested_name_witness :
    ((StmtNode.ForNode none
        (some (ExprNode.BinaryOpNode "<" (ExprNode.VarNode "a" none) (ExprNode.ConstNode "3")))
        none (StmtNode.BlockNode [])).generate_code Ctx.start).out =
      ["L0:", "t0 = a", "t1 = 3", "t2 = t0 < t1", "if t2 goto L1", "goto L2", "L1:", "goto L0",
       "L2:"] ∧
    (if ((ExprNode.BinaryOpNode "<" (ExprNode.VarNode "a" none)
          (ExprNode.ConstNode "3")).generate_code
          { Ctx.start with label_count := 3, temp_cond := "" }).ctx.temp_cond ≠ "" then
        ((ExprNode.BinaryOpNode "<" (ExprNode.VarNode "a" none)
          (ExprNode.ConstNode "3")).generate_code
          { Ctx.start with label_count := 3, temp_cond := "" }).ctx.temp_cond
      else
        ((ExprNode.BinaryOpNode "<" (ExprNode.VarNode "a" none)
          (ExprNode.ConstNode "3")).generate_code
          { Ctx.start with label_count := 3, temp_cond := "" }).ret) =
      ((ExprNode.BinaryOpNode "<" (ExprNode.VarNode "a" none)
          (ExprNode.ConstNode "3")).generate_code
          { Ctx.start with label_count := 3, temp_cond := "" }).ret :=
  ⟨((for_tested_name none none
      (ExprNode.BinaryOpNode "<" (ExprNode.VarNode "a" none) (ExprNode.ConstNode "3"))
      (StmtNode.BlockNode []) Ctx.start).1).trans (by decide),
   (for_tested_name none none
      (ExprNode.BinaryOpNode "<" (ExprNode.VarNode "a" none) (ExprNode.ConstNode "3"))
      (StmtNode.BlockNode []) Ctx.start).2.1 ⟨_, _, _, rfl⟩⟩
